import Mathlib

/-!
# Ball bouncing in a rotating hexagon: verification of the physics kernels

Shallow embedding over exact real arithmetic of the physics code of the
variants `g4ballhex.c`, `o4mballhex.c`, `g2.5-proballhex.c`, `c4srballhex.c`,
`qwq32ballhex.c` and `l4mballhex.c`.
C `double` is read as `ℝ`, `sqrt`/`cos`/`sin`/`fmax`/`fmin`/`fabs` as
`Real.sqrt`/`Real.cos`/`Real.sin`/`max`/`min`/`|·|`, and `M_PI` as `Real.pi`.
The single-precision constants of `g2.5-proballhex.c` (`0.85f`, `0.05f`, `1.0f / 60` and the
`float` product `GRAVITY * TIME_STEP`) are read at their exact single-precision values.
-/

noncomputable section

namespace G4

/-! ## `g4ballhex.c` -/

/-- Source: `#define HEX_RADIUS 200.0`. -/
def HEX_RADIUS : ℝ := 200

/-- Source: `#define BALL_RADIUS 10.0`. -/
def BALL_RADIUS : ℝ := 10

/-- Source: `#define G 98.0`. -/
def G : ℝ := 98

/-- Source: `#define DT 0.01`. -/
def DT : ℝ := 1 / 100

/-- Source: `#define RESTITUTION 0.8`. -/
def RESTITUTION : ℝ := 8 / 10

/-- Source: `#define MU 0.3`. -/
def MU : ℝ := 3 / 10

/-- Source: `typedef struct { double x, y; } Point;`. -/
structure Point where
  x : ℝ
  y : ℝ

/-- Source: `typedef struct { double x, y, vx, vy; } Ball;`. -/
structure Ball where
  x : ℝ
  y : ℝ
  vx : ℝ
  vy : ℝ

/-- Source: `get_hex_vertices`, entry `i` of the output array:
`theta = 2 * M_PI * i / NUM_SIDES + angle`. -/
def get_hex_vertices (center : Point) (angle : ℝ) (i : ℕ) : Point :=
  let theta := 2 * Real.pi * (i : ℝ) / 6 + angle
  ⟨center.x + HEX_RADIUS * Real.cos theta, center.y + HEX_RADIUS * Real.sin theta⟩

/-- Source: `closest_on_segment`. -/
def closest_on_segment (pos p1 p2 : Point) : Point :=
  let dir : Point := ⟨p2.x - p1.x, p2.y - p1.y⟩
  let len2 := dir.x * dir.x + dir.y * dir.y
  if len2 = 0 then p1
  else
    let s := ((pos.x - p1.x) * dir.x + (pos.y - p1.y) * dir.y) / len2
    let s := max 0 (min 1 s)
    ⟨p1.x + s * dir.x, p1.y + s * dir.y⟩

/-- Source: `wall_velocity`. -/
def wall_velocity (p center : Point) (omega : ℝ) : Point :=
  let dx := p.x - center.x
  let dy := p.y - center.y
  ⟨-omega * dy, omega * dx⟩

/-- Local `closest` of `resolve_collision`. -/
def rc_closest (ball : Ball) (p1 p2 : Point) : Point :=
  closest_on_segment ⟨ball.x, ball.y⟩ p1 p2

/-- Local `to_ball` of `resolve_collision`. -/
def rc_to_ball (ball : Ball) (p1 p2 : Point) : Point :=
  ⟨ball.x - (rc_closest ball p1 p2).x, ball.y - (rc_closest ball p1 p2).y⟩

/-- Local `dist` of `resolve_collision`. -/
def rc_dist (ball : Ball) (p1 p2 : Point) : ℝ :=
  Real.sqrt ((rc_to_ball ball p1 p2).x * (rc_to_ball ball p1 p2).x
    + (rc_to_ball ball p1 p2).y * (rc_to_ball ball p1 p2).y)

/-- Local `normal` of `resolve_collision`. -/
def rc_normal (ball : Ball) (p1 p2 : Point) : Point :=
  ⟨(rc_to_ball ball p1 p2).x / rc_dist ball p1 p2, (rc_to_ball ball p1 p2).y / rc_dist ball p1 p2⟩

/-- Local `penetration` of `resolve_collision`. -/
def rc_penetration (ball : Ball) (p1 p2 : Point) : ℝ :=
  BALL_RADIUS - rc_dist ball p1 p2

/-- Local `v_wall` of `resolve_collision`. -/
def rc_v_wall (ball : Ball) (p1 p2 center : Point) (omega : ℝ) : Point :=
  wall_velocity (rc_closest ball p1 p2) center omega

/-- Local `v_rel` of `resolve_collision`. -/
def rc_v_rel (ball : Ball) (p1 p2 center : Point) (omega : ℝ) : Point :=
  ⟨ball.vx - (rc_v_wall ball p1 p2 center omega).x, ball.vy - (rc_v_wall ball p1 p2 center omega).y⟩

/-- Local `v_n` of `resolve_collision`. -/
def rc_v_n (ball : Ball) (p1 p2 center : Point) (omega : ℝ) : ℝ :=
  (rc_v_rel ball p1 p2 center omega).x * (rc_normal ball p1 p2).x
    + (rc_v_rel ball p1 p2 center omega).y * (rc_normal ball p1 p2).y

/-- Local `j_n` of `resolve_collision`. -/
def rc_j_n (ball : Ball) (p1 p2 center : Point) (omega : ℝ) : ℝ :=
  -(1 + RESTITUTION) * rc_v_n ball p1 p2 center omega

/-- Local `tangent` of `resolve_collision`. -/
def rc_tangent (ball : Ball) (p1 p2 : Point) : Point :=
  ⟨-(rc_normal ball p1 p2).y, (rc_normal ball p1 p2).x⟩

/-- Local `v_t` of `resolve_collision`. -/
def rc_v_t (ball : Ball) (p1 p2 center : Point) (omega : ℝ) : ℝ :=
  (rc_v_rel ball p1 p2 center omega).x * (rc_tangent ball p1 p2).x
    + (rc_v_rel ball p1 p2 center omega).y * (rc_tangent ball p1 p2).y

/-- Local `mu_jn` of `resolve_collision`. -/
def rc_mu_jn (ball : Ball) (p1 p2 center : Point) (omega : ℝ) : ℝ :=
  MU * |rc_j_n ball p1 p2 center omega|

/-- Local `j_t` of `resolve_collision`, after the clamp
`if (fabs(j_t) > mu_jn) j_t = (v_t > 0 ? -mu_jn : mu_jn);`. -/
def rc_j_t (ball : Ball) (p1 p2 center : Point) (omega : ℝ) : ℝ :=
  let j_t := -rc_v_t ball p1 p2 center omega
  if |j_t| > rc_mu_jn ball p1 p2 center omega then
    (if rc_v_t ball p1 p2 center omega > 0 then -rc_mu_jn ball p1 p2 center omega
     else rc_mu_jn ball p1 p2 center omega)
  else j_t

/-- Source: `resolve_collision`; the updated `*ball` is returned. -/
def resolve_collision (ball : Ball) (p1 p2 center : Point) (omega : ℝ) : Ball :=
  if rc_dist ball p1 p2 ≥ BALL_RADIUS ∨ rc_dist ball p1 p2 = 0 then ball
  else
    let moved : Ball :=
      { ball with
        x := ball.x + (rc_normal ball p1 p2).x * rc_penetration ball p1 p2
        y := ball.y + (rc_normal ball p1 p2).y * rc_penetration ball p1 p2 }
    if rc_v_n ball p1 p2 center omega ≥ 0 then moved
    else
      { moved with
        vx := moved.vx + rc_j_n ball p1 p2 center omega * (rc_normal ball p1 p2).x
          + rc_j_t ball p1 p2 center omega * (rc_tangent ball p1 p2).x
        vy := moved.vy + rc_j_n ball p1 p2 center omega * (rc_normal ball p1 p2).y
          + rc_j_t ball p1 p2 center omega * (rc_tangent ball p1 p2).y }

/-- Specification vocabulary: the point `p1 + s * (p2 - p1)` of the segment `[p1, p2]`. -/
def seg_point (p1 p2 : Point) (s : ℝ) : Point :=
  ⟨p1.x + s * (p2.x - p1.x), p1.y + s * (p2.y - p1.y)⟩

/-- Specification vocabulary: Euclidean distance between two points. -/
def point_dist (a b : Point) : ℝ :=
  Real.sqrt ((a.x - b.x) * (a.x - b.x) + (a.y - b.y) * (a.y - b.y))

/-- Specification vocabulary: the position of a ball as a point. -/
def Ball.pos (b : Ball) : Point := ⟨b.x, b.y⟩

end G4

namespace O4M

/-! ## `o4mballhex.c` -/

/-- Source: `#define HEX_RADIUS 200.0`. -/
def HEX_RADIUS : ℝ := 200

/-- Source: `#define BALL_RADIUS 20.0`. -/
def BALL_RADIUS : ℝ := 20

/-- Source: `double cx = WIDTH / 2.0` in `main`. -/
def cx : ℝ := 800 / 2

/-- Source: `cy = HEIGHT / 2.0` in `main`. -/
def cy : ℝ := 600 / 2

/-- Source: precomputed unrotated vertex, `hx[i] = HEX_RADIUS * cos(theta)` with
`theta = 2.0 * M_PI * i / 6.0`. -/
def hx (i : ℕ) : ℝ := HEX_RADIUS * Real.cos (2 * Real.pi * (i : ℝ) / 6)

/-- Source: precomputed unrotated vertex, `hy[i] = HEX_RADIUS * sin(theta)`. -/
def hy (i : ℕ) : ℝ := HEX_RADIUS * Real.sin (2 * Real.pi * (i : ℝ) / 6)

/-- Source: rotated vertex in screen coordinates, `px[i] = cx + rx` with
`rx = hx[i] * cos(angle) - hy[i] * sin(angle)`. -/
def px (angle : ℝ) (i : ℕ) : ℝ := cx + (hx i * Real.cos angle - hy i * Real.sin angle)

/-- Source: rotated vertex in screen coordinates, `py[i] = cy + ry` with
`ry = hx[i] * sin(angle) + hy[i] * cos(angle)`. -/
def py (angle : ℝ) (i : ℕ) : ℝ := cy + (hx i * Real.sin angle + hy i * Real.cos angle)

/-- Edge loop local `dx = px[j] - px[i]` with `j = (i + 1) % 6`. -/
def edge_dx (angle : ℝ) (i : ℕ) : ℝ := px angle ((i + 1) % 6) - px angle i

/-- Edge loop local `dy = py[j] - py[i]` with `j = (i + 1) % 6`. -/
def edge_dy (angle : ℝ) (i : ℕ) : ℝ := py angle ((i + 1) % 6) - py angle i

/-- Edge loop local `len = sqrt(dx*dx + dy*dy)`. -/
def edge_len (angle : ℝ) (i : ℕ) : ℝ :=
  Real.sqrt (edge_dx angle i * edge_dx angle i + edge_dy angle i * edge_dy angle i)

/-- Edge loop local `tx = dx / len`. -/
def edge_tx (angle : ℝ) (i : ℕ) : ℝ := edge_dx angle i / edge_len angle i

/-- Edge loop local `ty = dy / len`. -/
def edge_ty (angle : ℝ) (i : ℕ) : ℝ := edge_dy angle i / edge_len angle i

/-- Edge loop local `nx = ty`, commented "inward normal (left-hand perp for CCW)" in the source. -/
def edge_nx (angle : ℝ) (i : ℕ) : ℝ := edge_ty angle i

/-- Edge loop local `ny = -tx`. -/
def edge_ny (angle : ℝ) (i : ℕ) : ℝ := -edge_tx angle i

end O4M

namespace G25

/-! ## `g2.5-proballhex.c` -/

/-- Source: `#define TIME_STEP (1.0f / FRAME_RATE)` with `FRAME_RATE` 60: the single-precision
quotient `1.0f / 60`, whose exact value is `8947849 / 2^29` (0.016666667535901...). -/
def TIME_STEP : ℝ := 8947849 / 536870912

/-- Source: `#define GRAVITY 250.0f`. -/
def GRAVITY : ℝ := 250

/-- Source: the expression `GRAVITY * TIME_STEP` of `update_physics`, a product of two `float`
operands evaluated in single precision: its exact value is `4369067 / 2^20`
(4.16666698455810546875), not `25 / 6`. -/
def GRAVITY_TIME_STEP : ℝ := 4369067 / 1048576

/-- Source: `#define RESTITUTION 0.85f`: the single-precision literal, whose exact value is
`7130317 / 2^23` (0.85000002384185791015625). -/
def RESTITUTION : ℝ := 7130317 / 8388608

/-- Source: `#define FRICTION 0.05f`: the single-precision literal, whose exact value is
`13421773 / 2^28` (0.0500000007450580596923828125). -/
def FRICTION : ℝ := 13421773 / 268435456

/-- Source: `typedef struct { double x, y; } Vec2D;`. -/
structure Vec2D where
  x : ℝ
  y : ℝ

/-- Source: `typedef struct { Vec2D pos; Vec2D vel; double radius; } Ball;`. -/
structure Ball where
  pos : Vec2D
  vel : Vec2D
  radius : ℝ

/-- Source: `typedef struct { Vec2D center; double radius; double angle;
double angular_velocity; } Hexagon;`. -/
structure Hexagon where
  center : Vec2D
  radius : ℝ
  angle : ℝ
  angular_velocity : ℝ

/-- Step 1 of `update_physics`: the rotation update with its wrap at `2 * M_PI`. -/
def advance_hexagon (hexagon : Hexagon) : Hexagon :=
  let angle := hexagon.angle + hexagon.angular_velocity * TIME_STEP
  if angle > 2 * Real.pi then { hexagon with angle := angle - 2 * Real.pi }
  else { hexagon with angle := angle }

/-- Steps 2 and 3 of `update_physics`: gravity, then the position update. -/
def integrate_ball (ball : Ball) : Ball :=
  let vel : Vec2D := ⟨ball.vel.x, ball.vel.y + GRAVITY_TIME_STEP⟩
  { ball with
    vel := vel
    pos := ⟨ball.pos.x + vel.x * TIME_STEP, ball.pos.y + vel.y * TIME_STEP⟩ }

/-- Edge loop local `v1`, with `angle1 = hexagon->angle + i * (M_PI / 3.0)`. -/
def edge_v1 (hexagon : Hexagon) (i : ℕ) : Vec2D :=
  let angle1 := hexagon.angle + (i : ℝ) * (Real.pi / 3)
  ⟨hexagon.center.x + hexagon.radius * Real.cos angle1,
    hexagon.center.y + hexagon.radius * Real.sin angle1⟩

/-- Edge loop local `v2`, with `angle2 = hexagon->angle + (i + 1) * (M_PI / 3.0)`. -/
def edge_v2 (hexagon : Hexagon) (i : ℕ) : Vec2D :=
  let angle2 := hexagon.angle + ((i + 1 : ℕ) : ℝ) * (Real.pi / 3)
  ⟨hexagon.center.x + hexagon.radius * Real.cos angle2,
    hexagon.center.y + hexagon.radius * Real.sin angle2⟩

/-- Edge loop local `edge = v2 - v1`. -/
def edge_vec (hexagon : Hexagon) (i : ℕ) : Vec2D :=
  ⟨(edge_v2 hexagon i).x - (edge_v1 hexagon i).x, (edge_v2 hexagon i).y - (edge_v1 hexagon i).y⟩

/-- Edge loop local `len`, the length of `{edge.y, -edge.x}`. -/
def edge_len (hexagon : Hexagon) (i : ℕ) : ℝ :=
  Real.sqrt ((edge_vec hexagon i).y * (edge_vec hexagon i).y
    + -(edge_vec hexagon i).x * -(edge_vec hexagon i).x)

/-- Edge loop local `normal` after the division by `len`. -/
def edge_normal (hexagon : Hexagon) (i : ℕ) : Vec2D :=
  ⟨(edge_vec hexagon i).y / edge_len hexagon i, -(edge_vec hexagon i).x / edge_len hexagon i⟩

/-- Edge loop local `dist`: `ball_to_v1` projected on `normal`. -/
def edge_dist (hexagon : Hexagon) (ball : Ball) (i : ℕ) : ℝ :=
  (ball.pos.x - (edge_v1 hexagon i).x) * (edge_normal hexagon i).x
    + (ball.pos.y - (edge_v1 hexagon i).y) * (edge_normal hexagon i).y

/-- Body of the edge loop of `update_physics` for edge `i`. -/
def edge_step (hexagon : Hexagon) (ball : Ball) (i : ℕ) : Ball :=
  let normal := edge_normal hexagon i
  let dist := edge_dist hexagon ball i
  if dist < ball.radius then
    let overlap := ball.radius - dist
    let pos : Vec2D := ⟨ball.pos.x + normal.x * overlap, ball.pos.y + normal.y * overlap⟩
    let v_dot_n := ball.vel.x * normal.x + ball.vel.y * normal.y
    let v_normal : Vec2D := ⟨normal.x * v_dot_n, normal.y * v_dot_n⟩
    let v_tangent : Vec2D := ⟨ball.vel.x - v_normal.x, ball.vel.y - v_normal.y⟩
    let v_normal : Vec2D := ⟨v_normal.x * -RESTITUTION, v_normal.y * -RESTITUTION⟩
    let v_tangent : Vec2D := ⟨v_tangent.x * (1 - FRICTION), v_tangent.y * (1 - FRICTION)⟩
    { ball with
      pos := pos
      vel := ⟨v_normal.x + v_tangent.x, v_normal.y + v_tangent.y⟩ }
  else ball

/-- The edge loop `for (int i = 0; i < n; ++i)` run on `ball`: the ball as it is when
edge `n` is about to be tested. -/
def edges_upto (hexagon : Hexagon) (ball : Ball) : ℕ → Ball
  | 0 => ball
  | n + 1 => edge_step hexagon (edges_upto hexagon ball n) n

/-- Source: `update_physics`; the updated `*ball` and `*hexagon` are returned. -/
def update_physics (ball : Ball) (hexagon : Hexagon) : Ball × Hexagon :=
  (edges_upto (advance_hexagon hexagon) (integrate_ball ball) 6, advance_hexagon hexagon)

/-- Specification vocabulary: the test `dist < ball->radius` of edge `i` fires during the call
`update_physics(ball, hexagon)`. -/
def edge_fired (ball : Ball) (hexagon : Hexagon) (i : ℕ) : Prop :=
  edge_dist (advance_hexagon hexagon)
      (edges_upto (advance_hexagon hexagon) (integrate_ball ball) i) i
    < (edges_upto (advance_hexagon hexagon) (integrate_ball ball) i).radius

/-- Specification vocabulary: `dot(p - v1_i, n_i)` for the edge `i` of `hexagon`. -/
def signed_dist (hexagon : Hexagon) (p : Vec2D) (i : ℕ) : ℝ :=
  (p.x - (edge_v1 hexagon i).x) * (edge_normal hexagon i).x
    + (p.y - (edge_v1 hexagon i).y) * (edge_normal hexagon i).y

/-- Sample input: a hexagon of radius 2 centred at the origin, at angle 0, not rotating. -/
def sample_hexagon : Hexagon := ⟨⟨0, 0⟩, 2, 0, 0⟩

/-- Sample input: a ball of radius 1 at the hexagon centre, moving up at the value of
`GRAVITY * TIME_STEP`, 4.16666698455810546875 (so that it is at rest at the centre once gravity
has been applied). -/
def sample_ball : Ball := ⟨⟨0, 0⟩, ⟨0, -(4369067 / 1048576)⟩, 1⟩

end G25

namespace G4

/-- Source: integration lines of the main loop, `ball.vy += G * DT; ball.x += ball.vx * DT;
ball.y += ball.vy * DT;` (the position update reads the updated `vy`). -/
def integrate (ball : Ball) : Ball :=
  let vy := ball.vy + G * DT
  { ball with vy := vy, x := ball.x + ball.vx * DT, y := ball.y + vy * DT }

/-- Source: the loop `for (int i = 0; i < n; i++) resolve_collision(&ball, vertices[i],
vertices[(i + 1) % NUM_SIDES], center, OMEGA)` of the main loop, with the macro `OMEGA` as
the parameter `omega`. -/
def resolve_edges (vertices : ℕ → Point) (center : Point) (omega : ℝ) (ball : Ball) : ℕ → Ball
  | 0 => ball
  | n + 1 =>
    resolve_collision (resolve_edges vertices center omega ball n)
      (vertices n) (vertices ((n + 1) % 6)) center omega

/-- Source: one pass of the main loop on the ball, from `get_hex_vertices(vertices, center,
angle)` to the end of the edge loop, for the vertex angle `angle` computed by the caller. -/
def tick (omega angle : ℝ) (center : Point) (ball : Ball) : Ball :=
  resolve_edges (get_hex_vertices center angle) center omega (integrate ball) 6

/-- Source: `Point center = {WIDTH / 2.0, HEIGHT / 2.0}` in `main`. -/
def main_center : Point := ⟨800 / 2, 600 / 2⟩

/-- Source: one pass of the main loop on `(time, ball)`: `time += DT; angle = OMEGA * time;`
followed by the tick, with the macro `OMEGA` as the parameter `omega`. -/
def main_step (omega : ℝ) (state : ℝ × Ball) : ℝ × Ball :=
  let time := state.1 + DT
  (time, tick omega (omega * time) main_center state.2)

/-- Specification vocabulary: mechanical energy per unit mass of the ball,
`(vx^2 + vy^2) / 2 - G * y` (the `y` axis points down the screen). -/
def energy (b : Ball) : ℝ := (b.vx ^ 2 + b.vy ^ 2) / 2 - G * b.y

/-- Sample input: a ball at rest just above the bottom edge of the hexagon at angle 0,
its centre `10.001` above the edge. -/
def resting_ball : Ball := ⟨400, 290 + 100 * Real.sqrt 3 - 1 / 1000, 0, 0⟩

end G4

namespace C4SR

/-! ## `c4srballhex.c` -/

/-- Source: `#define WINDOW_WIDTH 800`. -/
def WINDOW_WIDTH : ℝ := 800

/-- Source: `#define WINDOW_HEIGHT 600`. -/
def WINDOW_HEIGHT : ℝ := 600

/-- Source: `#define GRAVITY 500.0`. -/
def GRAVITY : ℝ := 500

/-- Source: `#define FRICTION 0.85`. -/
def FRICTION : ℝ := 85 / 100

/-- Source: `#define BOUNCE_DAMPING 0.8`. -/
def BOUNCE_DAMPING : ℝ := 8 / 10

/-- Source: `#define ROTATION_SPEED 0.5`. -/
def ROTATION_SPEED : ℝ := 5 / 10

/-- Source: `typedef struct { double x, y; } Point;`. -/
structure Point where
  x : ℝ
  y : ℝ

/-- Source: `typedef struct { Point pos; Point vel; double radius; unsigned long color; } Ball;`
(the colour plays no part in the physics and is left out). -/
structure Ball where
  pos : Point
  vel : Point
  radius : ℝ

/-- Source: `typedef struct { Point center; double radius; double angle; Point vertices[6];
unsigned long color; } Hexagon;` (the array is the function on the indices `0..5`; the colour is
left out). -/
structure Hexagon where
  center : Point
  radius : ℝ
  angle : ℝ
  vertices : ℕ → Point

/-- Source: `point_add`. -/
def point_add (a b : Point) : Point := ⟨a.x + b.x, a.y + b.y⟩

/-- Source: `point_sub`. -/
def point_sub (a b : Point) : Point := ⟨a.x - b.x, a.y - b.y⟩

/-- Source: `point_mul`. -/
def point_mul (a : Point) (scalar : ℝ) : Point := ⟨a.x * scalar, a.y * scalar⟩

/-- Source: `point_dot`. -/
def point_dot (a b : Point) : ℝ := a.x * b.x + a.y * b.y

/-- Source: `point_length`. -/
def point_length (a : Point) : ℝ := Real.sqrt (a.x * a.x + a.y * a.y)

/-- Source: `point_normalize`. -/
def point_normalize (a : Point) : Point :=
  let len := point_length a
  if len = 0 then ⟨0, 0⟩ else ⟨a.x / len, a.y / len⟩

/-- Source: `rotate_point`. -/
def rotate_point (p : Point) (angle : ℝ) : Point :=
  let cos_a := Real.cos angle
  let sin_a := Real.sin angle
  ⟨p.x * cos_a - p.y * sin_a, p.x * sin_a + p.y * cos_a⟩

/-- Source: `update_hexagon`, with `vertex_angle = hex->angle + i * M_PI / 3.0`. -/
def update_hexagon (hex : Hexagon) : Hexagon :=
  { hex with
    vertices := fun i =>
      let vertex_angle := hex.angle + (i : ℝ) * Real.pi / 3
      ⟨hex.center.x + hex.radius * Real.cos vertex_angle,
        hex.center.y + hex.radius * Real.sin vertex_angle⟩ }

/-- Local `t` of the loop of `check_collision` after the clamp to the segment, for the edge from
`p1` to `p2`. -/
def cc_t (ball : Ball) (p1 p2 : Point) : ℝ :=
  max 0 (min 1 (point_dot (point_sub ball.pos p1) (point_sub p2 p1)
    / point_dot (point_sub p2 p1) (point_sub p2 p1)))

/-- Local `closest_point` of the loop of `check_collision`. -/
def cc_closest_point (ball : Ball) (p1 p2 : Point) : Point :=
  point_add p1 (point_mul (point_sub p2 p1) (cc_t ball p1 p2))

/-- Local `to_closest` of the loop of `check_collision`. -/
def cc_to_closest (ball : Ball) (p1 p2 : Point) : Point :=
  point_sub ball.pos (cc_closest_point ball p1 p2)

/-- Local `distance` of the loop of `check_collision`. -/
def cc_distance (ball : Ball) (p1 p2 : Point) : ℝ :=
  point_length (cc_to_closest ball p1 p2)

/-- Body of the loop of `check_collision` for the edge from `p1` to `p2`: `none` when the loop
goes on (degenerate edge or no hit), `some (collision_point, normal)` when it returns 1. -/
def check_edge (ball : Ball) (p1 p2 : Point) : Option (Point × Point) :=
  if point_dot (point_sub p2 p1) (point_sub p2 p1) = 0 then none
  else if cc_distance ball p1 p2 < ball.radius then
    some (cc_closest_point ball p1 p2, point_normalize (cc_to_closest ball p1 p2))
  else none

/-- The loop of `check_collision` from edge `i` on, for `n` more edges. -/
def check_collision_from (ball : Ball) (hex : Hexagon) : ℕ → ℕ → Option (Point × Point)
  | 0, _ => none
  | n + 1, i =>
    match check_edge ball (hex.vertices i) (hex.vertices ((i + 1) % 6)) with
    | some hit => some hit
    | none => check_collision_from ball hex n (i + 1)

/-- Source: `check_collision`; `some (collision_point, normal)` stands for the return value 1
with the two output parameters, `none` for 0. -/
def check_collision (ball : Ball) (hex : Hexagon) : Option (Point × Point) :=
  check_collision_from ball hex 6 0

/-- Source: `handle_collision`. -/
def handle_collision (ball : Ball) (collision_point normal : Point) : Ball :=
  let correction := point_mul normal ball.radius
  let pos := point_add collision_point correction
  let dot_product := point_dot ball.vel normal
  let reflection := point_sub ball.vel (point_mul normal (2 * dot_product))
  let vel := point_mul reflection BOUNCE_DAMPING
  let tangent : Point := ⟨-normal.y, normal.x⟩
  let tangent_velocity := point_dot vel tangent
  let friction_force := point_mul tangent (-tangent_velocity * (1 - FRICTION))
  { ball with pos := pos, vel := point_add vel friction_force }

/-- First part of `update_ball`: gravity and position update. -/
def integrate (ball : Ball) (dt : ℝ) : Ball :=
  let vel : Point := ⟨ball.vel.x, ball.vel.y + GRAVITY * dt⟩
  { ball with vel := vel, pos := point_add ball.pos (point_mul vel dt) }

/-- Second part of `update_ball`: `if (check_collision(...)) handle_collision(...)`. -/
def collide (ball : Ball) (hex : Hexagon) : Ball :=
  match check_collision ball hex with
  | some hit => handle_collision ball hit.1 hit.2
  | none => ball

/-- Last part of `update_ball`: the four window-bounds tests, in the order of the source. -/
def clamp_window (ball : Ball) : Ball :=
  let b1 : Ball :=
    if ball.pos.x < ball.radius then
      { ball with
        pos := ⟨ball.radius, ball.pos.y⟩
        vel := ⟨-ball.vel.x * BOUNCE_DAMPING, ball.vel.y⟩ }
    else ball
  let b2 : Ball :=
    if b1.pos.x > WINDOW_WIDTH - b1.radius then
      { b1 with
        pos := ⟨WINDOW_WIDTH - b1.radius, b1.pos.y⟩
        vel := ⟨-b1.vel.x * BOUNCE_DAMPING, b1.vel.y⟩ }
    else b1
  let b3 : Ball :=
    if b2.pos.y < b2.radius then
      { b2 with
        pos := ⟨b2.pos.x, b2.radius⟩
        vel := ⟨b2.vel.x, -b2.vel.y * BOUNCE_DAMPING⟩ }
    else b2
  if b3.pos.y > WINDOW_HEIGHT - b3.radius then
    { b3 with
      pos := ⟨b3.pos.x, WINDOW_HEIGHT - b3.radius⟩
      vel := ⟨b3.vel.x, -b3.vel.y * BOUNCE_DAMPING⟩ }
  else b3

/-- Source: `update_ball`. -/
def update_ball (ball : Ball) (hex : Hexagon) (dt : ℝ) : Ball :=
  clamp_window (collide (integrate ball dt) hex)

/-- Specification vocabulary: the point `p1 + s * (p2 - p1)` of the segment `[p1, p2]`. -/
def seg_point (p1 p2 : Point) (s : ℝ) : Point :=
  ⟨p1.x + s * (p2.x - p1.x), p1.y + s * (p2.y - p1.y)⟩

/-- Specification vocabulary: Euclidean distance between two points. -/
def point_dist (a b : Point) : ℝ :=
  Real.sqrt ((a.x - b.x) * (a.x - b.x) + (a.y - b.y) * (a.y - b.y))

/-- Sample input: the hexagon of `main` (centre `(400, 300)`, radius 200) at angle 0, with its
vertices computed by `update_hexagon`. -/
def main_hexagon : Hexagon := update_hexagon ⟨⟨400, 300⟩, 200, 0, fun _ => ⟨0, 0⟩⟩

/-- Sample input: a ball of radius 15 inside the hexagon near the vertex between edges 0 and 1,
`10` away from edge 0 and `5 + sqrt 3` away from edge 1, moving up at 8 (so that with
`dt = 0.016` it is at rest once gravity has been applied). -/
def corner_ball : Ball := ⟨⟨501 - 5 * Real.sqrt 3, 295 + 99 * Real.sqrt 3⟩, ⟨0, -8⟩, 15⟩

end C4SR

namespace G4

/-- Division as exact real arithmetic has it: undefined (`none`) when the divisor is zero. -/
def checked_div (a b : ℝ) : Option ℝ := if b = 0 then none else some (a / b)

/-- Source: `closest_on_segment`, with every division checked: `none` stands for a division
by zero. -/
def closest_on_segment_checked (pos p1 p2 : Point) : Option Point :=
  let dir : Point := ⟨p2.x - p1.x, p2.y - p1.y⟩
  let len2 := dir.x * dir.x + dir.y * dir.y
  if len2 = 0 then some p1
  else
    (checked_div ((pos.x - p1.x) * dir.x + (pos.y - p1.y) * dir.y) len2).bind fun s =>
      let s := max 0 (min 1 s)
      some ⟨p1.x + s * dir.x, p1.y + s * dir.y⟩

/-- Source: `resolve_collision` from `double penetration = ...` to its end (these lines
hold no division), for given values of the locals `closest`, `normal` and `dist`. -/
def resolve_collision_response (ball : Ball) (closest normal : Point) (dist : ℝ)
    (center : Point) (omega : ℝ) : Ball :=
  let penetration := BALL_RADIUS - dist
  let moved : Ball :=
    { ball with x := ball.x + normal.x * penetration, y := ball.y + normal.y * penetration }
  let v_ball : Point := ⟨moved.vx, moved.vy⟩
  let v_wall := wall_velocity closest center omega
  let v_rel : Point := ⟨v_ball.x - v_wall.x, v_ball.y - v_wall.y⟩
  let v_n := v_rel.x * normal.x + v_rel.y * normal.y
  if v_n ≥ 0 then moved
  else
    let j_n := -(1 + RESTITUTION) * v_n
    let tangent : Point := ⟨-normal.y, normal.x⟩
    let v_t := v_rel.x * tangent.x + v_rel.y * tangent.y
    let j_t := -v_t
    let mu_jn := MU * |j_n|
    let j_t := if |j_t| > mu_jn then (if v_t > 0 then -mu_jn else mu_jn) else j_t
    { moved with
      vx := moved.vx + j_n * normal.x + j_t * tangent.x
      vy := moved.vy + j_n * normal.y + j_t * tangent.y }

/-- Source: `resolve_collision`, with every division checked: `none` stands for a division
by zero, `some ball` for the updated `*ball`. -/
def resolve_collision_checked (ball : Ball) (p1 p2 center : Point) (omega : ℝ) : Option Ball :=
  (closest_on_segment_checked ⟨ball.x, ball.y⟩ p1 p2).bind fun closest =>
    let to_ball : Point := ⟨ball.x - closest.x, ball.y - closest.y⟩
    let dist := Real.sqrt (to_ball.x * to_ball.x + to_ball.y * to_ball.y)
    if dist ≥ BALL_RADIUS ∨ dist = 0 then some ball
    else
      (checked_div to_ball.x dist).bind fun nx =>
        (checked_div to_ball.y dist).bind fun ny =>
          some (resolve_collision_response ball closest ⟨nx, ny⟩ dist center omega)

end G4

namespace C4SR

/-- Source: the rotation update of the main loop, `hexagon.angle += ROTATION_SPEED * dt;
update_hexagon(&hexagon);`. -/
def advance (hex : Hexagon) (dt : ℝ) : Hexagon :=
  update_hexagon { hex with angle := hex.angle + ROTATION_SPEED * dt }

end C4SR

namespace G25

/-- Sample input: a ball of radius 1 at the hexagon centre, moving to the right at speed 1. -/
def moving_ball : Ball := ⟨⟨0, 0⟩, ⟨1, 0⟩, 1⟩

end G25

namespace QWQ32

/-! ## `qwq32ballhex.c` -/

/-- Source: `#define HEX_RADIUS 200.0`. -/
def HEX_RADIUS : ℝ := 200

/-- Source: `#define BALL_RADIUS 10.0`. -/
def BALL_RADIUS : ℝ := 10

/-- Source: `#define FRICTION 0.9`. -/
def FRICTION : ℝ := 9 / 10

/-- Source: `typedef struct { double x, y; } Point;`. -/
structure Point where
  x : ℝ
  y : ℝ

/-- Source: `init_hex`, entry `i` of the global `original_hex`, with
`angle = 2 * M_PI * i / 6`. -/
def original_hex (i : ℕ) : Point :=
  ⟨HEX_RADIUS * Real.cos (2 * Real.pi * (i : ℝ) / 6),
    HEX_RADIUS * Real.sin (2 * Real.pi * (i : ℝ) / 6)⟩

/-- Source: `rotate_hex`, entry `i` of the global `rotated_hex`. -/
def rotate_hex (angle : ℝ) (i : ℕ) : Point :=
  let cos_a := Real.cos angle
  let sin_a := Real.sin angle
  ⟨(original_hex i).x * cos_a - (original_hex i).y * sin_a,
    (original_hex i).x * sin_a + (original_hex i).y * cos_a⟩

/-- Loop local `dx = v1.x - v0.x` of `handle_collision`, with `v0 = rotated_hex[i]` and
`v1 = rotated_hex[(i+1)%6]`. -/
def hc_dx (rotated_hex : ℕ → Point) (i : ℕ) : ℝ :=
  (rotated_hex ((i + 1) % 6)).x - (rotated_hex i).x

/-- Loop local `dy = v1.y - v0.y` of `handle_collision`. -/
def hc_dy (rotated_hex : ℕ → Point) (i : ℕ) : ℝ :=
  (rotated_hex ((i + 1) % 6)).y - (rotated_hex i).y

/-- Loop local `cross = dx * py - dy * px` of `handle_collision`, with `px = ball.x - v0.x`
and `py = ball.y - v0.y`. -/
def hc_cross (rotated_hex : ℕ → Point) (ball : Point) (i : ℕ) : ℝ :=
  hc_dx rotated_hex i * (ball.y - (rotated_hex i).y)
    - hc_dy rotated_hex i * (ball.x - (rotated_hex i).x)

/-- Loop local `length = sqrt(dx*dx + dy*dy)` of `handle_collision`. -/
def hc_length (rotated_hex : ℕ → Point) (i : ℕ) : ℝ :=
  Real.sqrt (hc_dx rotated_hex i * hc_dx rotated_hex i + hc_dy rotated_hex i * hc_dy rotated_hex i)

/-- Loop local `dist = cross / length` of `handle_collision`. -/
def hc_dist (rotated_hex : ℕ → Point) (ball : Point) (i : ℕ) : ℝ :=
  hc_cross rotated_hex ball i / hc_length rotated_hex i

/-- Loop local `nx = dy / length` of `handle_collision`. -/
def hc_nx (rotated_hex : ℕ → Point) (i : ℕ) : ℝ := hc_dy rotated_hex i / hc_length rotated_hex i

/-- Loop local `ny = -dx / length` of `handle_collision`. -/
def hc_ny (rotated_hex : ℕ → Point) (i : ℕ) : ℝ := -hc_dx rotated_hex i / hc_length rotated_hex i

/-- The response of `handle_collision` on edge `i`: the new value of the global `ball_vel`
(a pair for `double ball_vel[2]`). -/
def hc_response (rotated_hex : ℕ → Point) (ball_vel : ℝ × ℝ) (i : ℕ) : ℝ × ℝ :=
  let nx := hc_nx rotated_hex i
  let ny := hc_ny rotated_hex i
  let v_dot_n := ball_vel.1 * nx + ball_vel.2 * ny
  (ball_vel.1 - 2 * v_dot_n * nx * (1 + FRICTION), ball_vel.2 - 2 * v_dot_n * ny * (1 + FRICTION))

/-- The test of the loop of `handle_collision` on edge `i`: the edge is not skipped
(`length == 0`) and `fabs(dist) < BALL_RADIUS`. -/
def hc_hit (rotated_hex : ℕ → Point) (ball : Point) (i : ℕ) : Prop :=
  hc_length rotated_hex i ≠ 0 ∧ |hc_dist rotated_hex ball i| < BALL_RADIUS

/-- The loop of `handle_collision` from edge `i` on, for `n` more edges: the response of the
first edge with a hit is applied and the loop is left (`break`). -/
def handle_collision_from (rotated_hex : ℕ → Point) (ball : Point) (ball_vel : ℝ × ℝ) :
    ℕ → ℕ → ℝ × ℝ
  | 0, _ => ball_vel
  | n + 1, i =>
    if hc_length rotated_hex i = 0 then handle_collision_from rotated_hex ball ball_vel n (i + 1)
    else if |hc_dist rotated_hex ball i| < BALL_RADIUS then hc_response rotated_hex ball_vel i
    else handle_collision_from rotated_hex ball ball_vel n (i + 1)

/-- Source: `handle_collision`, on the globals `rotated_hex`, `ball` and `ball_vel`; the new
value of `ball_vel` is returned (`ball` is not written). -/
def handle_collision (rotated_hex : ℕ → Point) (ball : Point) (ball_vel : ℝ × ℝ) : ℝ × ℝ :=
  handle_collision_from rotated_hex ball ball_vel 6 0

end QWQ32

namespace C4SR

/-- Division as exact real arithmetic has it: undefined (`none`) when the divisor is zero. -/
def checked_div (a b : ℝ) : Option ℝ := if b = 0 then none else some (a / b)

/-- Source: `point_normalize`, with every division checked: `none` stands for a division
by zero. -/
def point_normalize_checked (a : Point) : Option Point :=
  let len := point_length a
  if len = 0 then some ⟨0, 0⟩
  else
    (checked_div a.x len).bind fun x =>
      (checked_div a.y len).bind fun y => some ⟨x, y⟩

end C4SR

namespace L4M

/-! ## `l4mballhex.c` -/

/-- Source: `#define GRAVITY 0.1`. -/
def GRAVITY : ℝ := 1 / 10

/-- Source: `#define FRICTION 0.9`. -/
def FRICTION : ℝ := 9 / 10

/-- Source: `#define HEXAGON_SIZE 200`. -/
def HEXAGON_SIZE : ℝ := 200

/-- Source: `#define BALL_SIZE 20` (an `int`; `BALL_SIZE / 2` is an integer division). -/
def BALL_SIZE : ℕ := 20

/-- Source: `typedef struct { double x, y; } Point;`. -/
structure Point where
  x : ℝ
  y : ℝ

/-- Source: `typedef struct { Point position; Point velocity; } Ball;`. -/
structure Ball where
  position : Point
  velocity : Point

/-- Source: `update_ball`. -/
def update_ball (ball : Ball) : Ball :=
  let vy := ball.velocity.y + GRAVITY
  { position := ⟨ball.position.x + ball.velocity.x, ball.position.y + vy⟩
    velocity := ⟨ball.velocity.x, vy⟩ }

/-- Loop local `vertex1` of `check_collision`, with `a = angle + i * M_PI / 3`. -/
def cc_vertex1 (center : Point) (size angle : ℝ) (i : ℕ) : Point :=
  let a := angle + (i : ℝ) * Real.pi / 3
  ⟨center.x + size * Real.cos a, center.y + size * Real.sin a⟩

/-- Loop local `vertex2` of `check_collision`, with
`a_next = angle + (i + 1) % 6 * M_PI / 3`. -/
def cc_vertex2 (center : Point) (size angle : ℝ) (i : ℕ) : Point :=
  let a_next := angle + (((i + 1) % 6 : ℕ) : ℝ) * Real.pi / 3
  ⟨center.x + size * Real.cos a_next, center.y + size * Real.sin a_next⟩

/-- Loop local `length` of `check_collision`, the length of
`{vertex2.y - vertex1.y, vertex1.x - vertex2.x}`. -/
def cc_length (center : Point) (size angle : ℝ) (i : ℕ) : ℝ :=
  Real.sqrt
    (((cc_vertex2 center size angle i).y - (cc_vertex1 center size angle i).y)
        * ((cc_vertex2 center size angle i).y - (cc_vertex1 center size angle i).y)
      + ((cc_vertex1 center size angle i).x - (cc_vertex2 center size angle i).x)
        * ((cc_vertex1 center size angle i).x - (cc_vertex2 center size angle i).x))

/-- Loop local `normal` of `check_collision` after the division by `length`. -/
def cc_normal (center : Point) (size angle : ℝ) (i : ℕ) : Point :=
  ⟨((cc_vertex2 center size angle i).y - (cc_vertex1 center size angle i).y)
      / cc_length center size angle i,
    ((cc_vertex1 center size angle i).x - (cc_vertex2 center size angle i).x)
      / cc_length center size angle i⟩

/-- Loop local `distance` of `check_collision`. -/
def cc_distance (ball : Ball) (center : Point) (size angle : ℝ) (i : ℕ) : ℝ :=
  (ball.position.x - (cc_vertex1 center size angle i).x) * (cc_normal center size angle i).x
    + (ball.position.y - (cc_vertex1 center size angle i).y) * (cc_normal center size angle i).y

/-- Body of the loop of `check_collision` for edge `i`. -/
def cc_edge_step (ball : Ball) (center : Point) (size angle : ℝ) (i : ℕ) : Ball :=
  let normal := cc_normal center size angle i
  let distance := cc_distance ball center size angle i
  if distance < ((BALL_SIZE / 2 : ℕ) : ℝ) then
    let dot_product := ball.velocity.x * normal.x + ball.velocity.y * normal.y
    { velocity :=
        ⟨ball.velocity.x - 2 * dot_product * normal.x * FRICTION,
          ball.velocity.y - 2 * dot_product * normal.y * FRICTION⟩
      position :=
        ⟨ball.position.x - distance * normal.x, ball.position.y - distance * normal.y⟩ }
  else ball

/-- The loop `for (int i = 0; i < n; i++)` of `check_collision` run on `ball`. -/
def cc_edges_upto (ball : Ball) (center : Point) (size angle : ℝ) : ℕ → Ball
  | 0 => ball
  | n + 1 => cc_edge_step (cc_edges_upto ball center size angle n) center size angle n

/-- Source: `check_collision`; the updated `*ball` is returned. -/
def check_collision (ball : Ball) (center : Point) (size angle : ℝ) : Ball :=
  cc_edges_upto ball center size angle 6

/-- Source: the ball as `main` initialises it (`WIDTH / 2` and `HEIGHT / 2` are integer
divisions). -/
def main_ball : Ball := ⟨⟨400, 300⟩, ⟨2, -5⟩⟩

/-- Source: `Point center = {WIDTH / 2, HEIGHT / 2}` in `main`. -/
def main_center : Point := ⟨400, 300⟩

end L4M

namespace G25

end G25

/-! # Theorems -/

namespace G4

/-- The closest point is a point of the segment. -/
theorem closest_on_segment_mem (pos p1 p2 : Point) :
    ∃ s : ℝ, 0 ≤ s ∧ s ≤ 1 ∧ closest_on_segment pos p1 p2 = seg_point p1 p2 s := by
  unfold closest_on_segment seg_point
  by_cases h : (p2.x - p1.x) * (p2.x - p1.x) + (p2.y - p1.y) * (p2.y - p1.y) = 0
  · refine ⟨0, le_refl _, zero_le_one, ?_⟩
    simp [h]
  · refine ⟨max 0 (min 1 (((pos.x - p1.x) * (p2.x - p1.x) + (pos.y - p1.y) * (p2.y - p1.y))
      / ((p2.x - p1.x) * (p2.x - p1.x) + (p2.y - p1.y) * (p2.y - p1.y)))), le_max_left _ _, ?_, ?_⟩
    · exact max_le zero_le_one (min_le_left _ _)
    · simp [h]

/-- Variational inequality of the projection onto the segment: seen from the closest
point `c`, no point of the segment lies on the side of `pos`. -/
theorem closest_on_segment_obtuse (pos p1 p2 : Point) (s : ℝ) (h0 : 0 ≤ s) (h1 : s ≤ 1) :
    ((seg_point p1 p2 s).x - (closest_on_segment pos p1 p2).x)
        * (pos.x - (closest_on_segment pos p1 p2).x)
      + ((seg_point p1 p2 s).y - (closest_on_segment pos p1 p2).y)
        * (pos.y - (closest_on_segment pos p1 p2).y) ≤ 0 := by
  unfold closest_on_segment seg_point
  by_cases h : (p2.x - p1.x) * (p2.x - p1.x) + (p2.y - p1.y) * (p2.y - p1.y) = 0
  · have hx : p2.x - p1.x = 0 := by nlinarith [mul_self_nonneg (p2.x - p1.x), mul_self_nonneg (p2.y - p1.y)]
    have hy : p2.y - p1.y = 0 := by nlinarith [mul_self_nonneg (p2.x - p1.x), mul_self_nonneg (p2.y - p1.y)]
    simp [h, hx, hy]
  · simp only [h, if_false]
    set dx := p2.x - p1.x with hdx
    set dy := p2.y - p1.y with hdy
    set L := dx * dx + dy * dy with hL
    have hLpos : 0 < L := lt_of_le_of_ne (add_nonneg (mul_self_nonneg _) (mul_self_nonneg _)) (Ne.symm h)
    set t := ((pos.x - p1.x) * dx + (pos.y - p1.y) * dy) / L with ht
    have htL : t * L = (pos.x - p1.x) * dx + (pos.y - p1.y) * dy := by
      rw [ht]; field_simp
    set c := max 0 (min 1 t) with hc
    have key : (p1.x + s * dx - (p1.x + c * dx)) * (pos.x - (p1.x + c * dx))
        + (p1.y + s * dy - (p1.y + c * dy)) * (pos.y - (p1.y + c * dy))
        = (s - c) * (t - c) * L := by
      have : (s - c) * (t - c) * L = (s - c) * (t * L - c * L) := by ring
      rw [this, htL, hL]; ring
    rw [key]
    have hsc : (s - c) * (t - c) ≤ 0 := by
      rcases le_total t 0 with ht0 | ht0
      · have : c = 0 := by
          rw [hc]; exact max_eq_left (le_trans (min_le_right _ _) ht0)
        rw [this]; nlinarith
      · rcases le_total t 1 with ht1 | ht1
        · have : c = t := by
            rw [hc, min_eq_right ht1, max_eq_right ht0]
          rw [this]; simp
        · have : c = 1 := by
            rw [hc, min_eq_left ht1, max_eq_right zero_le_one]
          rw [this]; nlinarith
    nlinarith

end G4

namespace Geom

/-- Pushing a point `p` away from `c` to distance `R`: if every `q` of a set lies, seen from `c`,
not on the side of `p`, then the pushed point is at distance at least `R` from `q`. -/
theorem sq_le_of_pushed (cx cy px py qx qy d R : ℝ) (hd : 0 < d) (hR : 0 ≤ R)
    (hdd : d * d = (px - cx) * (px - cx) + (py - cy) * (py - cy))
    (hobt : (qx - cx) * (px - cx) + (qy - cy) * (py - cy) ≤ 0) :
    R ^ 2 ≤ (cx + (px - cx) / d * R - qx) * (cx + (px - cx) / d * R - qx)
      + (cy + (py - cy) / d * R - qy) * (cy + (py - cy) / d * R - qy) := by
  have hu : (px - cx) / d * d = px - cx := by field_simp
  have hv : (py - cy) / d * d = py - cy := by field_simp
  set u := (px - cx) / d with hu_def
  set v := (py - cy) / d with hv_def
  have huv : u * u + v * v = 1 := by
    have h1 : (u * u + v * v) * (d * d) = d * d := by
      have : (u * u + v * v) * (d * d) = (u * d) * (u * d) + (v * d) * (v * d) := by ring
      rw [this, hu, hv, hdd]
    have hdd0 : d * d ≠ 0 := by positivity
    exact mul_right_cancel₀ hdd0 (by rw [h1, one_mul])
  have hq : 0 ≤ (cx - qx) * u + (cy - qy) * v := by
    have h2 : ((cx - qx) * u + (cy - qy) * v) * d
        = -((qx - cx) * (px - cx) + (qy - cy) * (py - cy)) := by
      have : ((cx - qx) * u + (cy - qy) * v) * d
          = -((qx - cx) * (u * d) + (qy - cy) * (v * d)) := by ring
      rw [this, hu, hv]
    have h3 : 0 ≤ ((cx - qx) * u + (cy - qy) * v) * d := by rw [h2]; linarith
    exact nonneg_of_mul_nonneg_left h3 hd
  have hexp : (cx + u * R - qx) * (cx + u * R - qx) + (cy + v * R - qy) * (cy + v * R - qy)
      = ((cx - qx) * (cx - qx) + (cy - qy) * (cy - qy))
        + 2 * R * ((cx - qx) * u + (cy - qy) * v) + R ^ 2 * (u * u + v * v) := by ring
  rw [hexp, huv]
  nlinarith [mul_self_nonneg (cx - qx), mul_self_nonneg (cy - qy), mul_nonneg hR hq]

/-- The pushed point is at distance exactly `R` from `c`. -/
theorem sq_eq_of_pushed (cx cy px py d R : ℝ) (hd : 0 < d)
    (hdd : d * d = (px - cx) * (px - cx) + (py - cy) * (py - cy)) :
    (cx + (px - cx) / d * R - cx) * (cx + (px - cx) / d * R - cx)
      + (cy + (py - cy) / d * R - cy) * (cy + (py - cy) / d * R - cy) = R ^ 2 := by
  have hu : (px - cx) / d * d = px - cx := by field_simp
  have hv : (py - cy) / d * d = py - cy := by field_simp
  set u := (px - cx) / d with hu_def
  set v := (py - cy) / d with hv_def
  have huv : u * u + v * v = 1 := by
    have h1 : (u * u + v * v) * (d * d) = d * d := by
      have : (u * u + v * v) * (d * d) = (u * d) * (u * d) + (v * d) * (v * d) := by ring
      rw [this, hu, hv, hdd]
    have hdd0 : d * d ≠ 0 := by positivity
    exact mul_right_cancel₀ hdd0 (by rw [h1, one_mul])
  have : (cx + u * R - cx) * (cx + u * R - cx) + (cy + v * R - cy) * (cy + v * R - cy)
      = R ^ 2 * (u * u + v * v) := by ring
  rw [this, huv, mul_one]

end Geom

namespace G4

/-- The closest point minimises the distance to `pos` over the segment. -/
theorem closest_on_segment_le (pos p1 p2 : Point) (s : ℝ) (h0 : 0 ≤ s) (h1 : s ≤ 1) :
    point_dist pos (closest_on_segment pos p1 p2) ≤ point_dist pos (seg_point p1 p2 s) := by
  unfold point_dist
  apply Real.sqrt_le_sqrt
  have h := closest_on_segment_obtuse pos p1 p2 s h0 h1
  nlinarith [mul_self_nonneg ((seg_point p1 p2 s).x - (closest_on_segment pos p1 p2).x),
    mul_self_nonneg ((seg_point p1 p2 s).y - (closest_on_segment pos p1 p2).y)]

/-- The square of `dist` is the squared length of `to_ball`. -/
theorem rc_dist_mul_self (ball : Ball) (p1 p2 : Point) :
    rc_dist ball p1 p2 * rc_dist ball p1 p2
      = (ball.x - (rc_closest ball p1 p2).x) * (ball.x - (rc_closest ball p1 p2).x)
        + (ball.y - (rc_closest ball p1 p2).y) * (ball.y - (rc_closest ball p1 p2).y) := by
  unfold rc_dist rc_to_ball
  exact Real.mul_self_sqrt (add_nonneg (mul_self_nonneg _) (mul_self_nonneg _))

/-- When `dist` is non-zero the vector `normal` has length one. -/
theorem rc_normal_unit (ball : Ball) (p1 p2 : Point) (hd : 0 < rc_dist ball p1 p2) :
    (rc_normal ball p1 p2).x * (rc_normal ball p1 p2).x
      + (rc_normal ball p1 p2).y * (rc_normal ball p1 p2).y = 1 := by
  have h := rc_dist_mul_self ball p1 p2
  unfold rc_normal rc_to_ball
  simp only
  field_simp
  linarith

/-- Position written by `resolve_collision` when the collision test fires. -/
theorem resolve_collision_pos (ball : Ball) (p1 p2 center : Point) (omega : ℝ)
    (hd : 0 < rc_dist ball p1 p2) (hr : rc_dist ball p1 p2 < BALL_RADIUS) :
    (resolve_collision ball p1 p2 center omega).x
        = ball.x + (rc_normal ball p1 p2).x * (BALL_RADIUS - rc_dist ball p1 p2)
      ∧ (resolve_collision ball p1 p2 center omega).y
        = ball.y + (rc_normal ball p1 p2).y * (BALL_RADIUS - rc_dist ball p1 p2) := by
  have hg : ¬ (rc_dist ball p1 p2 ≥ BALL_RADIUS ∨ rc_dist ball p1 p2 = 0) := by
    intro h
    rcases h with h | h
    · exact absurd hr (not_lt.mpr h)
    · exact absurd h (ne_of_gt hd)
  unfold resolve_collision
  rw [if_neg hg]
  by_cases hv : rc_v_n ball p1 p2 center omega ≥ 0
  · simp only [hv, if_true, rc_penetration, and_self]
  · simp only [hv, if_false, rc_penetration, and_self]

/-- The corrected position is the closest point moved by `BALL_RADIUS` along `normal`. -/
theorem resolve_collision_pos_eq (ball : Ball) (p1 p2 center : Point) (omega : ℝ)
    (hd : 0 < rc_dist ball p1 p2) (hr : rc_dist ball p1 p2 < BALL_RADIUS) :
    (resolve_collision ball p1 p2 center omega).x
        = (rc_closest ball p1 p2).x
          + (ball.x - (rc_closest ball p1 p2).x) / rc_dist ball p1 p2 * BALL_RADIUS
      ∧ (resolve_collision ball p1 p2 center omega).y
        = (rc_closest ball p1 p2).y
          + (ball.y - (rc_closest ball p1 p2).y) / rc_dist ball p1 p2 * BALL_RADIUS := by
  obtain ⟨hx, hy⟩ := resolve_collision_pos ball p1 p2 center omega hd hr
  rw [hx, hy]
  unfold rc_normal rc_to_ball
  simp only
  have hne : rc_dist ball p1 p2 ≠ 0 := ne_of_gt hd
  constructor <;> field_simp <;> ring

/-- C1 (g4): when `0 < dist < BALL_RADIUS`, `resolve_collision` moves the ball centre along the
unit vector `normal` by `penetration = BALL_RADIUS - dist`, and afterwards the centre is at distance
exactly `BALL_RADIUS` from the segment `[p1, p2]`: the closest point of the segment to the new
centre is at distance `BALL_RADIUS`, and no point of the segment is nearer. This covers the
closest point being interior to the segment as well as clamped to an endpoint. -/
theorem resolve_collision_pushes_out (ball : Ball) (p1 p2 center : Point) (omega : ℝ)
    (hd : 0 < rc_dist ball p1 p2) (hr : rc_dist ball p1 p2 < BALL_RADIUS) :
    ((rc_normal ball p1 p2).x * (rc_normal ball p1 p2).x
        + (rc_normal ball p1 p2).y * (rc_normal ball p1 p2).y = 1)
      ∧ (resolve_collision ball p1 p2 center omega).x
        = ball.x + (rc_normal ball p1 p2).x * (BALL_RADIUS - rc_dist ball p1 p2)
      ∧ (resolve_collision ball p1 p2 center omega).y
        = ball.y + (rc_normal ball p1 p2).y * (BALL_RADIUS - rc_dist ball p1 p2)
      ∧ point_dist (resolve_collision ball p1 p2 center omega).pos
          (closest_on_segment (resolve_collision ball p1 p2 center omega).pos p1 p2) = BALL_RADIUS
      ∧ ∀ s : ℝ, 0 ≤ s → s ≤ 1 →
          BALL_RADIUS ≤ point_dist (resolve_collision ball p1 p2 center omega).pos
            (seg_point p1 p2 s) := by
  obtain ⟨hx, hy⟩ := resolve_collision_pos ball p1 p2 center omega hd hr
  obtain ⟨hx2, hy2⟩ := resolve_collision_pos_eq ball p1 p2 center omega hd hr
  have hR : (0 : ℝ) ≤ BALL_RADIUS := by unfold BALL_RADIUS; norm_num
  have hfar : ∀ s : ℝ, 0 ≤ s → s ≤ 1 →
      BALL_RADIUS ≤ point_dist (resolve_collision ball p1 p2 center omega).pos
        (seg_point p1 p2 s) := by
    intro s h0 h1
    unfold point_dist Ball.pos
    simp only
    rw [hx2, hy2]
    apply Real.le_sqrt_of_sq_le
    exact Geom.sq_le_of_pushed _ _ _ _ _ _ _ _ hd hR (rc_dist_mul_self ball p1 p2)
      (closest_on_segment_obtuse ⟨ball.x, ball.y⟩ p1 p2 s h0 h1)
  refine ⟨rc_normal_unit ball p1 p2 hd, hx, hy, ?_, hfar⟩
  apply le_antisymm
  · obtain ⟨s, h0, h1, hs⟩ := closest_on_segment_mem ⟨ball.x, ball.y⟩ p1 p2
    have hmin := closest_on_segment_le (resolve_collision ball p1 p2 center omega).pos p1 p2 s h0 h1
    refine le_trans hmin ?_
    rw [← hs]
    unfold point_dist Ball.pos
    simp only
    rw [hx2, hy2]
    have he := Geom.sq_eq_of_pushed (rc_closest ball p1 p2).x (rc_closest ball p1 p2).y
      ball.x ball.y (rc_dist ball p1 p2) BALL_RADIUS hd (rc_dist_mul_self ball p1 p2)
    unfold rc_closest at he
    unfold rc_closest
    rw [he, Real.sqrt_sq hR]
  · obtain ⟨s, h0, h1, hs⟩ :=
      closest_on_segment_mem (resolve_collision ball p1 p2 center omega).pos p1 p2
    rw [hs]
    exact hfar s h0 h1

/-- The value of `dist` for the ball at `(0, 5)` over the segment from `(-1, 0)` to `(1, 0)`. -/
theorem rc_dist_sample : rc_dist ⟨0, 5, 0, 0⟩ ⟨-1, 0⟩ ⟨1, 0⟩ = 5 := by
  have hc : closest_on_segment ⟨0, 5⟩ ⟨-1, 0⟩ ⟨1, 0⟩ = ⟨0, 0⟩ := by
    unfold closest_on_segment
    norm_num
  unfold rc_dist rc_to_ball rc_closest
  rw [hc]
  norm_num
  rw [show (25 : ℝ) = 5 * 5 by norm_num]
  exact Real.sqrt_mul_self (by norm_num)

/-- Witness for C1: the ball at `(0, 5)` over the segment from `(-1, 0)` to `(1, 0)` has
`dist = 5`, and is moved to distance `BALL_RADIUS` from that segment. -/
theorem resolve_collision_pushes_out_witness :
    (0 < rc_dist ⟨0, 5, 0, 0⟩ ⟨-1, 0⟩ ⟨1, 0⟩ ∧ rc_dist ⟨0, 5, 0, 0⟩ ⟨-1, 0⟩ ⟨1, 0⟩ < BALL_RADIUS)
      ∧ point_dist (resolve_collision ⟨0, 5, 0, 0⟩ ⟨-1, 0⟩ ⟨1, 0⟩ ⟨0, 0⟩ 0).pos
          (closest_on_segment (resolve_collision ⟨0, 5, 0, 0⟩ ⟨-1, 0⟩ ⟨1, 0⟩ ⟨0, 0⟩ 0).pos
            ⟨-1, 0⟩ ⟨1, 0⟩) = BALL_RADIUS :=
  ⟨⟨by rw [rc_dist_sample]; norm_num, by rw [rc_dist_sample]; unfold BALL_RADIUS; norm_num⟩,
    (resolve_collision_pushes_out ⟨0, 5, 0, 0⟩ ⟨-1, 0⟩ ⟨1, 0⟩ ⟨0, 0⟩ 0
      (by rw [rc_dist_sample]; norm_num)
      (by rw [rc_dist_sample]; unfold BALL_RADIUS; norm_num)).2.2.2.1⟩

end G4

namespace Geom

/-- Index arithmetic of the hexagon: the vertex after `i` (cyclically) is `i` turned by
a sixth of a turn. -/
theorem hex_next_angle (i : ℕ) (hi : i < 6) :
    Real.cos (2 * Real.pi * (((i + 1) % 6 : ℕ) : ℝ) / 6)
        = Real.cos (2 * Real.pi * (i : ℝ) / 6 + Real.pi / 3)
      ∧ Real.sin (2 * Real.pi * (((i + 1) % 6 : ℕ) : ℝ) / 6)
        = Real.sin (2 * Real.pi * (i : ℝ) / 6 + Real.pi / 3) := by
  have h5 : 2 * Real.pi * ((5 : ℕ) : ℝ) / 6 + Real.pi / 3 = 2 * Real.pi := by push_cast; ring
  interval_cases i
  · constructor <;> congr 1 <;> norm_num <;> ring
  · constructor <;> congr 1 <;> norm_num <;> ring
  · constructor <;> congr 1 <;> norm_num <;> ring
  · constructor <;> congr 1 <;> norm_num <;> ring
  · constructor <;> congr 1 <;> norm_num <;> ring
  · rw [h5]
    norm_num

/-- Cosine and sine of an angle advanced by a sixth of a turn. -/
theorem cos_sin_add_sixth (φ : ℝ) :
    Real.cos (φ + Real.pi / 3) = Real.cos φ / 2 - Real.sin φ * Real.sqrt 3 / 2
      ∧ Real.sin (φ + Real.pi / 3) = Real.sin φ / 2 + Real.cos φ * Real.sqrt 3 / 2 := by
  rw [Real.cos_add, Real.sin_add, Real.cos_pi_div_three, Real.sin_pi_div_three]
  constructor <;> ring

end Geom

namespace O4M

/-- Components of edge `i` of the rotated hexagon, in closed form. -/
theorem hexagon_edge_dx_dy (angle : ℝ) (i : ℕ) (hi : i < 6) :
    edge_dx angle i
        = 200 * ((-(Real.cos (2 * Real.pi * (i : ℝ) / 6)) / 2
              - Real.sin (2 * Real.pi * (i : ℝ) / 6) * Real.sqrt 3 / 2) * Real.cos angle
            - (-(Real.sin (2 * Real.pi * (i : ℝ) / 6)) / 2
              + Real.cos (2 * Real.pi * (i : ℝ) / 6) * Real.sqrt 3 / 2) * Real.sin angle)
      ∧ edge_dy angle i
        = 200 * ((-(Real.cos (2 * Real.pi * (i : ℝ) / 6)) / 2
              - Real.sin (2 * Real.pi * (i : ℝ) / 6) * Real.sqrt 3 / 2) * Real.sin angle
            + (-(Real.sin (2 * Real.pi * (i : ℝ) / 6)) / 2
              + Real.cos (2 * Real.pi * (i : ℝ) / 6) * Real.sqrt 3 / 2) * Real.cos angle) := by
  obtain ⟨hc, hs⟩ := Geom.hex_next_angle i hi
  obtain ⟨hc2, hs2⟩ := Geom.cos_sin_add_sixth (2 * Real.pi * (i : ℝ) / 6)
  unfold edge_dx edge_dy px py hx hy HEX_RADIUS
  rw [hc, hs, hc2, hs2]
  constructor <;> ring

/-- Every edge of the rotated hexagon has length `HEX_RADIUS`. -/
theorem hexagon_edge_len (angle : ℝ) (i : ℕ) (hi : i < 6) : edge_len angle i = 200 := by
  obtain ⟨hx, hy⟩ := hexagon_edge_dx_dy angle i hi
  unfold edge_len
  rw [hx, hy]
  have h3 : Real.sqrt 3 * Real.sqrt 3 = 3 := Real.mul_self_sqrt (by norm_num)
  have hφ := Real.cos_sq_add_sin_sq (2 * Real.pi * (i : ℝ) / 6)
  have ha := Real.cos_sq_add_sin_sq angle
  set C := Real.cos (2 * Real.pi * (i : ℝ) / 6)
  set S := Real.sin (2 * Real.pi * (i : ℝ) / 6)
  set ca := Real.cos angle
  set sa := Real.sin angle
  set r := Real.sqrt 3
  have e : 200 * ((-C / 2 - S * r / 2) * ca - (-S / 2 + C * r / 2) * sa)
        * (200 * ((-C / 2 - S * r / 2) * ca - (-S / 2 + C * r / 2) * sa))
      + 200 * ((-C / 2 - S * r / 2) * sa + (-S / 2 + C * r / 2) * ca)
        * (200 * ((-C / 2 - S * r / 2) * sa + (-S / 2 + C * r / 2) * ca))
      = 200 * 200 * ((C ^ 2 + S ^ 2) * (1 / 4 + r * r / 4) * (ca ^ 2 + sa ^ 2)) := by ring
  rw [e, hφ, ha, h3]
  norm_num
  rw [show (40000 : ℝ) = 200 * 200 by norm_num]
  exact Real.sqrt_mul_self (by norm_num)

/-- For every rotation angle and every edge, the vector `(nx, ny)` of the edge loop is a unit
vector whose scalar product with `centre - p_i` is `-100 * sqrt 3`: it points away from the
hexagon centre. -/
theorem edge_normal_outward (angle : ℝ) (i : ℕ) (hi : i < 6) :
    edge_nx angle i * edge_nx angle i + edge_ny angle i * edge_ny angle i = 1
      ∧ (cx - px angle i) * edge_nx angle i + (cy - py angle i) * edge_ny angle i
        = -(100 * Real.sqrt 3) := by
  obtain ⟨hdx, hdy⟩ := hexagon_edge_dx_dy angle i hi
  have hlen := hexagon_edge_len angle i hi
  have hsq : edge_dx angle i * edge_dx angle i + edge_dy angle i * edge_dy angle i = 200 * 200 := by
    have := Real.mul_self_sqrt (add_nonneg (mul_self_nonneg (edge_dx angle i))
      (mul_self_nonneg (edge_dy angle i)))
    unfold edge_len at hlen
    rw [hlen] at this
    exact this.symm
  have h3 : Real.sqrt 3 * Real.sqrt 3 = 3 := Real.mul_self_sqrt (by norm_num)
  have hφ := Real.cos_sq_add_sin_sq (2 * Real.pi * (i : ℝ) / 6)
  have ha := Real.cos_sq_add_sin_sq angle
  constructor
  · unfold edge_nx edge_ny edge_tx edge_ty
    rw [hlen]
    have : edge_dy angle i / 200 * (edge_dy angle i / 200)
        + -(edge_dx angle i / 200) * -(edge_dx angle i / 200)
        = (edge_dx angle i * edge_dx angle i + edge_dy angle i * edge_dy angle i) / (200 * 200) := by
      ring
    rw [this, hsq]
    norm_num
  · unfold edge_nx edge_ny edge_tx edge_ty
    rw [hlen, hdx, hdy]
    unfold px py hx hy cx cy HEX_RADIUS
    set C := Real.cos (2 * Real.pi * (i : ℝ) / 6)
    set S := Real.sin (2 * Real.pi * (i : ℝ) / 6)
    set ca := Real.cos angle
    set sa := Real.sin angle
    set r := Real.sqrt 3
    have e : (800 / 2 - (800 / 2 + (200 * C * ca - 200 * S * sa)))
          * (200 * ((-C / 2 - S * r / 2) * sa + (-S / 2 + C * r / 2) * ca) / 200)
        + (600 / 2 - (600 / 2 + (200 * C * sa + 200 * S * ca)))
          * -(200 * ((-C / 2 - S * r / 2) * ca - (-S / 2 + C * r / 2) * sa) / 200)
        = -(100 * r) * ((C ^ 2 + S ^ 2) * (ca ^ 2 + sa ^ 2)) := by ring
    rw [e, hφ, ha]
    ring

/-- C2 (o4m): at rotation angle `0`, on edge `0`, the vector `n = (t.y, -t.x)` computed by the edge
loop is a unit vector, but its scalar product with `centre - p_0` is `-100 * sqrt 3 < 0`: the
vector commented as the inward normal points out of the hexagon. -/
theorem edge_normal_not_inward :
    edge_nx 0 0 * edge_nx 0 0 + edge_ny 0 0 * edge_ny 0 0 = 1
      ∧ (cx - px 0 0) * edge_nx 0 0 + (cy - py 0 0) * edge_ny 0 0 = -(100 * Real.sqrt 3)
      ∧ (cx - px 0 0) * edge_nx 0 0 + (cy - py 0 0) * edge_ny 0 0 < 0 := by
  obtain ⟨h1, h2⟩ := edge_normal_outward 0 0 (by norm_num)
  refine ⟨h1, h2, ?_⟩
  rw [h2]
  have : 0 < Real.sqrt 3 := Real.sqrt_pos.mpr (by norm_num)
  linarith

end O4M

namespace G25

/-- The constants of `g2.5-proballhex.c` are single-precision numbers (an integer below `2^24`
over a power of two) within half a unit in the last place of the decimal values of the source:
`1.0f / 60`, the product of `250.0f` and that quotient, `0.85f` and `0.05f`. -/
theorem single_precision_constants :
    (TIME_STEP = 8947849 / 2 ^ 29 ∧ |TIME_STEP - 1 / 60| ≤ 1 / 2 ^ 30)
      ∧ (GRAVITY_TIME_STEP = 8738134 / 2 ^ 21
          ∧ |GRAVITY_TIME_STEP - GRAVITY * TIME_STEP| ≤ 1 / 2 ^ 22)
      ∧ (RESTITUTION = 14260634 / 2 ^ 24 ∧ |RESTITUTION - 85 / 100| ≤ 1 / 2 ^ 25)
      ∧ (FRICTION = 13421773 / 2 ^ 28 ∧ |FRICTION - 5 / 100| ≤ 1 / 2 ^ 29) := by
  unfold TIME_STEP GRAVITY_TIME_STEP GRAVITY RESTITUTION FRICTION
  refine ⟨⟨by norm_num, ?_⟩, ⟨by norm_num, ?_⟩, ⟨by norm_num, ?_⟩, ⟨by norm_num, ?_⟩⟩ <;>
    rw [abs_le] <;> constructor <;> norm_num

/-- Components of `edge` for edge `i`, in closed form. -/
theorem edge_vec_eq (hexagon : Hexagon) (i : ℕ) :
    (edge_vec hexagon i).x
        = hexagon.radius * (-(Real.cos (hexagon.angle + (i : ℝ) * (Real.pi / 3))) / 2
            - Real.sin (hexagon.angle + (i : ℝ) * (Real.pi / 3)) * Real.sqrt 3 / 2)
      ∧ (edge_vec hexagon i).y
        = hexagon.radius * (-(Real.sin (hexagon.angle + (i : ℝ) * (Real.pi / 3))) / 2
            + Real.cos (hexagon.angle + (i : ℝ) * (Real.pi / 3)) * Real.sqrt 3 / 2) := by
  obtain ⟨hc, hs⟩ := Geom.cos_sin_add_sixth (hexagon.angle + (i : ℝ) * (Real.pi / 3))
  have ha : hexagon.angle + ((i + 1 : ℕ) : ℝ) * (Real.pi / 3)
      = hexagon.angle + (i : ℝ) * (Real.pi / 3) + Real.pi / 3 := by push_cast; ring
  unfold edge_vec edge_v2 edge_v1
  simp only
  rw [ha, hc, hs]
  constructor <;> ring

/-- For a hexagon of positive radius every edge has length `radius`. -/
theorem edge_len_eq (hexagon : Hexagon) (i : ℕ) (hR : 0 < hexagon.radius) :
    edge_len hexagon i = hexagon.radius := by
  obtain ⟨hx, hy⟩ := edge_vec_eq hexagon i
  unfold edge_len
  rw [hx, hy]
  have h3 : Real.sqrt 3 * Real.sqrt 3 = 3 := Real.mul_self_sqrt (by norm_num)
  have hφ := Real.cos_sq_add_sin_sq (hexagon.angle + (i : ℝ) * (Real.pi / 3))
  set C := Real.cos (hexagon.angle + (i : ℝ) * (Real.pi / 3))
  set S := Real.sin (hexagon.angle + (i : ℝ) * (Real.pi / 3))
  set r := Real.sqrt 3
  set R := hexagon.radius
  have e : R * (-S / 2 + C * r / 2) * (R * (-S / 2 + C * r / 2))
      + -(R * (-C / 2 - S * r / 2)) * -(R * (-C / 2 - S * r / 2))
      = R * R * ((C ^ 2 + S ^ 2) * (1 / 4 + r * r / 4)) := by ring
  rw [e, hφ, h3]
  norm_num
  exact Real.sqrt_mul_self (le_of_lt hR)

/-- For a hexagon of positive radius the vector `normal` of edge `i`, in closed form. -/
theorem edge_normal_eq (hexagon : Hexagon) (i : ℕ) (hR : 0 < hexagon.radius) :
    (edge_normal hexagon i).x
        = Real.cos (hexagon.angle + (i : ℝ) * (Real.pi / 3)) * Real.sqrt 3 / 2
          - Real.sin (hexagon.angle + (i : ℝ) * (Real.pi / 3)) / 2
      ∧ (edge_normal hexagon i).y
        = Real.cos (hexagon.angle + (i : ℝ) * (Real.pi / 3)) / 2
          + Real.sin (hexagon.angle + (i : ℝ) * (Real.pi / 3)) * Real.sqrt 3 / 2 := by
  obtain ⟨hx, hy⟩ := edge_vec_eq hexagon i
  have hne : hexagon.radius ≠ 0 := ne_of_gt hR
  unfold edge_normal
  simp only
  rw [edge_len_eq hexagon i hR, hx, hy]
  constructor <;> field_simp <;> ring

/-- For a hexagon of positive radius the vector `normal` has length one. -/
theorem edge_normal_unit (hexagon : Hexagon) (i : ℕ) (hR : 0 < hexagon.radius) :
    (edge_normal hexagon i).x * (edge_normal hexagon i).x
      + (edge_normal hexagon i).y * (edge_normal hexagon i).y = 1 := by
  obtain ⟨hx, hy⟩ := edge_normal_eq hexagon i hR
  rw [hx, hy]
  have h3 : Real.sqrt 3 * Real.sqrt 3 = 3 := Real.mul_self_sqrt (by norm_num)
  have hφ := Real.cos_sq_add_sin_sq (hexagon.angle + (i : ℝ) * (Real.pi / 3))
  set C := Real.cos (hexagon.angle + (i : ℝ) * (Real.pi / 3))
  set S := Real.sin (hexagon.angle + (i : ℝ) * (Real.pi / 3))
  set r := Real.sqrt 3
  have e : (C * r / 2 - S / 2) * (C * r / 2 - S / 2) + (C / 2 + S * r / 2) * (C / 2 + S * r / 2)
      = (C ^ 2 + S ^ 2) * (1 / 4 + r * r / 4) := by ring
  rw [e, hφ, h3]
  norm_num

/-- The edge step never changes the radius of the ball. -/
theorem edge_step_radius (hexagon : Hexagon) (ball : Ball) (i : ℕ) :
    (edge_step hexagon ball i).radius = ball.radius := by
  unfold edge_step
  by_cases h : edge_dist hexagon ball i < ball.radius
  · simp only [h, if_true]
  · simp only [h, if_false]

/-- The edge loop never changes the radius of the ball. -/
theorem edges_upto_radius (hexagon : Hexagon) (ball : Ball) (n : ℕ) :
    (edges_upto hexagon ball n).radius = ball.radius := by
  induction n with
  | zero => rfl
  | succ k ih =>
    show (edge_step hexagon (edges_upto hexagon ball k) k).radius = ball.radius
    rw [edge_step_radius, ih]

/-- An edge whose test does not fire leaves the ball as it is. -/
theorem edge_step_of_not_fired (hexagon : Hexagon) (ball : Ball) (i : ℕ)
    (h : ¬ edge_dist hexagon ball i < ball.radius) : edge_step hexagon ball i = ball := by
  unfold edge_step
  simp only [h, if_false]

/-- Position written by the edge step when the test fires. -/
theorem edge_step_pos_of_fired (hexagon : Hexagon) (ball : Ball) (i : ℕ)
    (h : edge_dist hexagon ball i < ball.radius) :
    (edge_step hexagon ball i).pos
      = ⟨ball.pos.x + (edge_normal hexagon i).x * (ball.radius - edge_dist hexagon ball i),
          ball.pos.y + (edge_normal hexagon i).y * (ball.radius - edge_dist hexagon ball i)⟩ := by
  unfold edge_step
  simp only [h, if_true]

/-- Right after the correction of an edge whose test fired, the ball centre is at signed
distance exactly `radius` from that edge. -/
theorem edge_step_signed_dist (hexagon : Hexagon) (ball : Ball) (i : ℕ)
    (hR : 0 < hexagon.radius) (h : edge_dist hexagon ball i < ball.radius) :
    signed_dist hexagon (edge_step hexagon ball i).pos i = ball.radius := by
  have hu := edge_normal_unit hexagon i hR
  rw [edge_step_pos_of_fired hexagon ball i h]
  unfold signed_dist edge_dist
  simp only
  set nx := (edge_normal hexagon i).x
  set ny := (edge_normal hexagon i).y
  have e : ∀ (px py vx vy r : ℝ),
      (px + nx * (r - ((px - vx) * nx + (py - vy) * ny)) - vx) * nx
        + (py + ny * (r - ((px - vx) * nx + (py - vy) * ny)) - vy) * ny
      = ((px - vx) * nx + (py - vy) * ny) * (1 - (nx * nx + ny * ny))
        + r * (nx * nx + ny * ny) := by
    intro px py vx vy r
    ring
  rw [e, hu]
  ring

end G25

namespace Geom

/-- The square root of three squares to three and lies strictly between `1.7` and `1.8`. -/
theorem sqrt_three_bounds :
    Real.sqrt 3 * Real.sqrt 3 = 3 ∧ 17 / 10 < Real.sqrt 3 ∧ Real.sqrt 3 < 18 / 10 := by
  have h3 : Real.sqrt 3 * Real.sqrt 3 = 3 := Real.mul_self_sqrt (by norm_num)
  have hpos : 0 ≤ Real.sqrt 3 := Real.sqrt_nonneg 3
  refine ⟨h3, ?_, ?_⟩
  · by_contra h
    push_neg at h
    nlinarith
  · by_contra h
    push_neg at h
    nlinarith

/-- Cosines and sines of the multiples of a sixth of a turn. -/
theorem hex_trig_values :
    (Real.cos (0 * (Real.pi / 3)) = 1 ∧ Real.sin (0 * (Real.pi / 3)) = 0)
      ∧ (Real.cos (1 * (Real.pi / 3)) = 1 / 2 ∧ Real.sin (1 * (Real.pi / 3)) = Real.sqrt 3 / 2)
      ∧ (Real.cos (2 * (Real.pi / 3)) = -(1 / 2) ∧ Real.sin (2 * (Real.pi / 3)) = Real.sqrt 3 / 2)
      ∧ (Real.cos (3 * (Real.pi / 3)) = -1 ∧ Real.sin (3 * (Real.pi / 3)) = 0)
      ∧ (Real.cos (4 * (Real.pi / 3)) = -(1 / 2)
          ∧ Real.sin (4 * (Real.pi / 3)) = -(Real.sqrt 3 / 2))
      ∧ (Real.cos (5 * (Real.pi / 3)) = 1 / 2
          ∧ Real.sin (5 * (Real.pi / 3)) = -(Real.sqrt 3 / 2)) := by
  have e2 : 2 * (Real.pi / 3) = Real.pi - Real.pi / 3 := by ring
  have e3 : 3 * (Real.pi / 3) = Real.pi := by ring
  have e4 : 4 * (Real.pi / 3) = Real.pi / 3 + Real.pi := by ring
  have e5 : 5 * (Real.pi / 3) = 2 * Real.pi - Real.pi / 3 := by ring
  refine ⟨⟨?_, ?_⟩, ⟨?_, ?_⟩, ⟨?_, ?_⟩, ⟨?_, ?_⟩, ⟨?_, ?_⟩, ⟨?_, ?_⟩⟩
  · simp
  · simp
  · rw [one_mul, Real.cos_pi_div_three]
  · rw [one_mul, Real.sin_pi_div_three]
  · rw [e2, Real.cos_pi_sub, Real.cos_pi_div_three]
  · rw [e2, Real.sin_pi_sub, Real.sin_pi_div_three]
  · rw [e3, Real.cos_pi]
  · rw [e3, Real.sin_pi]
  · rw [e4, Real.cos_add_pi, Real.cos_pi_div_three]
  · rw [e4, Real.sin_add_pi, Real.sin_pi_div_three]
  · rw [e5, Real.cos_two_pi_sub, Real.cos_pi_div_three]
  · rw [e5, Real.sin_two_pi_sub, Real.sin_pi_div_three]

end Geom

namespace G25

/-- The rotation update never changes centre or radius of the hexagon. -/
theorem advance_hexagon_radius (hexagon : Hexagon) :
    (advance_hexagon hexagon).radius = hexagon.radius
      ∧ (advance_hexagon hexagon).center = hexagon.center := by
  unfold advance_hexagon
  by_cases h : hexagon.angle + hexagon.angular_velocity * TIME_STEP > 2 * Real.pi
  · simp only [h, if_true, and_self]
  · simp only [h, if_false, and_self]

/-- The value of `dist` in closed form, for a hexagon of positive radius. -/
theorem edge_dist_eq (hexagon : Hexagon) (ball : Ball) (i : ℕ) (hR : 0 < hexagon.radius) :
    edge_dist hexagon ball i
      = (ball.pos.x - hexagon.center.x)
          * (Real.cos (hexagon.angle + (i : ℝ) * (Real.pi / 3)) * Real.sqrt 3 / 2
            - Real.sin (hexagon.angle + (i : ℝ) * (Real.pi / 3)) / 2)
        + (ball.pos.y - hexagon.center.y)
          * (Real.cos (hexagon.angle + (i : ℝ) * (Real.pi / 3)) / 2
            + Real.sin (hexagon.angle + (i : ℝ) * (Real.pi / 3)) * Real.sqrt 3 / 2)
        - hexagon.radius * (Real.sqrt 3 / 2) := by
  obtain ⟨hx, hy⟩ := edge_normal_eq hexagon i hR
  unfold edge_dist
  rw [hx, hy]
  unfold edge_v1
  simp only
  have hφ := Real.cos_sq_add_sin_sq (hexagon.angle + (i : ℝ) * (Real.pi / 3))
  set C := Real.cos (hexagon.angle + (i : ℝ) * (Real.pi / 3))
  set S := Real.sin (hexagon.angle + (i : ℝ) * (Real.pi / 3))
  set r := Real.sqrt 3
  linear_combination (-(hexagon.radius * r / 2)) * hφ

/-- The edge step on a ball at rest. -/
theorem edge_step_at_rest (hexagon : Hexagon) (p : Vec2D) (r : ℝ) (i : ℕ) :
    edge_step hexagon ⟨p, ⟨0, 0⟩, r⟩ i
      = if edge_dist hexagon ⟨p, ⟨0, 0⟩, r⟩ i < r then
          ⟨⟨p.x + (edge_normal hexagon i).x * (r - edge_dist hexagon ⟨p, ⟨0, 0⟩, r⟩ i),
              p.y + (edge_normal hexagon i).y * (r - edge_dist hexagon ⟨p, ⟨0, 0⟩, r⟩ i)⟩,
            ⟨0, 0⟩, r⟩
        else ⟨p, ⟨0, 0⟩, r⟩ := by
  unfold edge_step
  by_cases h : edge_dist hexagon ⟨p, ⟨0, 0⟩, r⟩ i < r
  · simp [h]
  · simp [h]

/-- The sample hexagon is not moved by the rotation update. -/
theorem advance_sample_hexagon : advance_hexagon sample_hexagon = sample_hexagon := by
  unfold advance_hexagon sample_hexagon
  have h : ¬ ((0 : ℝ) > 2 * Real.pi) := by
    have := Real.pi_pos
    simp only [gt_iff_lt, not_lt]
    linarith
  simp only [zero_mul, add_zero, h, if_false]

/-- The sample ball is at rest at the hexagon centre after integration. -/
theorem integrate_sample_ball : integrate_ball sample_ball = ⟨⟨0, 0⟩, ⟨0, 0⟩, 1⟩ := by
  unfold integrate_ball sample_ball GRAVITY_TIME_STEP TIME_STEP
  norm_num

/-- Unit normal and signed distance of edge 0 of the sample hexagon. -/
theorem sample_edge_0 :
    (edge_normal sample_hexagon 0).x = Real.sqrt 3 / 2
      ∧ (edge_normal sample_hexagon 0).y = 1 / 2
      ∧ ∀ (p v : Vec2D) (r : ℝ), edge_dist sample_hexagon ⟨p, v, r⟩ 0
          = p.x * (Real.sqrt 3 / 2) + p.y * (1 / 2) - Real.sqrt 3 := by
  have hR : 0 < sample_hexagon.radius := by unfold sample_hexagon; norm_num
  obtain ⟨h0, h1, h2, h3, h4, h5⟩ := Geom.hex_trig_values
  obtain ⟨hs, -, -⟩ := Geom.sqrt_three_bounds
  have ha : sample_hexagon.angle + ((0 : ℕ) : ℝ) * (Real.pi / 3) = 0 * (Real.pi / 3) := by
    unfold sample_hexagon
    push_cast
    ring
  obtain ⟨hx, hy⟩ := edge_normal_eq sample_hexagon 0 hR
  rw [ha, h0.1, h0.2] at hx hy
  have hx2 : (edge_normal sample_hexagon 0).x = Real.sqrt 3 / 2 := by
    rw [hx]; linarith
  have hy2 : (edge_normal sample_hexagon 0).y = 1 / 2 := by
    rw [hy]; linarith
  refine ⟨hx2, hy2, ?_⟩
  intro p v r
  unfold edge_dist edge_v1
  rw [hx2, hy2]
  simp only
  rw [ha, h0.1, h0.2]
  unfold sample_hexagon
  simp only
  linarith

/-- Unit normal and signed distance of edge 1 of the sample hexagon. -/
theorem sample_edge_1 :
    (edge_normal sample_hexagon 1).x = 0
      ∧ (edge_normal sample_hexagon 1).y = 1
      ∧ ∀ (p v : Vec2D) (r : ℝ), edge_dist sample_hexagon ⟨p, v, r⟩ 1
          = p.x * (0) + p.y * (1) - Real.sqrt 3 := by
  have hR : 0 < sample_hexagon.radius := by unfold sample_hexagon; norm_num
  obtain ⟨h0, h1, h2, h3, h4, h5⟩ := Geom.hex_trig_values
  obtain ⟨hs, -, -⟩ := Geom.sqrt_three_bounds
  have ha : sample_hexagon.angle + ((1 : ℕ) : ℝ) * (Real.pi / 3) = 1 * (Real.pi / 3) := by
    unfold sample_hexagon
    push_cast
    ring
  obtain ⟨hx, hy⟩ := edge_normal_eq sample_hexagon 1 hR
  rw [ha, h1.1, h1.2] at hx hy
  have hx2 : (edge_normal sample_hexagon 1).x = 0 := by
    rw [hx]; linarith
  have hy2 : (edge_normal sample_hexagon 1).y = 1 := by
    rw [hy]; linarith
  refine ⟨hx2, hy2, ?_⟩
  intro p v r
  unfold edge_dist edge_v1
  rw [hx2, hy2]
  simp only
  rw [ha, h1.1, h1.2]
  unfold sample_hexagon
  simp only
  linarith

/-- Unit normal and signed distance of edge 2 of the sample hexagon. -/
theorem sample_edge_2 :
    (edge_normal sample_hexagon 2).x = -(Real.sqrt 3 / 2)
      ∧ (edge_normal sample_hexagon 2).y = 1 / 2
      ∧ ∀ (p v : Vec2D) (r : ℝ), edge_dist sample_hexagon ⟨p, v, r⟩ 2
          = p.x * (-(Real.sqrt 3 / 2)) + p.y * (1 / 2) - Real.sqrt 3 := by
  have hR : 0 < sample_hexagon.radius := by unfold sample_hexagon; norm_num
  obtain ⟨h0, h1, h2, h3, h4, h5⟩ := Geom.hex_trig_values
  obtain ⟨hs, -, -⟩ := Geom.sqrt_three_bounds
  have ha : sample_hexagon.angle + ((2 : ℕ) : ℝ) * (Real.pi / 3) = 2 * (Real.pi / 3) := by
    unfold sample_hexagon
    push_cast
    ring
  obtain ⟨hx, hy⟩ := edge_normal_eq sample_hexagon 2 hR
  rw [ha, h2.1, h2.2] at hx hy
  have hx2 : (edge_normal sample_hexagon 2).x = -(Real.sqrt 3 / 2) := by
    rw [hx]; linarith
  have hy2 : (edge_normal sample_hexagon 2).y = 1 / 2 := by
    rw [hy]; linarith
  refine ⟨hx2, hy2, ?_⟩
  intro p v r
  unfold edge_dist edge_v1
  rw [hx2, hy2]
  simp only
  rw [ha, h2.1, h2.2]
  unfold sample_hexagon
  simp only
  linarith

/-- Unit normal and signed distance of edge 3 of the sample hexagon. -/
theorem sample_edge_3 :
    (edge_normal sample_hexagon 3).x = -(Real.sqrt 3 / 2)
      ∧ (edge_normal sample_hexagon 3).y = -(1 / 2)
      ∧ ∀ (p v : Vec2D) (r : ℝ), edge_dist sample_hexagon ⟨p, v, r⟩ 3
          = p.x * (-(Real.sqrt 3 / 2)) + p.y * (-(1 / 2)) - Real.sqrt 3 := by
  have hR : 0 < sample_hexagon.radius := by unfold sample_hexagon; norm_num
  obtain ⟨h0, h1, h2, h3, h4, h5⟩ := Geom.hex_trig_values
  obtain ⟨hs, -, -⟩ := Geom.sqrt_three_bounds
  have ha : sample_hexagon.angle + ((3 : ℕ) : ℝ) * (Real.pi / 3) = 3 * (Real.pi / 3) := by
    unfold sample_hexagon
    push_cast
    ring
  obtain ⟨hx, hy⟩ := edge_normal_eq sample_hexagon 3 hR
  rw [ha, h3.1, h3.2] at hx hy
  have hx2 : (edge_normal sample_hexagon 3).x = -(Real.sqrt 3 / 2) := by
    rw [hx]; linarith
  have hy2 : (edge_normal sample_hexagon 3).y = -(1 / 2) := by
    rw [hy]; linarith
  refine ⟨hx2, hy2, ?_⟩
  intro p v r
  unfold edge_dist edge_v1
  rw [hx2, hy2]
  simp only
  rw [ha, h3.1, h3.2]
  unfold sample_hexagon
  simp only
  linarith

/-- Unit normal and signed distance of edge 4 of the sample hexagon. -/
theorem sample_edge_4 :
    (edge_normal sample_hexagon 4).x = 0
      ∧ (edge_normal sample_hexagon 4).y = -1
      ∧ ∀ (p v : Vec2D) (r : ℝ), edge_dist sample_hexagon ⟨p, v, r⟩ 4
          = p.x * (0) + p.y * (-1) - Real.sqrt 3 := by
  have hR : 0 < sample_hexagon.radius := by unfold sample_hexagon; norm_num
  obtain ⟨h0, h1, h2, h3, h4, h5⟩ := Geom.hex_trig_values
  obtain ⟨hs, -, -⟩ := Geom.sqrt_three_bounds
  have ha : sample_hexagon.angle + ((4 : ℕ) : ℝ) * (Real.pi / 3) = 4 * (Real.pi / 3) := by
    unfold sample_hexagon
    push_cast
    ring
  obtain ⟨hx, hy⟩ := edge_normal_eq sample_hexagon 4 hR
  rw [ha, h4.1, h4.2] at hx hy
  have hx2 : (edge_normal sample_hexagon 4).x = 0 := by
    rw [hx]; linarith
  have hy2 : (edge_normal sample_hexagon 4).y = -1 := by
    rw [hy]; linarith
  refine ⟨hx2, hy2, ?_⟩
  intro p v r
  unfold edge_dist edge_v1
  rw [hx2, hy2]
  simp only
  rw [ha, h4.1, h4.2]
  unfold sample_hexagon
  simp only
  linarith

/-- Unit normal and signed distance of edge 5 of the sample hexagon. -/
theorem sample_edge_5 :
    (edge_normal sample_hexagon 5).x = Real.sqrt 3 / 2
      ∧ (edge_normal sample_hexagon 5).y = -(1 / 2)
      ∧ ∀ (p v : Vec2D) (r : ℝ), edge_dist sample_hexagon ⟨p, v, r⟩ 5
          = p.x * (Real.sqrt 3 / 2) + p.y * (-(1 / 2)) - Real.sqrt 3 := by
  have hR : 0 < sample_hexagon.radius := by unfold sample_hexagon; norm_num
  obtain ⟨h0, h1, h2, h3, h4, h5⟩ := Geom.hex_trig_values
  obtain ⟨hs, -, -⟩ := Geom.sqrt_three_bounds
  have ha : sample_hexagon.angle + ((5 : ℕ) : ℝ) * (Real.pi / 3) = 5 * (Real.pi / 3) := by
    unfold sample_hexagon
    push_cast
    ring
  obtain ⟨hx, hy⟩ := edge_normal_eq sample_hexagon 5 hR
  rw [ha, h5.1, h5.2] at hx hy
  have hx2 : (edge_normal sample_hexagon 5).x = Real.sqrt 3 / 2 := by
    rw [hx]; linarith
  have hy2 : (edge_normal sample_hexagon 5).y = -(1 / 2) := by
    rw [hy]; linarith
  refine ⟨hx2, hy2, ?_⟩
  intro p v r
  unfold edge_dist edge_v1
  rw [hx2, hy2]
  simp only
  rw [ha, h5.1, h5.2]
  unfold sample_hexagon
  simp only
  linarith

/-- The sample ball after the edges before edge 1 have been processed. -/
theorem sample_trace_1 :
    edges_upto sample_hexagon ⟨⟨0, 0⟩, ⟨0, 0⟩, 1⟩ 1
      = ⟨⟨3 / 2 + Real.sqrt 3 / 2, 1 / 2 + Real.sqrt 3 / 2⟩, ⟨0, 0⟩, 1⟩ := by
  obtain ⟨hx, hy, hd⟩ := sample_edge_0
  obtain ⟨hs, hlo, hhi⟩ := Geom.sqrt_three_bounds
  show edge_step sample_hexagon (edges_upto sample_hexagon ⟨⟨0, 0⟩, ⟨0, 0⟩, 1⟩ 0) 0 = _
  rw [show edges_upto sample_hexagon ⟨⟨0, 0⟩, ⟨0, 0⟩, 1⟩ 0 = ⟨⟨0, 0⟩, ⟨0, 0⟩, 1⟩ from rfl,
    edge_step_at_rest, hd, hx, hy]
  simp only
  rw [if_pos (by nlinarith)]
  congr 1
  congr 1 <;> nlinarith

/-- The sample ball after the edges before edge 2 have been processed. -/
theorem sample_trace_2 :
    edges_upto sample_hexagon ⟨⟨0, 0⟩, ⟨0, 0⟩, 1⟩ 2
      = ⟨⟨3 / 2 + Real.sqrt 3 / 2, 1 + Real.sqrt 3⟩, ⟨0, 0⟩, 1⟩ := by
  obtain ⟨hx, hy, hd⟩ := sample_edge_1
  obtain ⟨hs, hlo, hhi⟩ := Geom.sqrt_three_bounds
  show edge_step sample_hexagon (edges_upto sample_hexagon ⟨⟨0, 0⟩, ⟨0, 0⟩, 1⟩ 1) 1 = _
  rw [sample_trace_1,
    edge_step_at_rest, hd, hx, hy]
  simp only
  rw [if_pos (by nlinarith)]
  congr 1
  congr 1 <;> nlinarith

/-- The sample ball after the edges before edge 3 have been processed. -/
theorem sample_trace_3 :
    edges_upto sample_hexagon ⟨⟨0, 0⟩, ⟨0, 0⟩, 1⟩ 3
      = ⟨⟨-(3 / 8) - Real.sqrt 3 / 8, 13 / 8 + 13 * Real.sqrt 3 / 8⟩, ⟨0, 0⟩, 1⟩ := by
  obtain ⟨hx, hy, hd⟩ := sample_edge_2
  obtain ⟨hs, hlo, hhi⟩ := Geom.sqrt_three_bounds
  show edge_step sample_hexagon (edges_upto sample_hexagon ⟨⟨0, 0⟩, ⟨0, 0⟩, 1⟩ 2) 2 = _
  rw [sample_trace_2,
    edge_step_at_rest, hd, hx, hy]
  simp only
  rw [if_pos (by nlinarith)]
  congr 1
  congr 1 <;> nlinarith

/-- The sample ball after the edges before edge 4 have been processed. -/
theorem sample_trace_4 :
    edges_upto sample_hexagon ⟨⟨0, 0⟩, ⟨0, 0⟩, 1⟩ 4
      = ⟨⟨-(45 / 16) - 15 * Real.sqrt 3 / 16, 13 / 16 + 13 * Real.sqrt 3 / 16⟩, ⟨0, 0⟩, 1⟩ := by
  obtain ⟨hx, hy, hd⟩ := sample_edge_3
  obtain ⟨hs, hlo, hhi⟩ := Geom.sqrt_three_bounds
  show edge_step sample_hexagon (edges_upto sample_hexagon ⟨⟨0, 0⟩, ⟨0, 0⟩, 1⟩ 3) 3 = _
  rw [sample_trace_3,
    edge_step_at_rest, hd, hx, hy]
  simp only
  rw [if_pos (by nlinarith)]
  congr 1
  congr 1 <;> nlinarith

/-- The sample ball after the edges before edge 5 have been processed. -/
theorem sample_trace_5 :
    edges_upto sample_hexagon ⟨⟨0, 0⟩, ⟨0, 0⟩, 1⟩ 5
      = ⟨⟨-(45 / 16) - 15 * Real.sqrt 3 / 16, -1 - Real.sqrt 3⟩, ⟨0, 0⟩, 1⟩ := by
  obtain ⟨hx, hy, hd⟩ := sample_edge_4
  obtain ⟨hs, hlo, hhi⟩ := Geom.sqrt_three_bounds
  show edge_step sample_hexagon (edges_upto sample_hexagon ⟨⟨0, 0⟩, ⟨0, 0⟩, 1⟩ 4) 4 = _
  rw [sample_trace_4,
    edge_step_at_rest, hd, hx, hy]
  simp only
  rw [if_pos (by nlinarith)]
  congr 1
  congr 1 <;> nlinarith

/-- The sample ball after the edges before edge 6 have been processed. -/
theorem sample_trace_6 :
    edges_upto sample_hexagon ⟨⟨0, 0⟩, ⟨0, 0⟩, 1⟩ 6
      = ⟨⟨3 / 64 + Real.sqrt 3 / 64, -(125 / 64) - 125 * Real.sqrt 3 / 64⟩, ⟨0, 0⟩, 1⟩ := by
  obtain ⟨hx, hy, hd⟩ := sample_edge_5
  obtain ⟨hs, hlo, hhi⟩ := Geom.sqrt_three_bounds
  show edge_step sample_hexagon (edges_upto sample_hexagon ⟨⟨0, 0⟩, ⟨0, 0⟩, 1⟩ 5) 5 = _
  rw [sample_trace_5,
    edge_step_at_rest, hd, hx, hy]
  simp only
  rw [if_pos (by nlinarith)]
  congr 1
  congr 1 <;> nlinarith

/-- The sample ball as `update_physics` returns it. -/
theorem update_physics_sample :
    (update_physics sample_ball sample_hexagon).1
      = ⟨⟨3 / 64 + Real.sqrt 3 / 64, -(125 / 64) - 125 * Real.sqrt 3 / 64⟩, ⟨0, 0⟩, 1⟩ := by
  unfold update_physics
  simp only
  rw [advance_sample_hexagon, integrate_sample_ball, sample_trace_6]

/-- The unit normals of consecutive edges of a hexagon of positive radius enclose an angle of
60 degrees: their dot product is `1 / 2`. -/
theorem edge_normal_dot_next (hexagon : Hexagon) (i : ℕ) (hR : 0 < hexagon.radius) :
    (edge_normal hexagon (i + 1)).x * (edge_normal hexagon i).x
      + (edge_normal hexagon (i + 1)).y * (edge_normal hexagon i).y = 1 / 2 := by
  obtain ⟨hs, -, -⟩ := Geom.sqrt_three_bounds
  obtain ⟨hx, hy⟩ := edge_normal_eq hexagon i hR
  obtain ⟨hx1, hy1⟩ := edge_normal_eq hexagon (i + 1) hR
  have ha : hexagon.angle + ((i + 1 : ℕ) : ℝ) * (Real.pi / 3)
      = hexagon.angle + (i : ℝ) * (Real.pi / 3) + Real.pi / 3 := by push_cast; ring
  obtain ⟨hc, hsn⟩ := Geom.cos_sin_add_sixth (hexagon.angle + (i : ℝ) * (Real.pi / 3))
  have hcs := Real.cos_sq_add_sin_sq (hexagon.angle + (i : ℝ) * (Real.pi / 3))
  rw [hx, hy, hx1, hy1, ha, hc, hsn]
  generalize Real.cos (hexagon.angle + (i : ℝ) * (Real.pi / 3)) = C at hcs ⊢
  generalize Real.sin (hexagon.angle + (i : ℝ) * (Real.pi / 3)) = S at hcs ⊢
  linear_combination ((C ^ 2 + S ^ 2) / 8) * hs + (1 / 2) * hcs

/-- The signed distances of the ball centre to the lines of three consecutive edges of a hexagon
of positive radius: the normal of the third edge is the normal of the second minus the normal of
the first. -/
theorem edge_dist_consecutive (hexagon : Hexagon) (ball : Ball) (i : ℕ)
    (hR : 0 < hexagon.radius) :
    edge_dist hexagon ball (i + 2)
      = edge_dist hexagon ball (i + 1) - edge_dist hexagon ball i
        - hexagon.radius * (Real.sqrt 3 / 2) := by
  obtain ⟨hs, -, -⟩ := Geom.sqrt_three_bounds
  have ha1 : hexagon.angle + ((i + 1 : ℕ) : ℝ) * (Real.pi / 3)
      = hexagon.angle + (i : ℝ) * (Real.pi / 3) + Real.pi / 3 := by push_cast; ring
  have ha2 : hexagon.angle + ((i + 2 : ℕ) : ℝ) * (Real.pi / 3)
      = hexagon.angle + (i : ℝ) * (Real.pi / 3) + Real.pi / 3 + Real.pi / 3 := by
    push_cast; ring
  obtain ⟨hc1, hs1⟩ := Geom.cos_sin_add_sixth (hexagon.angle + (i : ℝ) * (Real.pi / 3))
  obtain ⟨hc2, hs2⟩ :=
    Geom.cos_sin_add_sixth (hexagon.angle + (i : ℝ) * (Real.pi / 3) + Real.pi / 3)
  rw [edge_dist_eq hexagon ball (i + 2) hR, edge_dist_eq hexagon ball (i + 1) hR,
    edge_dist_eq hexagon ball i hR, ha2, ha1, hc2, hs2, hc1, hs1]
  generalize Real.cos (hexagon.angle + (i : ℝ) * (Real.pi / 3)) = C
  generalize Real.sin (hexagon.angle + (i : ℝ) * (Real.pi / 3)) = S
  generalize ball.pos.x - hexagon.center.x = px
  generalize ball.pos.y - hexagon.center.y = py
  linear_combination
    (px * (-(C * Real.sqrt 3) / 8 + S / 8) + py * (-C / 8 - S * Real.sqrt 3 / 8)) * hs

/-- The signed distance of the ball centre to the line of edge `i` after the correction of a
fired edge `j`: the correction moves the centre by the overlap along the normal of edge `j`. -/
theorem edge_dist_of_fired_step (hexagon : Hexagon) (ball : Ball) (j i : ℕ)
    (h : edge_dist hexagon ball j < ball.radius) :
    edge_dist hexagon (edge_step hexagon ball j) i
      = edge_dist hexagon ball i
        + (ball.radius - edge_dist hexagon ball j)
          * ((edge_normal hexagon j).x * (edge_normal hexagon i).x
            + (edge_normal hexagon j).y * (edge_normal hexagon i).y) := by
  have hp := edge_step_pos_of_fired hexagon ball j h
  unfold edge_dist at hp ⊢
  rw [hp]
  simp only
  ring

/-- After the step of edge `j` the ball centre is at signed distance at least `radius` from the
line of edge `j`, whether the test fired or not. -/
theorem edge_step_own_dist_ge (hexagon : Hexagon) (ball : Ball) (j : ℕ)
    (hR : 0 < hexagon.radius) :
    ball.radius ≤ edge_dist hexagon (edge_step hexagon ball j) j := by
  by_cases h : edge_dist hexagon ball j < ball.radius
  · have h1 := edge_step_signed_dist hexagon ball j hR h
    have h2 : signed_dist hexagon (edge_step hexagon ball j).pos j
        = edge_dist hexagon (edge_step hexagon ball j) j := rfl
    rw [h2] at h1
    exact le_of_eq h1.symm
  · rw [edge_step_of_not_fired hexagon ball j h]
    exact not_lt.mp h

/-- Whatever the ball is when edge 2 is about to be tested, after the steps of the edges 2, 3
and 4 its centre is at signed distance below `radius` from the line of edge 5. -/
theorem edge_five_dist_lt (hexagon : Hexagon) (ball : Ball) (hr : 0 < ball.radius)
    (hR : 0 < hexagon.radius) :
    edge_dist hexagon (edge_step hexagon (edge_step hexagon (edge_step hexagon ball 2) 3) 4) 5
      < ball.radius := by
  have hs3 : 0 < Real.sqrt 3 := Real.sqrt_pos.mpr (by norm_num)
  have hh : 0 < hexagon.radius * (Real.sqrt 3 / 2) := by positivity
  have hr3 : (edge_step hexagon ball 2).radius = ball.radius := edge_step_radius hexagon ball 2
  have hr4 : (edge_step hexagon (edge_step hexagon ball 2) 3).radius = ball.radius := by
    rw [edge_step_radius, hr3]
  have h2 := edge_step_own_dist_ge hexagon ball 2 hR
  have h3 := edge_step_own_dist_ge hexagon (edge_step hexagon ball 2) 3 hR
  rw [hr3] at h3
  generalize edge_step hexagon ball 2 = b3 at hr3 hr4 h2 h3 ⊢
  by_cases f4 : edge_dist hexagon (edge_step hexagon b3 3) 4 < (edge_step hexagon b3 3).radius
  · have e4 := edge_step_signed_dist hexagon (edge_step hexagon b3 3) 4 hR f4
    have e4b : signed_dist hexagon (edge_step hexagon (edge_step hexagon b3 3) 4).pos 4
        = edge_dist hexagon (edge_step hexagon (edge_step hexagon b3 3) 4) 4 := rfl
    rw [e4b, hr4] at e4
    have e3 := edge_dist_of_fired_step hexagon (edge_step hexagon b3 3) 4 3 f4
    rw [edge_normal_dot_next hexagon 3 hR, hr4] at e3
    have e5 := edge_dist_consecutive hexagon (edge_step hexagon (edge_step hexagon b3 3) 4) 3 hR
    rw [hr4] at f4
    linarith
  · rw [edge_step_of_not_fired hexagon (edge_step hexagon b3 3) 4 f4]
    have e5 := edge_dist_consecutive hexagon (edge_step hexagon b3 3) 3 hR
    have e4 := edge_dist_consecutive hexagon (edge_step hexagon b3 3) 2 hR
    have hd2 : ball.radius ≤ edge_dist hexagon (edge_step hexagon b3 3) 2 := by
      by_cases f3 : edge_dist hexagon b3 3 < b3.radius
      · have e2 := edge_dist_of_fired_step hexagon b3 3 2 f3
        rw [edge_normal_dot_next hexagon 2 hR, hr3] at e2
        rw [hr3] at f3
        linarith
      · rw [edge_step_of_not_fired hexagon b3 3 f3]
        exact h2
    linarith

/-- In every call of `update_physics` on a ball and a hexagon of positive radius the test of the
last edge fires. -/
theorem last_edge_fires (ball : Ball) (hexagon : Hexagon) (hr : 0 < ball.radius)
    (hR : 0 < hexagon.radius) : edge_fired ball hexagon 5 := by
  have hR2 : 0 < (advance_hexagon hexagon).radius := by
    rw [(advance_hexagon_radius hexagon).1]; exact hR
  have hrad : (edges_upto (advance_hexagon hexagon) (integrate_ball ball) 2).radius
      = ball.radius := by
    rw [edges_upto_radius]; rfl
  have h := edge_five_dist_lt (advance_hexagon hexagon)
    (edges_upto (advance_hexagon hexagon) (integrate_ball ball) 2) (by rw [hrad]; exact hr) hR2
  rw [hrad] at h
  unfold edge_fired
  rw [edges_upto_radius]
  exact h

/-- Every call of `update_physics` on a ball and a hexagon of positive radius returns the ball
outside the hexagon: the test of edge 5 fires, so at return the ball centre is at signed distance
`+radius` from the line of edge 5, on the side of the outward normal, while the hexagon centre
is at signed distance `-(radius of the hexagon) * sqrt 3 / 2` from it. -/
theorem update_physics_returns_ball_outside (ball : Ball) (hexagon : Hexagon)
    (hr : 0 < ball.radius) (hR : 0 < hexagon.radius) :
    edge_fired ball hexagon 5
      ∧ signed_dist (advance_hexagon hexagon) (update_physics ball hexagon).1.pos 5 = ball.radius
      ∧ signed_dist (advance_hexagon hexagon) (advance_hexagon hexagon).center 5
          = -(hexagon.radius * (Real.sqrt 3 / 2)) := by
  have hR2 : 0 < (advance_hexagon hexagon).radius := by
    rw [(advance_hexagon_radius hexagon).1]; exact hR
  have hf := last_edge_fires ball hexagon hr hR
  have hrad : (edges_upto (advance_hexagon hexagon) (integrate_ball ball) 5).radius
      = ball.radius := by
    rw [edges_upto_radius]; rfl
  refine ⟨hf, ?_, ?_⟩
  · show signed_dist (advance_hexagon hexagon)
      (edge_step (advance_hexagon hexagon)
        (edges_upto (advance_hexagon hexagon) (integrate_ball ball) 5) 5).pos 5 = ball.radius
    rw [edge_step_signed_dist _ _ 5 hR2 hf, hrad]
  · have h1 : signed_dist (advance_hexagon hexagon) (advance_hexagon hexagon).center 5
        = edge_dist (advance_hexagon hexagon)
            ⟨(advance_hexagon hexagon).center, ⟨0, 0⟩, 0⟩ 5 := rfl
    rw [h1, edge_dist_eq _ _ 5 hR2, (advance_hexagon_radius hexagon).1]
    simp only
    ring

/-- C3 (g2.5-pro): for the ball of radius 1 at rest (after gravity) at the centre of the hexagon
of radius 2, whose walls are all at distance `sqrt 3` from the ball centre, every one of the six
tests `dist < ball->radius` fires during `update_physics`, and when `update_physics` returns
`dot(ball.pos - v1_0, n_0)` is below the ball radius for the fired edge 0, while it is equal to
the ball radius for edge 5: the ball centre has been moved across the wall of edge 5 and out of
the hexagon. -/
theorem edge_left_embedded_sample :
    0 < sample_ball.radius ∧ 0 < sample_hexagon.radius
      ∧ edge_fired sample_ball sample_hexagon 0
      ∧ signed_dist (advance_hexagon sample_hexagon)
          (update_physics sample_ball sample_hexagon).1.pos 0 < sample_ball.radius
      ∧ (∀ i, i < 6 →
          signed_dist (advance_hexagon sample_hexagon) (integrate_ball sample_ball).pos i
            = -Real.sqrt 3)
      ∧ (∀ i, i < 6 → edge_fired sample_ball sample_hexagon i)
      ∧ signed_dist (advance_hexagon sample_hexagon)
          (update_physics sample_ball sample_hexagon).1.pos 5 = sample_ball.radius := by
  obtain ⟨hs, hlo, hhi⟩ := Geom.sqrt_three_bounds
  obtain ⟨-, -, hd0⟩ := sample_edge_0
  obtain ⟨-, -, hd1⟩ := sample_edge_1
  obtain ⟨-, -, hd2⟩ := sample_edge_2
  obtain ⟨-, -, hd3⟩ := sample_edge_3
  obtain ⟨-, -, hd4⟩ := sample_edge_4
  obtain ⟨-, -, hd5⟩ := sample_edge_5
  have hf0 : edge_fired sample_ball sample_hexagon 0 := by
    unfold edge_fired
    rw [advance_sample_hexagon, integrate_sample_ball]
    show edge_dist sample_hexagon ⟨⟨0, 0⟩, ⟨0, 0⟩, 1⟩ 0 < 1
    rw [hd0]
    simp only
    linarith
  refine ⟨by unfold sample_ball; norm_num, by unfold sample_hexagon; norm_num, hf0, ?_, ?_, ?_, ?_⟩
  · rw [update_physics_sample, advance_sample_hexagon]
    show edge_dist sample_hexagon
      ⟨⟨3 / 64 + Real.sqrt 3 / 64, -(125 / 64) - 125 * Real.sqrt 3 / 64⟩, ⟨0, 0⟩, 1⟩ 0 < 1
    rw [hd0]
    simp only
    nlinarith
  · intro i hi
    rw [advance_sample_hexagon, integrate_sample_ball]
    show edge_dist sample_hexagon ⟨⟨0, 0⟩, ⟨0, 0⟩, 1⟩ i = -Real.sqrt 3
    interval_cases i
    · rw [hd0]; simp only; ring
    · rw [hd1]; simp only; ring
    · rw [hd2]; simp only; ring
    · rw [hd3]; simp only; ring
    · rw [hd4]; simp only; ring
    · rw [hd5]; simp only; ring
  · intro i hi
    interval_cases i
    · exact hf0
    · unfold edge_fired
      rw [advance_sample_hexagon, integrate_sample_ball, sample_trace_1, hd1]
      simp only
      nlinarith
    · unfold edge_fired
      rw [advance_sample_hexagon, integrate_sample_ball, sample_trace_2, hd2]
      simp only
      nlinarith
    · unfold edge_fired
      rw [advance_sample_hexagon, integrate_sample_ball, sample_trace_3, hd3]
      simp only
      nlinarith
    · unfold edge_fired
      rw [advance_sample_hexagon, integrate_sample_ball, sample_trace_4, hd4]
      simp only
      nlinarith
    · unfold edge_fired
      rw [advance_sample_hexagon, integrate_sample_ball, sample_trace_5, hd5]
      simp only
      nlinarith
  · rw [update_physics_sample, advance_sample_hexagon]
    show edge_dist sample_hexagon
      ⟨⟨3 / 64 + Real.sqrt 3 / 64, -(125 / 64) - 125 * Real.sqrt 3 / 64⟩, ⟨0, 0⟩, 1⟩ 5
        = sample_ball.radius
    rw [hd5]
    unfold sample_ball
    simp only
    nlinarith

end G25

namespace G4

/-- The vectors `normal` and `tangent` are orthonormal when `dist` is non-zero. -/
theorem rc_tangent_orthonormal (ball : Ball) (p1 p2 : Point) (hd : 0 < rc_dist ball p1 p2) :
    (rc_tangent ball p1 p2).x * (rc_tangent ball p1 p2).x
        + (rc_tangent ball p1 p2).y * (rc_tangent ball p1 p2).y = 1
      ∧ (rc_normal ball p1 p2).x * (rc_tangent ball p1 p2).x
        + (rc_normal ball p1 p2).y * (rc_tangent ball p1 p2).y = 0 := by
  have hu := rc_normal_unit ball p1 p2 hd
  unfold rc_tangent
  simp only
  constructor
  · linarith
  · ring

/-- Velocity written by `resolve_collision` when the velocity response is applied. -/
theorem resolve_collision_vel (ball : Ball) (p1 p2 center : Point) (omega : ℝ)
    (hd : 0 < rc_dist ball p1 p2) (hr : rc_dist ball p1 p2 < BALL_RADIUS)
    (hv : rc_v_n ball p1 p2 center omega < 0) :
    (resolve_collision ball p1 p2 center omega).vx
        = ball.vx + rc_j_n ball p1 p2 center omega * (rc_normal ball p1 p2).x
          + rc_j_t ball p1 p2 center omega * (rc_tangent ball p1 p2).x
      ∧ (resolve_collision ball p1 p2 center omega).vy
        = ball.vy + rc_j_n ball p1 p2 center omega * (rc_normal ball p1 p2).y
          + rc_j_t ball p1 p2 center omega * (rc_tangent ball p1 p2).y := by
  have hg : ¬ (rc_dist ball p1 p2 ≥ BALL_RADIUS ∨ rc_dist ball p1 p2 = 0) := by
    intro h
    rcases h with h | h
    · exact absurd hr (not_lt.mpr h)
    · exact absurd h (ne_of_gt hd)
  have hv2 : ¬ rc_v_n ball p1 p2 center omega ≥ 0 := not_le.mpr hv
  unfold resolve_collision
  rw [if_neg hg]
  simp only [hv2, if_false, and_self]

/-- Velocity after `resolve_collision` when no velocity response is applied. -/
theorem resolve_collision_vel_kept (ball : Ball) (p1 p2 center : Point) (omega : ℝ)
    (h : rc_dist ball p1 p2 ≥ BALL_RADIUS ∨ rc_dist ball p1 p2 = 0
      ∨ rc_v_n ball p1 p2 center omega ≥ 0) :
    (resolve_collision ball p1 p2 center omega).vx = ball.vx
      ∧ (resolve_collision ball p1 p2 center omega).vy = ball.vy := by
  unfold resolve_collision
  by_cases hg : rc_dist ball p1 p2 ≥ BALL_RADIUS ∨ rc_dist ball p1 p2 = 0
  · rw [if_pos hg]
    exact ⟨rfl, rfl⟩
  · rw [if_neg hg]
    have hv : rc_v_n ball p1 p2 center omega ≥ 0 := by
      rcases h with h | h | h
      · exact absurd (Or.inl h) hg
      · exact absurd (Or.inr h) hg
      · exact h
    simp only [hv, if_true, and_self]

/-- Relative velocity after the response, along `normal` and along `tangent`. -/
theorem resolve_collision_rel_vel (ball : Ball) (p1 p2 center : Point) (omega : ℝ)
    (hd : 0 < rc_dist ball p1 p2) (hr : rc_dist ball p1 p2 < BALL_RADIUS)
    (hv : rc_v_n ball p1 p2 center omega < 0) :
    ((resolve_collision ball p1 p2 center omega).vx - (rc_v_wall ball p1 p2 center omega).x)
          * (rc_normal ball p1 p2).x
        + ((resolve_collision ball p1 p2 center omega).vy - (rc_v_wall ball p1 p2 center omega).y)
          * (rc_normal ball p1 p2).y
        = rc_v_n ball p1 p2 center omega + rc_j_n ball p1 p2 center omega
      ∧ ((resolve_collision ball p1 p2 center omega).vx - (rc_v_wall ball p1 p2 center omega).x)
          * (rc_tangent ball p1 p2).x
        + ((resolve_collision ball p1 p2 center omega).vy - (rc_v_wall ball p1 p2 center omega).y)
          * (rc_tangent ball p1 p2).y
        = rc_v_t ball p1 p2 center omega + rc_j_t ball p1 p2 center omega := by
  obtain ⟨hx, hy⟩ := resolve_collision_vel ball p1 p2 center omega hd hr hv
  have hu := rc_normal_unit ball p1 p2 hd
  obtain ⟨ht, hnt⟩ := rc_tangent_orthonormal ball p1 p2 hd
  rw [hx, hy]
  unfold rc_v_n rc_v_t rc_v_rel
  simp only
  constructor
  · linear_combination (rc_j_n ball p1 p2 center omega) * hu
      + (rc_j_t ball p1 p2 center omega) * hnt
  · linear_combination (rc_j_n ball p1 p2 center omega) * hnt
      + (rc_j_t ball p1 p2 center omega) * ht

/-- C4 (g4): when `0 < dist < BALL_RADIUS` and the relative normal velocity
`v_n = dot(v_ball - v_wall, n)` is negative, where `v_wall = omega * (-(c.y - centre.y),
c.x - centre.x)` is the wall velocity at the closest point `c`, the velocity written by
`resolve_collision` satisfies `dot(v_ball' - v_wall, n) = -RESTITUTION * v_n = -0.8 * v_n`. -/
theorem resolve_collision_restitution (ball : Ball) (p1 p2 center : Point) (omega : ℝ)
    (hd : 0 < rc_dist ball p1 p2) (hr : rc_dist ball p1 p2 < BALL_RADIUS)
    (hv : rc_v_n ball p1 p2 center omega < 0) :
    ((rc_v_wall ball p1 p2 center omega).x = omega * -((rc_closest ball p1 p2).y - center.y)
        ∧ (rc_v_wall ball p1 p2 center omega).y = omega * ((rc_closest ball p1 p2).x - center.x))
      ∧ rc_v_n ball p1 p2 center omega
        = (ball.vx - (rc_v_wall ball p1 p2 center omega).x) * (rc_normal ball p1 p2).x
          + (ball.vy - (rc_v_wall ball p1 p2 center omega).y) * (rc_normal ball p1 p2).y
      ∧ ((resolve_collision ball p1 p2 center omega).vx - (rc_v_wall ball p1 p2 center omega).x)
            * (rc_normal ball p1 p2).x
          + ((resolve_collision ball p1 p2 center omega).vy
              - (rc_v_wall ball p1 p2 center omega).y) * (rc_normal ball p1 p2).y
          = -RESTITUTION * rc_v_n ball p1 p2 center omega
      ∧ -RESTITUTION * rc_v_n ball p1 p2 center omega
          = -(8 / 10) * rc_v_n ball p1 p2 center omega := by
  refine ⟨⟨?_, ?_⟩, rfl, ?_, rfl⟩
  · unfold rc_v_wall wall_velocity
    simp only
    ring
  · unfold rc_v_wall wall_velocity
    simp only
  · rw [(resolve_collision_rel_vel ball p1 p2 center omega hd hr hv).1]
    unfold rc_j_n
    ring

/-- Sample values: for a ball at `(0, 5)` with velocity `(vx, vy)` over the segment from
`(-1, 0)` to `(1, 0)` of a wall at rest, `normal = (0, 1)`, `v_n = vy` and `v_t = -vx`. -/
theorem rc_v_sample (vx vy : ℝ) :
    rc_normal ⟨0, 5, vx, vy⟩ ⟨-1, 0⟩ ⟨1, 0⟩ = ⟨0, 1⟩
      ∧ rc_v_n ⟨0, 5, vx, vy⟩ ⟨-1, 0⟩ ⟨1, 0⟩ ⟨0, 0⟩ 0 = vy
      ∧ rc_v_t ⟨0, 5, vx, vy⟩ ⟨-1, 0⟩ ⟨1, 0⟩ ⟨0, 0⟩ 0 = -vx
      ∧ rc_dist ⟨0, 5, vx, vy⟩ ⟨-1, 0⟩ ⟨1, 0⟩ = 5 := by
  have hc : closest_on_segment ⟨0, 5⟩ ⟨-1, 0⟩ ⟨1, 0⟩ = ⟨0, 0⟩ := by
    unfold closest_on_segment
    norm_num
  have hdist : rc_dist ⟨0, 5, vx, vy⟩ ⟨-1, 0⟩ ⟨1, 0⟩ = 5 := by
    unfold rc_dist rc_to_ball rc_closest
    rw [hc]
    norm_num
    rw [show (25 : ℝ) = 5 * 5 by norm_num]
    exact Real.sqrt_mul_self (by norm_num)
  have hn : rc_normal ⟨0, 5, vx, vy⟩ ⟨-1, 0⟩ ⟨1, 0⟩ = ⟨0, 1⟩ := by
    unfold rc_normal
    rw [hdist]
    unfold rc_to_ball rc_closest
    rw [hc]
    norm_num
  refine ⟨hn, ?_, ?_, hdist⟩
  · unfold rc_v_n rc_v_rel rc_v_wall wall_velocity
    rw [hn]
    norm_num
  · unfold rc_v_t rc_tangent rc_v_rel rc_v_wall wall_velocity
    rw [hn]
    norm_num

/-- Witness for C4: a ball at `(0, 5)` moving with velocity `(2, -1)` towards the segment from
`(-1, 0)` to `(1, 0)` of a wall at rest. -/
theorem resolve_collision_restitution_witness :
    (0 < rc_dist ⟨0, 5, 2, -1⟩ ⟨-1, 0⟩ ⟨1, 0⟩
        ∧ rc_dist ⟨0, 5, 2, -1⟩ ⟨-1, 0⟩ ⟨1, 0⟩ < BALL_RADIUS
        ∧ rc_v_n ⟨0, 5, 2, -1⟩ ⟨-1, 0⟩ ⟨1, 0⟩ ⟨0, 0⟩ 0 < 0)
      ∧ ((resolve_collision ⟨0, 5, 2, -1⟩ ⟨-1, 0⟩ ⟨1, 0⟩ ⟨0, 0⟩ 0).vx
              - (rc_v_wall ⟨0, 5, 2, -1⟩ ⟨-1, 0⟩ ⟨1, 0⟩ ⟨0, 0⟩ 0).x)
            * (rc_normal ⟨0, 5, 2, -1⟩ ⟨-1, 0⟩ ⟨1, 0⟩).x
          + ((resolve_collision ⟨0, 5, 2, -1⟩ ⟨-1, 0⟩ ⟨1, 0⟩ ⟨0, 0⟩ 0).vy
              - (rc_v_wall ⟨0, 5, 2, -1⟩ ⟨-1, 0⟩ ⟨1, 0⟩ ⟨0, 0⟩ 0).y)
            * (rc_normal ⟨0, 5, 2, -1⟩ ⟨-1, 0⟩ ⟨1, 0⟩).y
          = -RESTITUTION * rc_v_n ⟨0, 5, 2, -1⟩ ⟨-1, 0⟩ ⟨1, 0⟩ ⟨0, 0⟩ 0 := by
  obtain ⟨-, hvn, -, hdist⟩ := rc_v_sample 2 (-1)
  have h1 : 0 < rc_dist ⟨0, 5, 2, -1⟩ ⟨-1, 0⟩ ⟨1, 0⟩ := by rw [hdist]; norm_num
  have h2 : rc_dist ⟨0, 5, 2, -1⟩ ⟨-1, 0⟩ ⟨1, 0⟩ < BALL_RADIUS := by
    rw [hdist]; unfold BALL_RADIUS; norm_num
  have h3 : rc_v_n ⟨0, 5, 2, -1⟩ ⟨-1, 0⟩ ⟨1, 0⟩ ⟨0, 0⟩ 0 < 0 := by rw [hvn]; norm_num
  exact ⟨⟨h1, h2, h3⟩,
    (resolve_collision_restitution ⟨0, 5, 2, -1⟩ ⟨-1, 0⟩ ⟨1, 0⟩ ⟨0, 0⟩ 0 h1 h2 h3).2.2.1⟩

end G4

namespace Geom

/-- The clamped tangential impulse `j`, for a tangential velocity `v` and a cap `m ≥ 0`. -/
theorem clamp_impulse (v m : ℝ) (hm : 0 ≤ m) :
    |(if |-v| > m then (if v > 0 then -m else m) else -v)| ≤ m
      ∧ v + (if |-v| > m then (if v > 0 then -m else m) else -v)
        = v - Real.sign v * min |v| m
      ∧ (|v| ≤ m → v + (if |-v| > m then (if v > 0 then -m else m) else -v) = 0)
      ∧ (m < |v| →
          Real.sign (v + (if |-v| > m then (if v > 0 then -m else m) else -v)) = Real.sign v
          ∧ |v + (if |-v| > m then (if v > 0 then -m else m) else -v)| = |v| - m) := by
  rw [abs_neg]
  by_cases hc : |v| > m
  · rw [if_pos hc]
    have hmin : min |v| m = m := min_eq_right (le_of_lt hc)
    rcases lt_trichotomy v 0 with hneg | hzero | hpos
    · have hnp : ¬ v > 0 := not_lt.mpr (le_of_lt hneg)
      have habs : |v| = -v := abs_of_neg hneg
      rw [if_neg hnp, hmin, Real.sign_of_neg hneg]
      rw [habs] at hc
      have hlt : v + m < 0 := by linarith
      refine ⟨le_of_eq (abs_of_nonneg hm), by ring, fun h => absurd hc (not_lt.mpr (habs ▸ h)), ?_⟩
      intro _
      rw [Real.sign_of_neg hlt, abs_of_neg hlt, habs]
      exact ⟨rfl, by ring⟩
    · rw [hzero, abs_zero] at hc
      exact absurd hc (not_lt.mpr hm)
    · have habs : |v| = v := abs_of_pos hpos
      rw [if_pos hpos, hmin, Real.sign_of_pos hpos]
      rw [habs] at hc
      have hgt : 0 < v + -m := by linarith
      refine ⟨by rw [abs_neg]; exact le_of_eq (abs_of_nonneg hm), by ring,
        fun h => absurd hc (not_lt.mpr (habs ▸ h)), ?_⟩
      intro _
      rw [Real.sign_of_pos hgt, abs_of_pos hgt, habs]
      exact ⟨rfl, by ring⟩
  · rw [if_neg hc]
    have hle : |v| ≤ m := not_lt.mp hc
    have hmin : min |v| m = |v| := min_eq_left hle
    rw [hmin, abs_neg]
    refine ⟨hle, ?_, fun _ => by ring, fun h => absurd h (not_lt.mpr hle)⟩
    rcases lt_trichotomy v 0 with hneg | hzero | hpos
    · rw [Real.sign_of_neg hneg, abs_of_neg hneg]; ring
    · rw [hzero, Real.sign_zero]; simp
    · rw [Real.sign_of_pos hpos, abs_of_pos hpos]; ring

end Geom

namespace G4

/-- The cap `mu_jn` is not negative. -/
theorem rc_mu_jn_nonneg (ball : Ball) (p1 p2 center : Point) (omega : ℝ) :
    0 ≤ rc_mu_jn ball p1 p2 center omega := by
  unfold rc_mu_jn MU
  have := abs_nonneg (rc_j_n ball p1 p2 center omega)
  linarith

/-- C5 (g4): whenever `resolve_collision` applies a velocity response (`0 < dist < BALL_RADIUS`
and `v_n < 0`), the tangential impulse satisfies `|j_t| ≤ MU * |j_n|` with
`j_n = -(1 + RESTITUTION) * v_n`, and the relative tangential velocity after the collision is
`v_t - sign(v_t) * min(|v_t|, MU * |j_n|)`: zero when `|v_t| ≤ MU * |j_n|`, and otherwise of the
sign of `v_t` with magnitude `|v_t| - MU * |j_n|`. -/
theorem resolve_collision_friction (ball : Ball) (p1 p2 center : Point) (omega : ℝ)
    (hd : 0 < rc_dist ball p1 p2) (hr : rc_dist ball p1 p2 < BALL_RADIUS)
    (hv : rc_v_n ball p1 p2 center omega < 0) :
    rc_j_n ball p1 p2 center omega = -(1 + RESTITUTION) * rc_v_n ball p1 p2 center omega
      ∧ |rc_j_t ball p1 p2 center omega| ≤ MU * |rc_j_n ball p1 p2 center omega|
      ∧ ((resolve_collision ball p1 p2 center omega).vx
              - (rc_v_wall ball p1 p2 center omega).x) * (rc_tangent ball p1 p2).x
          + ((resolve_collision ball p1 p2 center omega).vy
              - (rc_v_wall ball p1 p2 center omega).y) * (rc_tangent ball p1 p2).y
          = rc_v_t ball p1 p2 center omega
            - Real.sign (rc_v_t ball p1 p2 center omega)
              * min |rc_v_t ball p1 p2 center omega| (MU * |rc_j_n ball p1 p2 center omega|)
      ∧ (|rc_v_t ball p1 p2 center omega| ≤ MU * |rc_j_n ball p1 p2 center omega| →
          ((resolve_collision ball p1 p2 center omega).vx
              - (rc_v_wall ball p1 p2 center omega).x) * (rc_tangent ball p1 p2).x
          + ((resolve_collision ball p1 p2 center omega).vy
              - (rc_v_wall ball p1 p2 center omega).y) * (rc_tangent ball p1 p2).y = 0)
      ∧ (MU * |rc_j_n ball p1 p2 center omega| < |rc_v_t ball p1 p2 center omega| →
          Real.sign (((resolve_collision ball p1 p2 center omega).vx
              - (rc_v_wall ball p1 p2 center omega).x) * (rc_tangent ball p1 p2).x
            + ((resolve_collision ball p1 p2 center omega).vy
              - (rc_v_wall ball p1 p2 center omega).y) * (rc_tangent ball p1 p2).y)
            = Real.sign (rc_v_t ball p1 p2 center omega)
          ∧ |((resolve_collision ball p1 p2 center omega).vx
              - (rc_v_wall ball p1 p2 center omega).x) * (rc_tangent ball p1 p2).x
            + ((resolve_collision ball p1 p2 center omega).vy
              - (rc_v_wall ball p1 p2 center omega).y) * (rc_tangent ball p1 p2).y|
            = |rc_v_t ball p1 p2 center omega| - MU * |rc_j_n ball p1 p2 center omega|) := by
  rw [(resolve_collision_rel_vel ball p1 p2 center omega hd hr hv).2]
  obtain ⟨h1, h2, h3, h4⟩ := Geom.clamp_impulse (rc_v_t ball p1 p2 center omega)
    (rc_mu_jn ball p1 p2 center omega) (rc_mu_jn_nonneg ball p1 p2 center omega)
  exact ⟨rfl, h1, h2, h3, h4⟩

/-- Witness for C5: a ball at `(0, 5)` moving with velocity `(2, -1)` towards the segment from
`(-1, 0)` to `(1, 0)` of a wall at rest; the tangential impulse is capped. -/
theorem resolve_collision_friction_witness :
    (0 < rc_dist ⟨0, 5, 2, -1⟩ ⟨-1, 0⟩ ⟨1, 0⟩
        ∧ rc_dist ⟨0, 5, 2, -1⟩ ⟨-1, 0⟩ ⟨1, 0⟩ < BALL_RADIUS
        ∧ rc_v_n ⟨0, 5, 2, -1⟩ ⟨-1, 0⟩ ⟨1, 0⟩ ⟨0, 0⟩ 0 < 0)
      ∧ |rc_j_t ⟨0, 5, 2, -1⟩ ⟨-1, 0⟩ ⟨1, 0⟩ ⟨0, 0⟩ 0|
        ≤ MU * |rc_j_n ⟨0, 5, 2, -1⟩ ⟨-1, 0⟩ ⟨1, 0⟩ ⟨0, 0⟩ 0| := by
  obtain ⟨-, hvn, -, hdist⟩ := rc_v_sample 2 (-1)
  have h1 : 0 < rc_dist ⟨0, 5, 2, -1⟩ ⟨-1, 0⟩ ⟨1, 0⟩ := by rw [hdist]; norm_num
  have h2 : rc_dist ⟨0, 5, 2, -1⟩ ⟨-1, 0⟩ ⟨1, 0⟩ < BALL_RADIUS := by
    rw [hdist]; unfold BALL_RADIUS; norm_num
  have h3 : rc_v_n ⟨0, 5, 2, -1⟩ ⟨-1, 0⟩ ⟨1, 0⟩ ⟨0, 0⟩ 0 < 0 := by rw [hvn]; norm_num
  exact ⟨⟨h1, h2, h3⟩,
    (resolve_collision_friction ⟨0, 5, 2, -1⟩ ⟨-1, 0⟩ ⟨1, 0⟩ ⟨0, 0⟩ 0 h1 h2 h3).2.1⟩

/-- C6 (g4): when `0 < dist < BALL_RADIUS` and the relative normal velocity `v_n` is not
negative (the ball is already separating from the wall), `resolve_collision` leaves the ball
velocity `(vx, vy)` unchanged and still applies the positional correction
`position += n * (BALL_RADIUS - dist)`. -/
theorem resolve_collision_separating (ball : Ball) (p1 p2 center : Point) (omega : ℝ)
    (hd : 0 < rc_dist ball p1 p2) (hr : rc_dist ball p1 p2 < BALL_RADIUS)
    (hv : rc_v_n ball p1 p2 center omega ≥ 0) :
    (resolve_collision ball p1 p2 center omega).vx = ball.vx
      ∧ (resolve_collision ball p1 p2 center omega).vy = ball.vy
      ∧ (resolve_collision ball p1 p2 center omega).x
        = ball.x + (rc_normal ball p1 p2).x * (BALL_RADIUS - rc_dist ball p1 p2)
      ∧ (resolve_collision ball p1 p2 center omega).y
        = ball.y + (rc_normal ball p1 p2).y * (BALL_RADIUS - rc_dist ball p1 p2) := by
  obtain ⟨hvx, hvy⟩ := resolve_collision_vel_kept ball p1 p2 center omega (Or.inr (Or.inr hv))
  obtain ⟨hx, hy⟩ := resolve_collision_pos ball p1 p2 center omega hd hr
  exact ⟨hvx, hvy, hx, hy⟩

/-- Witness for C6: a ball at `(0, 5)` moving with velocity `(2, 1)` away from the segment from
`(-1, 0)` to `(1, 0)` of a wall at rest. -/
theorem resolve_collision_separating_witness :
    (0 < rc_dist ⟨0, 5, 2, 1⟩ ⟨-1, 0⟩ ⟨1, 0⟩
        ∧ rc_dist ⟨0, 5, 2, 1⟩ ⟨-1, 0⟩ ⟨1, 0⟩ < BALL_RADIUS
        ∧ rc_v_n ⟨0, 5, 2, 1⟩ ⟨-1, 0⟩ ⟨1, 0⟩ ⟨0, 0⟩ 0 ≥ 0)
      ∧ (resolve_collision ⟨0, 5, 2, 1⟩ ⟨-1, 0⟩ ⟨1, 0⟩ ⟨0, 0⟩ 0).vx = 2
      ∧ (resolve_collision ⟨0, 5, 2, 1⟩ ⟨-1, 0⟩ ⟨1, 0⟩ ⟨0, 0⟩ 0).vy = 1 := by
  obtain ⟨-, hvn, -, hdist⟩ := rc_v_sample 2 1
  have h1 : 0 < rc_dist ⟨0, 5, 2, 1⟩ ⟨-1, 0⟩ ⟨1, 0⟩ := by rw [hdist]; norm_num
  have h2 : rc_dist ⟨0, 5, 2, 1⟩ ⟨-1, 0⟩ ⟨1, 0⟩ < BALL_RADIUS := by
    rw [hdist]; unfold BALL_RADIUS; norm_num
  have h3 : rc_v_n ⟨0, 5, 2, 1⟩ ⟨-1, 0⟩ ⟨1, 0⟩ ⟨0, 0⟩ 0 ≥ 0 := by rw [hvn]; norm_num
  have h := resolve_collision_separating ⟨0, 5, 2, 1⟩ ⟨-1, 0⟩ ⟨1, 0⟩ ⟨0, 0⟩ 0 h1 h2 h3
  exact ⟨⟨h1, h2, h3⟩, h.1, h.2.1⟩

/-- The integration phase lowers the mechanical energy by exactly `G^2 * DT^2 / 2`. -/
theorem energy_integrate (ball : Ball) :
    energy (integrate ball) = energy ball - G ^ 2 * DT ^ 2 / 2 := by
  unfold energy integrate
  simp only
  ring

/-- With a wall at rest, `resolve_collision` never increases the squared speed of the ball. -/
theorem resolve_collision_speed_le (ball : Ball) (p1 p2 center : Point) :
    (resolve_collision ball p1 p2 center 0).vx ^ 2 + (resolve_collision ball p1 p2 center 0).vy ^ 2
      ≤ ball.vx ^ 2 + ball.vy ^ 2 := by
  by_cases hk : rc_dist ball p1 p2 ≥ BALL_RADIUS ∨ rc_dist ball p1 p2 = 0
      ∨ rc_v_n ball p1 p2 center 0 ≥ 0
  · obtain ⟨hx, hy⟩ := resolve_collision_vel_kept ball p1 p2 center 0 hk
    rw [hx, hy]
  · push_neg at hk
    obtain ⟨hr, hne, hv⟩ := hk
    have hd : 0 < rc_dist ball p1 p2 :=
      lt_of_le_of_ne (by unfold rc_dist; exact Real.sqrt_nonneg _) (Ne.symm hne)
    obtain ⟨hn, ht⟩ := resolve_collision_rel_vel ball p1 p2 center 0 hd hr hv
    have hu := rc_normal_unit ball p1 p2 hd
    obtain ⟨hj1, hj2, hj3, hj4⟩ := Geom.clamp_impulse (rc_v_t ball p1 p2 center 0)
      (rc_mu_jn ball p1 p2 center 0) (rc_mu_jn_nonneg ball p1 p2 center 0)
    have hjt : rc_j_t ball p1 p2 center 0
        = (if |-rc_v_t ball p1 p2 center 0| > rc_mu_jn ball p1 p2 center 0 then
            (if rc_v_t ball p1 p2 center 0 > 0 then -rc_mu_jn ball p1 p2 center 0
              else rc_mu_jn ball p1 p2 center 0)
          else -rc_v_t ball p1 p2 center 0) := rfl
    rw [← hjt] at hj3 hj4
    have habs : |rc_v_t ball p1 p2 center 0 + rc_j_t ball p1 p2 center 0|
        ≤ |rc_v_t ball p1 p2 center 0| := by
      rcases le_or_lt (|rc_v_t ball p1 p2 center 0|) (rc_mu_jn ball p1 p2 center 0) with h | h
      · rw [hj3 h, abs_zero]; exact abs_nonneg _
      · rw [(hj4 h).2]; linarith [rc_mu_jn_nonneg ball p1 p2 center 0]
    have hsq : (rc_v_t ball p1 p2 center 0 + rc_j_t ball p1 p2 center 0) ^ 2
        ≤ rc_v_t ball p1 p2 center 0 ^ 2 := sq_le_sq.mpr habs
    have hw : (rc_v_wall ball p1 p2 center 0).x = 0 ∧ (rc_v_wall ball p1 p2 center 0).y = 0 := by
      unfold rc_v_wall wall_velocity
      simp
    rw [hw.1, hw.2] at hn ht
    have hvn : rc_v_n ball p1 p2 center 0
        = ball.vx * (rc_normal ball p1 p2).x + ball.vy * (rc_normal ball p1 p2).y := by
      unfold rc_v_n rc_v_rel
      rw [hw.1, hw.2]
      simp
    have hvt : rc_v_t ball p1 p2 center 0
        = ball.vx * (rc_tangent ball p1 p2).x + ball.vy * (rc_tangent ball p1 p2).y := by
      unfold rc_v_t rc_v_rel
      rw [hw.1, hw.2]
      simp
    have hjn : rc_v_n ball p1 p2 center 0 + rc_j_n ball p1 p2 center 0
        = -(8 / 10) * rc_v_n ball p1 p2 center 0 := by
      unfold rc_j_n RESTITUTION
      ring
    have hdecomp : ∀ a b : ℝ, a ^ 2 + b ^ 2
        = (a * (rc_normal ball p1 p2).x + b * (rc_normal ball p1 p2).y) ^ 2
          + (a * (rc_tangent ball p1 p2).x + b * (rc_tangent ball p1 p2).y) ^ 2 := by
      intro a b
      unfold rc_tangent
      simp only
      linear_combination (-(a ^ 2 + b ^ 2)) * hu
    rw [hdecomp (resolve_collision ball p1 p2 center 0).vx, hdecomp ball.vx]
    simp only [sub_zero] at hn ht
    rw [hn, ht, ← hvn, ← hvt, hjn]
    nlinarith [sq_nonneg (rc_v_n ball p1 p2 center 0)]

/-- With a wall at rest the edge loop never increases the squared speed of the ball. -/
theorem resolve_edges_speed_le (vertices : ℕ → Point) (center : Point) (ball : Ball) (n : ℕ) :
    (resolve_edges vertices center 0 ball n).vx ^ 2 + (resolve_edges vertices center 0 ball n).vy ^ 2
      ≤ ball.vx ^ 2 + ball.vy ^ 2 := by
  induction n with
  | zero => exact le_refl _
  | succ k ih =>
    show (resolve_collision (resolve_edges vertices center 0 ball k) (vertices k)
        (vertices ((k + 1) % 6)) center 0).vx ^ 2
      + (resolve_collision (resolve_edges vertices center 0 ball k) (vertices k)
        (vertices ((k + 1) % 6)) center 0).vy ^ 2 ≤ ball.vx ^ 2 + ball.vy ^ 2
    exact le_trans (resolve_collision_speed_le _ _ _ _) ih

/-- C7 (g4), amended: with a stationary hexagon (`omega = 0`, any fixed vertex angle) one tick
changes the mechanical energy `E = (vx^2 + vy^2) / 2 - G * y` by at most
`-G^2 * DT^2 / 2 + G * (y_int - y_after)`, where `y_int` is the height after the integration
phase and `y_after` the height after the edge loop: the integration lowers `E` by exactly
`G^2 * DT^2 / 2`, the edge loop never increases the kinetic energy, and `E` can rise only by
the potential energy of the positional corrections. -/
theorem tick_energy_le (angle : ℝ) (center : Point) (ball : Ball) :
    energy (integrate ball) = energy ball - G ^ 2 * DT ^ 2 / 2
      ∧ (tick 0 angle center ball).vx ^ 2 + (tick 0 angle center ball).vy ^ 2
        ≤ (integrate ball).vx ^ 2 + (integrate ball).vy ^ 2
      ∧ energy (tick 0 angle center ball)
        ≤ energy ball - G ^ 2 * DT ^ 2 / 2
          + G * ((integrate ball).y - (tick 0 angle center ball).y) := by
  have hi := energy_integrate ball
  have hs := resolve_edges_speed_le (get_hex_vertices center angle) center (integrate ball) 6
  refine ⟨hi, hs, ?_⟩
  rw [← hi]
  unfold energy
  unfold tick at hs ⊢
  linarith

/-- A segment lying at least `d` to the right of the ball centre is at distance at least `d`. -/
theorem rc_dist_ge_of_right (ball : Ball) (p1 p2 : Point) (d : ℝ) (hd : 0 ≤ d)
    (h1 : ball.x + d ≤ p1.x) (h2 : ball.x + d ≤ p2.x) : d ≤ rc_dist ball p1 p2 := by
  obtain ⟨s, h0, hs1, hs⟩ := closest_on_segment_mem ⟨ball.x, ball.y⟩ p1 p2
  unfold rc_dist rc_to_ball rc_closest
  rw [hs]
  unfold seg_point
  simp only
  apply Real.le_sqrt_of_sq_le
  have hx : ball.x + d ≤ p1.x + s * (p2.x - p1.x) := by nlinarith
  nlinarith [mul_self_nonneg (ball.y - (p1.y + s * (p2.y - p1.y)))]

/-- A segment lying at least `d` to the left of the ball centre is at distance at least `d`. -/
theorem rc_dist_ge_of_left (ball : Ball) (p1 p2 : Point) (d : ℝ) (hd : 0 ≤ d)
    (h1 : p1.x ≤ ball.x - d) (h2 : p2.x ≤ ball.x - d) : d ≤ rc_dist ball p1 p2 := by
  obtain ⟨s, h0, hs1, hs⟩ := closest_on_segment_mem ⟨ball.x, ball.y⟩ p1 p2
  unfold rc_dist rc_to_ball rc_closest
  rw [hs]
  unfold seg_point
  simp only
  apply Real.le_sqrt_of_sq_le
  have hx : p1.x + s * (p2.x - p1.x) ≤ ball.x - d := by nlinarith
  nlinarith [mul_self_nonneg (ball.y - (p1.y + s * (p2.y - p1.y)))]

/-- A segment whose `y` is at least `d` smaller than that of the ball centre is at distance
at least `d`. -/
theorem rc_dist_ge_of_above (ball : Ball) (p1 p2 : Point) (d : ℝ) (hd : 0 ≤ d)
    (h1 : p1.y ≤ ball.y - d) (h2 : p2.y ≤ ball.y - d) : d ≤ rc_dist ball p1 p2 := by
  obtain ⟨s, h0, hs1, hs⟩ := closest_on_segment_mem ⟨ball.x, ball.y⟩ p1 p2
  unfold rc_dist rc_to_ball rc_closest
  rw [hs]
  unfold seg_point
  simp only
  apply Real.le_sqrt_of_sq_le
  have hy : p1.y + s * (p2.y - p1.y) ≤ ball.y - d := by nlinarith
  nlinarith [mul_self_nonneg (ball.x - (p1.x + s * (p2.x - p1.x)))]

/-- An edge at distance at least `BALL_RADIUS` leaves the ball as it is. -/
theorem resolve_collision_of_far (ball : Ball) (p1 p2 center : Point) (omega : ℝ)
    (h : BALL_RADIUS ≤ rc_dist ball p1 p2) : resolve_collision ball p1 p2 center omega = ball := by
  unfold resolve_collision
  rw [if_pos (Or.inl h)]

/-- The vertices of the hexagon of `main` at angle 0. -/
theorem hex_vertices_zero :
    get_hex_vertices main_center 0 0 = ⟨600, 300⟩
      ∧ get_hex_vertices main_center 0 1 = ⟨500, 300 + 100 * Real.sqrt 3⟩
      ∧ get_hex_vertices main_center 0 2 = ⟨300, 300 + 100 * Real.sqrt 3⟩
      ∧ get_hex_vertices main_center 0 3 = ⟨200, 300⟩
      ∧ get_hex_vertices main_center 0 4 = ⟨300, 300 - 100 * Real.sqrt 3⟩
      ∧ get_hex_vertices main_center 0 5 = ⟨500, 300 - 100 * Real.sqrt 3⟩ := by
  obtain ⟨h0, h1, h2, h3, h4, h5⟩ := Geom.hex_trig_values
  have e0 : 2 * Real.pi * ((0 : ℕ) : ℝ) / 6 + 0 = 0 * (Real.pi / 3) := by push_cast; ring
  have e1 : 2 * Real.pi * ((1 : ℕ) : ℝ) / 6 + 0 = 1 * (Real.pi / 3) := by push_cast; ring
  have e2 : 2 * Real.pi * ((2 : ℕ) : ℝ) / 6 + 0 = 2 * (Real.pi / 3) := by push_cast; ring
  have e3 : 2 * Real.pi * ((3 : ℕ) : ℝ) / 6 + 0 = 3 * (Real.pi / 3) := by push_cast; ring
  have e4 : 2 * Real.pi * ((4 : ℕ) : ℝ) / 6 + 0 = 4 * (Real.pi / 3) := by push_cast; ring
  have e5 : 2 * Real.pi * ((5 : ℕ) : ℝ) / 6 + 0 = 5 * (Real.pi / 3) := by push_cast; ring
  unfold get_hex_vertices main_center HEX_RADIUS
  simp only
  rw [e0, e1, e2, e3, e4, e5, h0.1, h0.2, h1.1, h1.2, h2.1, h2.2, h3.1, h3.2, h4.1, h4.2,
    h5.1, h5.2]
  simp only [Point.mk.injEq]
  refine ⟨⟨?_, ?_⟩, ⟨?_, ?_⟩, ⟨?_, ?_⟩, ⟨?_, ?_⟩, ⟨?_, ?_⟩, ⟨?_, ?_⟩⟩ <;> ring

/-- The resting ball after the integration phase. -/
theorem integrate_resting_ball :
    integrate resting_ball = ⟨400, 290 + 100 * Real.sqrt 3 + 11 / 1250, 0, 49 / 50⟩ := by
  unfold integrate resting_ball G DT
  simp only [Ball.mk.injEq]
  refine ⟨?_, ?_, ?_, ?_⟩ <;> norm_num
  ring

/-- The collision of the integrated resting ball with the bottom edge. -/
theorem resolve_collision_resting_ball (center : Point) :
    resolve_collision ⟨400, 290 + 100 * Real.sqrt 3 + 11 / 1250, 0, 49 / 50⟩
        ⟨500, 300 + 100 * Real.sqrt 3⟩ ⟨300, 300 + 100 * Real.sqrt 3⟩ center 0
      = ⟨400, 290 + 100 * Real.sqrt 3, 0, -(98 / 125)⟩ := by
  have hc : rc_closest ⟨400, 290 + 100 * Real.sqrt 3 + 11 / 1250, 0, 49 / 50⟩
      ⟨500, 300 + 100 * Real.sqrt 3⟩ ⟨300, 300 + 100 * Real.sqrt 3⟩
      = ⟨400, 300 + 100 * Real.sqrt 3⟩ := by
    unfold rc_closest closest_on_segment
    norm_num
  have hdist : rc_dist ⟨400, 290 + 100 * Real.sqrt 3 + 11 / 1250, 0, 49 / 50⟩
      ⟨500, 300 + 100 * Real.sqrt 3⟩ ⟨300, 300 + 100 * Real.sqrt 3⟩ = 12489 / 1250 := by
    unfold rc_dist rc_to_ball
    rw [hc]
    simp only
    have : (400 - 400 : ℝ) * (400 - 400)
        + (290 + 100 * Real.sqrt 3 + 11 / 1250 - (300 + 100 * Real.sqrt 3))
          * (290 + 100 * Real.sqrt 3 + 11 / 1250 - (300 + 100 * Real.sqrt 3))
        = 12489 / 1250 * (12489 / 1250) := by ring
    rw [this]
    exact Real.sqrt_mul_self (by norm_num)
  have hn : rc_normal ⟨400, 290 + 100 * Real.sqrt 3 + 11 / 1250, 0, 49 / 50⟩
      ⟨500, 300 + 100 * Real.sqrt 3⟩ ⟨300, 300 + 100 * Real.sqrt 3⟩ = ⟨0, -1⟩ := by
    unfold rc_normal
    rw [hdist]
    unfold rc_to_ball
    rw [hc]
    simp only [Point.mk.injEq]
    constructor
    · norm_num
    · field_simp
      ring
  have hvn : rc_v_n ⟨400, 290 + 100 * Real.sqrt 3 + 11 / 1250, 0, 49 / 50⟩
      ⟨500, 300 + 100 * Real.sqrt 3⟩ ⟨300, 300 + 100 * Real.sqrt 3⟩ center 0 = -(49 / 50) := by
    unfold rc_v_n rc_v_rel rc_v_wall wall_velocity
    rw [hn]
    norm_num
  have hjn : rc_j_n ⟨400, 290 + 100 * Real.sqrt 3 + 11 / 1250, 0, 49 / 50⟩
      ⟨500, 300 + 100 * Real.sqrt 3⟩ ⟨300, 300 + 100 * Real.sqrt 3⟩ center 0 = 441 / 250 := by
    unfold rc_j_n RESTITUTION
    rw [hvn]
    norm_num
  have ht : rc_tangent ⟨400, 290 + 100 * Real.sqrt 3 + 11 / 1250, 0, 49 / 50⟩
      ⟨500, 300 + 100 * Real.sqrt 3⟩ ⟨300, 300 + 100 * Real.sqrt 3⟩ = ⟨1, 0⟩ := by
    unfold rc_tangent
    rw [hn]
    norm_num
  have hvt : rc_v_t ⟨400, 290 + 100 * Real.sqrt 3 + 11 / 1250, 0, 49 / 50⟩
      ⟨500, 300 + 100 * Real.sqrt 3⟩ ⟨300, 300 + 100 * Real.sqrt 3⟩ center 0 = 0 := by
    unfold rc_v_t rc_v_rel rc_v_wall wall_velocity
    rw [ht]
    norm_num
  have hjt : rc_j_t ⟨400, 290 + 100 * Real.sqrt 3 + 11 / 1250, 0, 49 / 50⟩
      ⟨500, 300 + 100 * Real.sqrt 3⟩ ⟨300, 300 + 100 * Real.sqrt 3⟩ center 0 = 0 := by
    unfold rc_j_t rc_mu_jn MU
    rw [hvt, hjn]
    norm_num
  have hg : ¬ (rc_dist ⟨400, 290 + 100 * Real.sqrt 3 + 11 / 1250, 0, 49 / 50⟩
      ⟨500, 300 + 100 * Real.sqrt 3⟩ ⟨300, 300 + 100 * Real.sqrt 3⟩ ≥ BALL_RADIUS
      ∨ rc_dist ⟨400, 290 + 100 * Real.sqrt 3 + 11 / 1250, 0, 49 / 50⟩
      ⟨500, 300 + 100 * Real.sqrt 3⟩ ⟨300, 300 + 100 * Real.sqrt 3⟩ = 0) := by
    rw [hdist]
    unfold BALL_RADIUS
    norm_num
  have hv : ¬ (rc_v_n ⟨400, 290 + 100 * Real.sqrt 3 + 11 / 1250, 0, 49 / 50⟩
      ⟨500, 300 + 100 * Real.sqrt 3⟩ ⟨300, 300 + 100 * Real.sqrt 3⟩ center 0 ≥ 0) := by
    rw [hvn]
    norm_num
  unfold resolve_collision
  rw [if_neg hg]
  simp only
  rw [if_neg hv, hjn, hjt, hn, ht]
  unfold rc_penetration
  rw [hdist]
  unfold BALL_RADIUS
  simp only [Ball.mk.injEq]
  refine ⟨?_, ?_, ?_, ?_⟩ <;> norm_num

/-- One tick of the stationary hexagon at angle 0 on the resting ball: only the bottom edge
collides, the ball is put back at distance `BALL_RADIUS` from it and leaves upwards. -/
theorem tick_resting_ball :
    tick 0 0 main_center resting_ball = ⟨400, 290 + 100 * Real.sqrt 3, 0, -(98 / 125)⟩ := by
  obtain ⟨v0, v1, v2, v3, v4, v5⟩ := hex_vertices_zero
  obtain ⟨hs, hlo, hhi⟩ := Geom.sqrt_three_bounds
  have hR : (0 : ℝ) ≤ BALL_RADIUS := by unfold BALL_RADIUS; norm_num
  have s1 : resolve_edges (get_hex_vertices main_center 0) main_center 0
      ⟨400, 290 + 100 * Real.sqrt 3 + 11 / 1250, 0, 49 / 50⟩ 1
      = ⟨400, 290 + 100 * Real.sqrt 3 + 11 / 1250, 0, 49 / 50⟩ := by
    show resolve_collision ⟨400, 290 + 100 * Real.sqrt 3 + 11 / 1250, 0, 49 / 50⟩
      (get_hex_vertices main_center 0 0) (get_hex_vertices main_center 0 1) main_center 0 = _
    rw [v0, v1]
    apply resolve_collision_of_far
    apply rc_dist_ge_of_right _ _ _ _ hR <;> unfold BALL_RADIUS <;> norm_num
  have s2 : resolve_edges (get_hex_vertices main_center 0) main_center 0
      ⟨400, 290 + 100 * Real.sqrt 3 + 11 / 1250, 0, 49 / 50⟩ 2
      = ⟨400, 290 + 100 * Real.sqrt 3, 0, -(98 / 125)⟩ := by
    show resolve_collision (resolve_edges (get_hex_vertices main_center 0) main_center 0
        ⟨400, 290 + 100 * Real.sqrt 3 + 11 / 1250, 0, 49 / 50⟩ 1)
      (get_hex_vertices main_center 0 1) (get_hex_vertices main_center 0 2) main_center 0 = _
    rw [s1, v1, v2]
    exact resolve_collision_resting_ball main_center
  have s3 : resolve_edges (get_hex_vertices main_center 0) main_center 0
      ⟨400, 290 + 100 * Real.sqrt 3 + 11 / 1250, 0, 49 / 50⟩ 3
      = ⟨400, 290 + 100 * Real.sqrt 3, 0, -(98 / 125)⟩ := by
    show resolve_collision (resolve_edges (get_hex_vertices main_center 0) main_center 0
        ⟨400, 290 + 100 * Real.sqrt 3 + 11 / 1250, 0, 49 / 50⟩ 2)
      (get_hex_vertices main_center 0 2) (get_hex_vertices main_center 0 3) main_center 0 = _
    rw [s2, v2, v3]
    apply resolve_collision_of_far
    apply rc_dist_ge_of_left _ _ _ _ hR <;> unfold BALL_RADIUS <;> norm_num
  have s4 : resolve_edges (get_hex_vertices main_center 0) main_center 0
      ⟨400, 290 + 100 * Real.sqrt 3 + 11 / 1250, 0, 49 / 50⟩ 4
      = ⟨400, 290 + 100 * Real.sqrt 3, 0, -(98 / 125)⟩ := by
    show resolve_collision (resolve_edges (get_hex_vertices main_center 0) main_center 0
        ⟨400, 290 + 100 * Real.sqrt 3 + 11 / 1250, 0, 49 / 50⟩ 3)
      (get_hex_vertices main_center 0 3) (get_hex_vertices main_center 0 4) main_center 0 = _
    rw [s3, v3, v4]
    apply resolve_collision_of_far
    apply rc_dist_ge_of_left _ _ _ _ hR <;> unfold BALL_RADIUS <;> norm_num
  have s5 : resolve_edges (get_hex_vertices main_center 0) main_center 0
      ⟨400, 290 + 100 * Real.sqrt 3 + 11 / 1250, 0, 49 / 50⟩ 5
      = ⟨400, 290 + 100 * Real.sqrt 3, 0, -(98 / 125)⟩ := by
    show resolve_collision (resolve_edges (get_hex_vertices main_center 0) main_center 0
        ⟨400, 290 + 100 * Real.sqrt 3 + 11 / 1250, 0, 49 / 50⟩ 4)
      (get_hex_vertices main_center 0 4) (get_hex_vertices main_center 0 5) main_center 0 = _
    rw [s4, v4, v5]
    apply resolve_collision_of_far
    apply rc_dist_ge_of_above _ _ _ _ hR <;> unfold BALL_RADIUS <;> simp only <;> linarith
  have s6 : resolve_edges (get_hex_vertices main_center 0) main_center 0
      ⟨400, 290 + 100 * Real.sqrt 3 + 11 / 1250, 0, 49 / 50⟩ 6
      = ⟨400, 290 + 100 * Real.sqrt 3, 0, -(98 / 125)⟩ := by
    show resolve_collision (resolve_edges (get_hex_vertices main_center 0) main_center 0
        ⟨400, 290 + 100 * Real.sqrt 3 + 11 / 1250, 0, 49 / 50⟩ 5)
      (get_hex_vertices main_center 0 5) (get_hex_vertices main_center 0 0) main_center 0 = _
    rw [s5, v5, v0]
    apply resolve_collision_of_far
    apply rc_dist_ge_of_right _ _ _ _ hR <;> unfold BALL_RADIUS <;> norm_num
  unfold tick
  rw [integrate_resting_ball]
  exact s6

/-- C7 (g4), counterexample: with the stationary hexagon of `main` at angle 0 (`omega = 0`),
the ball at rest `10.001` above the bottom edge lies inside the hexagon (its disc is inside the
inscribed circle), and one tick raises its mechanical energy `(vx^2 + vy^2) / 2 - G * y`. -/
theorem tick_energy_increases :
    point_dist resting_ball.pos main_center + BALL_RADIUS < HEX_RADIUS * (Real.sqrt 3 / 2)
      ∧ energy resting_ball < energy (tick 0 0 main_center resting_ball)
      ∧ energy resting_ball < energy (main_step 0 (0, resting_ball)).2 := by
  obtain ⟨hs, hlo, hhi⟩ := Geom.sqrt_three_bounds
  have he : energy resting_ball < energy (tick 0 0 main_center resting_ball) := by
    rw [tick_resting_ball]
    unfold energy resting_ball G
    simp only
    linarith
  refine ⟨?_, he, ?_⟩
  · have hd : point_dist resting_ball.pos main_center = 100 * Real.sqrt 3 - 10 - 1 / 1000 := by
      unfold point_dist Ball.pos resting_ball main_center
      simp only
      have : (400 - 800 / 2 : ℝ) * (400 - 800 / 2)
          + (290 + 100 * Real.sqrt 3 - 1 / 1000 - 600 / 2)
            * (290 + 100 * Real.sqrt 3 - 1 / 1000 - 600 / 2)
          = (100 * Real.sqrt 3 - 10 - 1 / 1000) * (100 * Real.sqrt 3 - 10 - 1 / 1000) := by ring
      rw [this]
      exact Real.sqrt_mul_self (by linarith)
    rw [hd]
    unfold BALL_RADIUS HEX_RADIUS
    linarith
  · have : (main_step 0 (0, resting_ball)).2 = tick 0 0 main_center resting_ball := by
      unfold main_step
      simp only [zero_mul]
    rw [this]
    exact he

end G4

namespace Geom

/-- Variational inequality of the clamped projection on a non-degenerate segment, on
coordinates: with `c` the clamped parameter of the projection of `p` on the segment from `a` in
direction `d`, no point `a + s * d` of the segment lies, seen from `a + c * d`, on the side
of `p`. -/
theorem clamp_proj_obtuse (px py ax ay dx dy s : ℝ) (hL : dx * dx + dy * dy ≠ 0)
    (h0 : 0 ≤ s) (h1 : s ≤ 1) :
    (ax + s * dx
          - (ax + dx * max 0 (min 1 (((px - ax) * dx + (py - ay) * dy) / (dx * dx + dy * dy)))))
        * (px
          - (ax + dx * max 0 (min 1 (((px - ax) * dx + (py - ay) * dy) / (dx * dx + dy * dy)))))
      + (ay + s * dy
          - (ay + dy * max 0 (min 1 (((px - ax) * dx + (py - ay) * dy) / (dx * dx + dy * dy)))))
        * (py
          - (ay + dy * max 0 (min 1 (((px - ax) * dx + (py - ay) * dy) / (dx * dx + dy * dy)))))
      ≤ 0 := by
  set L := dx * dx + dy * dy with hLdef
  have hLpos : 0 < L :=
    lt_of_le_of_ne (add_nonneg (mul_self_nonneg _) (mul_self_nonneg _)) (Ne.symm hL)
  set t := ((px - ax) * dx + (py - ay) * dy) / L with ht
  have htL : t * L = (px - ax) * dx + (py - ay) * dy := by
    rw [ht]; field_simp
  set c := max 0 (min 1 t) with hc
  have key : (ax + s * dx - (ax + dx * c)) * (px - (ax + dx * c))
      + (ay + s * dy - (ay + dy * c)) * (py - (ay + dy * c))
      = (s - c) * (t - c) * L := by
    have : (s - c) * (t - c) * L = (s - c) * (t * L - c * L) := by ring
    rw [this, htL, hLdef]; ring
  rw [key]
  have hsc : (s - c) * (t - c) ≤ 0 := by
    rcases le_total t 0 with ht0 | ht0
    · have : c = 0 := by
        rw [hc]; exact max_eq_left (le_trans (min_le_right _ _) ht0)
      rw [this]; nlinarith
    · rcases le_total t 1 with ht1 | ht1
      · have : c = t := by
          rw [hc, min_eq_right ht1, max_eq_right ht0]
        rw [this]; simp
      · have : c = 1 := by
          rw [hc, min_eq_left ht1, max_eq_right zero_le_one]
        rw [this]; nlinarith
  nlinarith

end Geom

namespace C4SR

/-- Seen from `closest_point`, no point of a non-degenerate segment lies on the side of the
ball centre. -/
theorem cc_closest_point_obtuse (ball : Ball) (p1 p2 : Point) (s : ℝ)
    (hL : point_dot (point_sub p2 p1) (point_sub p2 p1) ≠ 0) (h0 : 0 ≤ s) (h1 : s ≤ 1) :
    ((seg_point p1 p2 s).x - (cc_closest_point ball p1 p2).x)
        * (ball.pos.x - (cc_closest_point ball p1 p2).x)
      + ((seg_point p1 p2 s).y - (cc_closest_point ball p1 p2).y)
        * (ball.pos.y - (cc_closest_point ball p1 p2).y) ≤ 0 := by
  unfold point_dot point_sub at hL
  simp only at hL
  have h := Geom.clamp_proj_obtuse ball.pos.x ball.pos.y p1.x p1.y (p2.x - p1.x) (p2.y - p1.y) s
    hL h0 h1
  unfold cc_closest_point cc_t seg_point point_add point_mul point_dot point_sub
  simp only
  exact h

/-- The square of `distance` is the squared length of `to_closest`. -/
theorem cc_distance_mul_self (ball : Ball) (p1 p2 : Point) :
    cc_distance ball p1 p2 * cc_distance ball p1 p2
      = (ball.pos.x - (cc_closest_point ball p1 p2).x)
          * (ball.pos.x - (cc_closest_point ball p1 p2).x)
        + (ball.pos.y - (cc_closest_point ball p1 p2).y)
          * (ball.pos.y - (cc_closest_point ball p1 p2).y) := by
  unfold cc_distance point_length cc_to_closest point_sub
  exact Real.mul_self_sqrt (add_nonneg (mul_self_nonneg _) (mul_self_nonneg _))

/-- The loop of `check_collision` returns the hit of the first edge that has one. -/
theorem check_collision_from_first (ball : Ball) (hex : Hexagon) (hit : Point × Point)
    (n k i : ℕ) (hk : k ≤ i) (hi : i < k + n)
    (hnone : ∀ j, k ≤ j → j < i →
      check_edge ball (hex.vertices j) (hex.vertices ((j + 1) % 6)) = none)
    (hsome : check_edge ball (hex.vertices i) (hex.vertices ((i + 1) % 6)) = some hit) :
    check_collision_from ball hex n k = some hit := by
  induction n generalizing k with
  | zero => omega
  | succ m ih =>
    unfold check_collision_from
    rcases Nat.eq_or_lt_of_le hk with heq | hlt
    · subst heq
      rw [hsome]
    · rw [hnone k (le_refl k) hlt]
      exact ih (k + 1) hlt (by omega) (fun j h1 h2 => hnone j (by omega) h2)

/-- Position written by `handle_collision`. -/
theorem handle_collision_pos (ball : Ball) (collision_point normal : Point) :
    (handle_collision ball collision_point normal).pos
      = ⟨collision_point.x + normal.x * ball.radius, collision_point.y + normal.y * ball.radius⟩
      ∧ (handle_collision ball collision_point normal).radius = ball.radius := by
  unfold handle_collision point_add point_mul
  exact ⟨rfl, rfl⟩

/-- The window-bounds tests leave a ball within the bounds as it is. -/
theorem clamp_window_of_inside (ball : Ball)
    (h1 : ¬ ball.pos.x < ball.radius) (h2 : ¬ ball.pos.x > WINDOW_WIDTH - ball.radius)
    (h3 : ¬ ball.pos.y < ball.radius) (h4 : ¬ ball.pos.y > WINDOW_HEIGHT - ball.radius) :
    clamp_window ball = ball := by
  unfold clamp_window
  simp only [h1, h2, h3, h4, if_false]

/-- The ball after `check_collision` and `handle_collision` when edge `i` is the first edge
with a hit and the ball centre is not on that edge. -/
theorem collide_first_edge (ball : Ball) (hex : Hexagon) (i : ℕ) (hi : i < 6)
    (hnone : ∀ j, j < i → check_edge ball (hex.vertices j) (hex.vertices ((j + 1) % 6)) = none)
    (hL : point_dot (point_sub (hex.vertices ((i + 1) % 6)) (hex.vertices i))
      (point_sub (hex.vertices ((i + 1) % 6)) (hex.vertices i)) ≠ 0)
    (hd0 : 0 < cc_distance ball (hex.vertices i) (hex.vertices ((i + 1) % 6)))
    (hd : cc_distance ball (hex.vertices i) (hex.vertices ((i + 1) % 6)) < ball.radius) :
    (collide ball hex).pos
        = ⟨(cc_closest_point ball (hex.vertices i) (hex.vertices ((i + 1) % 6))).x
            + (ball.pos.x - (cc_closest_point ball (hex.vertices i)
                (hex.vertices ((i + 1) % 6))).x)
              / cc_distance ball (hex.vertices i) (hex.vertices ((i + 1) % 6)) * ball.radius,
          (cc_closest_point ball (hex.vertices i) (hex.vertices ((i + 1) % 6))).y
            + (ball.pos.y - (cc_closest_point ball (hex.vertices i)
                (hex.vertices ((i + 1) % 6))).y)
              / cc_distance ball (hex.vertices i) (hex.vertices ((i + 1) % 6)) * ball.radius⟩
      ∧ (collide ball hex).radius = ball.radius := by
  have hne : point_length (cc_to_closest ball (hex.vertices i) (hex.vertices ((i + 1) % 6))) ≠ 0 :=
    ne_of_gt hd0
  have hsome : check_edge ball (hex.vertices i) (hex.vertices ((i + 1) % 6))
      = some (cc_closest_point ball (hex.vertices i) (hex.vertices ((i + 1) % 6)),
          point_normalize (cc_to_closest ball (hex.vertices i) (hex.vertices ((i + 1) % 6)))) := by
    unfold check_edge
    rw [if_neg hL, if_pos hd]
  have hcc : check_collision ball hex
      = some (cc_closest_point ball (hex.vertices i) (hex.vertices ((i + 1) % 6)),
          point_normalize (cc_to_closest ball (hex.vertices i) (hex.vertices ((i + 1) % 6)))) :=
    check_collision_from_first ball hex _ 6 0 i (Nat.zero_le i) (by omega)
      (fun j _ h2 => hnone j h2) hsome
  unfold collide
  rw [hcc]
  simp only
  obtain ⟨hp, hr⟩ := handle_collision_pos ball
    (cc_closest_point ball (hex.vertices i) (hex.vertices ((i + 1) % 6)))
    (point_normalize (cc_to_closest ball (hex.vertices i) (hex.vertices ((i + 1) % 6))))
  refine ⟨?_, hr⟩
  rw [hp]
  unfold point_normalize
  simp only [hne, if_false]
  rfl

/-- C8 (c4sr), amended: `update_ball` corrects one edge per call, the first one in index order
whose segment is closer to the integrated ball centre than `ball.radius`. If edge `i` is that
edge, is not degenerate, and the centre is not on it, then afterwards (window-bounds clamp not
triggering) the centre is the closest point of edge `i` moved by `ball.radius` along the
normal of that edge alone: it is at distance exactly `ball.radius` from that closest point and
at distance at least `ball.radius` from every point of edge `i`. -/
theorem update_ball_corrects_first_edge (ball : Ball) (hex : Hexagon) (dt : ℝ) (i : ℕ)
    (hi : i < 6)
    (hnone : ∀ j, j < i →
      check_edge (integrate ball dt) (hex.vertices j) (hex.vertices ((j + 1) % 6)) = none)
    (hL : point_dot (point_sub (hex.vertices ((i + 1) % 6)) (hex.vertices i))
      (point_sub (hex.vertices ((i + 1) % 6)) (hex.vertices i)) ≠ 0)
    (hd0 : 0 < cc_distance (integrate ball dt) (hex.vertices i) (hex.vertices ((i + 1) % 6)))
    (hd : cc_distance (integrate ball dt) (hex.vertices i) (hex.vertices ((i + 1) % 6))
      < ball.radius)
    (hw : clamp_window (collide (integrate ball dt) hex) = collide (integrate ball dt) hex) :
    (update_ball ball hex dt).pos
        = point_add
            (cc_closest_point (integrate ball dt) (hex.vertices i) (hex.vertices ((i + 1) % 6)))
            (point_mul
              (point_normalize
                (cc_to_closest (integrate ball dt) (hex.vertices i) (hex.vertices ((i + 1) % 6))))
              ball.radius)
      ∧ point_dist (update_ball ball hex dt).pos
        (cc_closest_point (integrate ball dt) (hex.vertices i) (hex.vertices ((i + 1) % 6)))
        = ball.radius
      ∧ ∀ s : ℝ, 0 ≤ s → s ≤ 1 →
          ball.radius ≤ point_dist (update_ball ball hex dt).pos
            (seg_point (hex.vertices i) (hex.vertices ((i + 1) % 6)) s) := by
  have hrad : (integrate ball dt).radius = ball.radius := rfl
  have hR : 0 ≤ ball.radius := by
    have h0 : 0 ≤ cc_distance (integrate ball dt) (hex.vertices i)
        (hex.vertices ((i + 1) % 6)) := le_of_lt hd0
    linarith
  obtain ⟨hp, -⟩ := collide_first_edge (integrate ball dt) hex i hi hnone hL hd0
    (by rw [hrad]; exact hd)
  rw [hrad] at hp
  have hu : update_ball ball hex dt = collide (integrate ball dt) hex := hw
  rw [hu, hp]
  have hdd := cc_distance_mul_self (integrate ball dt) (hex.vertices i)
    (hex.vertices ((i + 1) % 6))
  have hne : point_length (cc_to_closest (integrate ball dt) (hex.vertices i)
      (hex.vertices ((i + 1) % 6))) ≠ 0 := ne_of_gt hd0
  refine ⟨?_, ?_, ?_⟩
  · unfold point_normalize point_add point_mul
    simp only [hne, if_false]
    rfl
  · unfold point_dist
    simp only
    rw [Geom.sq_eq_of_pushed _ _ _ _ _ ball.radius hd0 hdd]
    exact Real.sqrt_sq hR
  · intro s h0 h1
    unfold point_dist
    simp only
    apply Real.le_sqrt_of_sq_le
    exact Geom.sq_le_of_pushed _ _ _ _ _ _ _ _ hd0 hR hdd
      (cc_closest_point_obtuse (integrate ball dt) _ _ s hL h0 h1)

/-- The first three vertices of the sample hexagon, and its radius. -/
theorem main_hexagon_vertices :
    main_hexagon.vertices 0 = ⟨600, 300⟩
      ∧ main_hexagon.vertices 1 = ⟨500, 300 + 100 * Real.sqrt 3⟩
      ∧ main_hexagon.vertices 2 = ⟨300, 300 + 100 * Real.sqrt 3⟩
      ∧ main_hexagon.radius = 200 := by
  obtain ⟨h0, h1, h2, -, -, -⟩ := Geom.hex_trig_values
  have e0 : (0 : ℝ) + ((0 : ℕ) : ℝ) * Real.pi / 3 = 0 * (Real.pi / 3) := by push_cast; ring
  have e1 : (0 : ℝ) + ((1 : ℕ) : ℝ) * Real.pi / 3 = 1 * (Real.pi / 3) := by push_cast; ring
  have e2 : (0 : ℝ) + ((2 : ℕ) : ℝ) * Real.pi / 3 = 2 * (Real.pi / 3) := by push_cast; ring
  unfold main_hexagon update_hexagon
  simp only
  rw [e0, e1, e2, h0.1, h0.2, h1.1, h1.2, h2.1, h2.2]
  simp only [Point.mk.injEq]
  refine ⟨⟨?_, ?_⟩, ⟨?_, ?_⟩, ⟨?_, ?_⟩, trivial⟩ <;> ring

/-- The sample ball is at rest at its start position after the integration with
`dt = 0.016`. -/
theorem integrate_corner_ball :
    integrate corner_ball (2 / 125)
      = ⟨⟨501 - 5 * Real.sqrt 3, 295 + 99 * Real.sqrt 3⟩, ⟨0, 0⟩, 15⟩ := by
  unfold integrate corner_ball point_add point_mul GRAVITY
  norm_num

/-- Closest point and distance of edge 0 of the sample hexagon for a ball at the position of
the sample ball. -/
theorem corner_edge_zero (v : Point) (r : ℝ) :
    point_dot (point_sub ⟨500, 300 + 100 * Real.sqrt 3⟩ ⟨600, 300⟩)
        (point_sub ⟨500, 300 + 100 * Real.sqrt 3⟩ ⟨600, 300⟩) ≠ 0
      ∧ cc_closest_point ⟨⟨501 - 5 * Real.sqrt 3, 295 + 99 * Real.sqrt 3⟩, v, r⟩
          ⟨600, 300⟩ ⟨500, 300 + 100 * Real.sqrt 3⟩ = ⟨501, 300 + 99 * Real.sqrt 3⟩
      ∧ cc_distance ⟨⟨501 - 5 * Real.sqrt 3, 295 + 99 * Real.sqrt 3⟩, v, r⟩
          ⟨600, 300⟩ ⟨500, 300 + 100 * Real.sqrt 3⟩ = 10 := by
  obtain ⟨hs, -, -⟩ := Geom.sqrt_three_bounds
  have hL : point_dot (point_sub ⟨500, 300 + 100 * Real.sqrt 3⟩ ⟨600, 300⟩)
      (point_sub ⟨500, 300 + 100 * Real.sqrt 3⟩ ⟨600, 300⟩) = 40000 := by
    unfold point_dot point_sub
    simp only
    linear_combination 10000 * hs
  have ht : cc_t ⟨⟨501 - 5 * Real.sqrt 3, 295 + 99 * Real.sqrt 3⟩, v, r⟩
      ⟨600, 300⟩ ⟨500, 300 + 100 * Real.sqrt 3⟩ = 99 / 100 := by
    unfold cc_t
    rw [hL]
    have hnum : point_dot
        (point_sub (⟨⟨501 - 5 * Real.sqrt 3, 295 + 99 * Real.sqrt 3⟩, v, r⟩ : Ball).pos
          ⟨600, 300⟩)
        (point_sub ⟨500, 300 + 100 * Real.sqrt 3⟩ ⟨600, 300⟩) = 39600 := by
      unfold point_dot point_sub
      simp only
      linear_combination 9900 * hs
    rw [hnum]
    norm_num
  have hc : cc_closest_point ⟨⟨501 - 5 * Real.sqrt 3, 295 + 99 * Real.sqrt 3⟩, v, r⟩
      ⟨600, 300⟩ ⟨500, 300 + 100 * Real.sqrt 3⟩ = ⟨501, 300 + 99 * Real.sqrt 3⟩ := by
    unfold cc_closest_point
    rw [ht]
    unfold point_add point_mul point_sub
    simp only [Point.mk.injEq]
    constructor <;> ring
  refine ⟨by rw [hL]; norm_num, hc, ?_⟩
  unfold cc_distance cc_to_closest
  rw [hc]
  unfold point_length point_sub
  simp only
  have : (501 - 5 * Real.sqrt 3 - 501) * (501 - 5 * Real.sqrt 3 - 501)
      + (295 + 99 * Real.sqrt 3 - (300 + 99 * Real.sqrt 3))
        * (295 + 99 * Real.sqrt 3 - (300 + 99 * Real.sqrt 3)) = 10 * 10 := by
    linear_combination 25 * hs
  rw [this]
  exact Real.sqrt_mul_self (by norm_num)

/-- Distance of the bottom edge of the sample hexagon (edge 1) for a ball centre above or below
that edge. -/
theorem bottom_edge_distance (b : Ball) (hx1 : 300 ≤ b.pos.x) (hx2 : b.pos.x ≤ 500) :
    cc_distance b ⟨500, 300 + 100 * Real.sqrt 3⟩ ⟨300, 300 + 100 * Real.sqrt 3⟩
      = |b.pos.y - (300 + 100 * Real.sqrt 3)| := by
  have hL : point_dot (point_sub ⟨300, 300 + 100 * Real.sqrt 3⟩ ⟨500, 300 + 100 * Real.sqrt 3⟩)
      (point_sub ⟨300, 300 + 100 * Real.sqrt 3⟩ ⟨500, 300 + 100 * Real.sqrt 3⟩) = 40000 := by
    unfold point_dot point_sub
    simp only
    ring
  have ht : cc_t b ⟨500, 300 + 100 * Real.sqrt 3⟩ ⟨300, 300 + 100 * Real.sqrt 3⟩
      = (500 - b.pos.x) / 200 := by
    unfold cc_t
    rw [hL]
    have hnum : point_dot (point_sub b.pos ⟨500, 300 + 100 * Real.sqrt 3⟩)
        (point_sub ⟨300, 300 + 100 * Real.sqrt 3⟩ ⟨500, 300 + 100 * Real.sqrt 3⟩)
        = (500 - b.pos.x) * 200 := by
      unfold point_dot point_sub
      simp only
      ring
    rw [hnum]
    have e : (500 - b.pos.x) * 200 / 40000 = (500 - b.pos.x) / 200 := by ring
    rw [e, min_eq_right (by linarith), max_eq_right (by linarith)]
  have hc : cc_closest_point b ⟨500, 300 + 100 * Real.sqrt 3⟩ ⟨300, 300 + 100 * Real.sqrt 3⟩
      = ⟨b.pos.x, 300 + 100 * Real.sqrt 3⟩ := by
    unfold cc_closest_point
    rw [ht]
    unfold point_add point_mul point_sub
    simp only [Point.mk.injEq]
    constructor <;> ring
  unfold cc_distance cc_to_closest
  rw [hc]
  unfold point_length point_sub
  simp only
  rw [sub_self, mul_zero, zero_add]
  exact Real.sqrt_mul_self_eq_abs _

/-- The premises of the first-edge correction hold for the integrated sample ball on edge 0 of
the sample hexagon. -/
theorem corner_first_edge :
    (∀ j, j < 0 → check_edge (integrate corner_ball (2 / 125)) (main_hexagon.vertices j)
        (main_hexagon.vertices ((j + 1) % 6)) = none)
      ∧ point_dot (point_sub (main_hexagon.vertices ((0 + 1) % 6)) (main_hexagon.vertices 0))
          (point_sub (main_hexagon.vertices ((0 + 1) % 6)) (main_hexagon.vertices 0)) ≠ 0
      ∧ 0 < cc_distance (integrate corner_ball (2 / 125)) (main_hexagon.vertices 0)
          (main_hexagon.vertices ((0 + 1) % 6))
      ∧ cc_distance (integrate corner_ball (2 / 125)) (main_hexagon.vertices 0)
          (main_hexagon.vertices ((0 + 1) % 6)) < corner_ball.radius := by
  obtain ⟨hv0, hv1, -, -⟩ := main_hexagon_vertices
  have hv1b : main_hexagon.vertices ((0 + 1) % 6) = ⟨500, 300 + 100 * Real.sqrt 3⟩ := hv1
  obtain ⟨hL, -, hd⟩ := corner_edge_zero ⟨0, 0⟩ 15
  rw [integrate_corner_ball, hv0, hv1b, hd]
  refine ⟨fun j hj => absurd hj (Nat.not_lt_zero j), hL, by norm_num, ?_⟩
  unfold corner_ball
  norm_num

/-- The sample ball after the collision phase: edge 0 has been corrected. -/
theorem collide_corner_ball :
    (collide (integrate corner_ball (2 / 125)) main_hexagon).pos
        = ⟨501 - 15 * Real.sqrt 3 / 2, 300 + 99 * Real.sqrt 3 - 15 / 2⟩
      ∧ (collide (integrate corner_ball (2 / 125)) main_hexagon).radius = 15 := by
  obtain ⟨hn, hL, hd0, hd⟩ := corner_first_edge
  obtain ⟨hp, hr⟩ := collide_first_edge (integrate corner_ball (2 / 125)) main_hexagon 0
    (by norm_num) hn hL hd0 hd
  obtain ⟨hv0, hv1, -, -⟩ := main_hexagon_vertices
  have hv1b : main_hexagon.vertices ((0 + 1) % 6) = ⟨500, 300 + 100 * Real.sqrt 3⟩ := hv1
  obtain ⟨-, hc, hdist⟩ := corner_edge_zero ⟨0, 0⟩ 15
  rw [hv0, hv1b, integrate_corner_ball, hc, hdist] at hp
  rw [hr, integrate_corner_ball, hp]
  simp only [Point.mk.injEq, and_true]
  constructor <;> ring

/-- The window-bounds tests do not trigger on the sample ball after the collision phase. -/
theorem clamp_window_corner_ball :
    clamp_window (collide (integrate corner_ball (2 / 125)) main_hexagon)
      = collide (integrate corner_ball (2 / 125)) main_hexagon := by
  obtain ⟨hp, hr⟩ := collide_corner_ball
  obtain ⟨-, hlo, hhi⟩ := Geom.sqrt_three_bounds
  apply clamp_window_of_inside
  · rw [hp, hr]; simp only [not_lt]; linarith
  · rw [hp, hr]; unfold WINDOW_WIDTH; simp only [gt_iff_lt, not_lt]; linarith
  · rw [hp, hr]; simp only [not_lt]; linarith
  · rw [hp, hr]; unfold WINDOW_HEIGHT; simp only [gt_iff_lt, not_lt]; linarith

/-- C8 (c4sr), counterexample: in the hexagon of `main` at angle 0, a ball of radius 15 is,
after integration, at distance 10 from the segment of edge 0 and at distance `5 + sqrt 3` from
the segment of edge 1. `update_ball` corrects edge 0 only (the window-bounds clamp does not
trigger): afterwards the ball centre is still closer to the segment of edge 1 than
`ball.radius`. -/
theorem second_edge_left_uncorrected :
    0 < main_hexagon.radius
      ∧ cc_distance (integrate corner_ball (2 / 125)) (main_hexagon.vertices 0)
          (main_hexagon.vertices 1) < corner_ball.radius
      ∧ cc_distance (integrate corner_ball (2 / 125)) (main_hexagon.vertices 1)
          (main_hexagon.vertices 2) < corner_ball.radius
      ∧ clamp_window (collide (integrate corner_ball (2 / 125)) main_hexagon)
          = collide (integrate corner_ball (2 / 125)) main_hexagon
      ∧ cc_distance (update_ball corner_ball main_hexagon (2 / 125)) (main_hexagon.vertices 1)
          (main_hexagon.vertices 2) < corner_ball.radius := by
  obtain ⟨hv0, hv1, hv2, hrad⟩ := main_hexagon_vertices
  obtain ⟨-, hlo, hhi⟩ := Geom.sqrt_three_bounds
  obtain ⟨-, -, -, hd⟩ := corner_first_edge
  obtain ⟨hp, hr⟩ := collide_corner_ball
  have hR : corner_ball.radius = 15 := rfl
  have hu : update_ball corner_ball main_hexagon (2 / 125)
      = collide (integrate corner_ball (2 / 125)) main_hexagon := clamp_window_corner_ball
  refine ⟨by rw [hrad]; norm_num, hd, ?_, clamp_window_corner_ball, ?_⟩
  · rw [hv1, hv2, bottom_edge_distance _ (by rw [integrate_corner_ball]; simp only; linarith)
      (by rw [integrate_corner_ball]; simp only; linarith), integrate_corner_ball, hR]
    simp only
    rw [abs_lt]
    constructor <;> linarith
  · rw [hu, hv1, hv2, bottom_edge_distance _ (by rw [hp]; simp only; linarith)
      (by rw [hp]; simp only; linarith), hp, hR]
    simp only
    rw [abs_lt]
    constructor <;> linarith

/-- Witness for C8 amended: on the sample input edge 0 is the first edge with a hit and the
ball is moved to distance `ball.radius` from it. -/
theorem update_ball_corrects_first_edge_witness :
    point_dist (update_ball corner_ball main_hexagon (2 / 125)).pos
        (cc_closest_point (integrate corner_ball (2 / 125)) (main_hexagon.vertices 0)
          (main_hexagon.vertices ((0 + 1) % 6))) = corner_ball.radius :=
  (update_ball_corrects_first_edge corner_ball main_hexagon (2 / 125) 0 (by norm_num)
    corner_first_edge.1 corner_first_edge.2.1 corner_first_edge.2.2.1 corner_first_edge.2.2.2
    clamp_window_corner_ball).2.1

end C4SR

namespace G4

/-- The checked `closest_on_segment` never divides by zero and returns the closest point. -/
theorem closest_on_segment_checked_eq (pos p1 p2 : Point) :
    closest_on_segment_checked pos p1 p2 = some (closest_on_segment pos p1 p2) := by
  unfold closest_on_segment_checked closest_on_segment checked_div
  by_cases h : (p2.x - p1.x) * (p2.x - p1.x) + (p2.y - p1.y) * (p2.y - p1.y) = 0
  · simp only [h, if_true]
  · simp only [h, if_false, Option.some_bind]

/-- The checked `resolve_collision` never divides by zero and returns the updated ball. -/
theorem resolve_collision_checked_eq (ball : Ball) (p1 p2 center : Point) (omega : ℝ) :
    resolve_collision_checked ball p1 p2 center omega
      = some (resolve_collision ball p1 p2 center omega) := by
  unfold resolve_collision_checked
  rw [closest_on_segment_checked_eq]
  simp only [Option.some_bind]
  by_cases hg : rc_dist ball p1 p2 ≥ BALL_RADIUS ∨ rc_dist ball p1 p2 = 0
  · have hg2 := hg
    unfold rc_dist rc_to_ball rc_closest at hg2
    simp only at hg2
    unfold resolve_collision
    rw [if_pos hg2, if_pos hg]
  · have hg2 := hg
    unfold rc_dist rc_to_ball rc_closest at hg2
    simp only at hg2
    have hne : ¬ rc_dist ball p1 p2 = 0 := fun h => hg (Or.inr h)
    have hne2 := hne
    unfold rc_dist rc_to_ball rc_closest at hne2
    simp only at hne2
    unfold resolve_collision
    rw [if_neg hg2, if_neg hg]
    unfold checked_div
    simp only [hne2, if_false, Option.some_bind]
    rfl

/-- On a degenerate edge the closest point is the point itself. -/
theorem rc_closest_degenerate (ball : Ball) (p : Point) :
    rc_closest ball p p = p ∧ rc_dist ball p p = point_dist ball.pos p := by
  have hc : rc_closest ball p p = p := by
    unfold rc_closest closest_on_segment
    simp
  refine ⟨hc, ?_⟩
  unfold rc_dist rc_to_ball point_dist Ball.pos
  rw [hc]

/-- C9 (g4), amended: `resolve_collision` called with `p1 = p2 = p` performs no division by
zero (`closest_on_segment` returns `p` without dividing, and the checked run of
`resolve_collision` returns a ball) and treats the degenerate edge as the single point `p`: the
ball is left unchanged when its centre is at distance at least `BALL_RADIUS` from `p` or is at
`p`, and otherwise the centre is moved to distance `BALL_RADIUS` from `p`. -/
theorem degenerate_edge_is_point (ball : Ball) (center : Point) (omega : ℝ) (p : Point) :
    closest_on_segment_checked ⟨ball.x, ball.y⟩ p p = some p
      ∧ resolve_collision_checked ball p p center omega
        = some (resolve_collision ball p p center omega)
      ∧ rc_dist ball p p = point_dist ball.pos p
      ∧ ((BALL_RADIUS ≤ point_dist ball.pos p ∨ point_dist ball.pos p = 0) →
          resolve_collision ball p p center omega = ball)
      ∧ (0 < point_dist ball.pos p → point_dist ball.pos p < BALL_RADIUS →
          point_dist (resolve_collision ball p p center omega).pos p = BALL_RADIUS) := by
  obtain ⟨hc, hd⟩ := rc_closest_degenerate ball p
  have hchk : closest_on_segment_checked ⟨ball.x, ball.y⟩ p p = some p := by
    rw [closest_on_segment_checked_eq]
    exact congrArg some hc
  refine ⟨hchk, resolve_collision_checked_eq ball p p center omega, hd, ?_, ?_⟩
  · intro h
    rw [← hd] at h
    unfold resolve_collision
    rw [if_pos h]
  · intro h0 h1
    rw [← hd] at h0 h1
    obtain ⟨hx, hy⟩ := resolve_collision_pos_eq ball p p center omega h0 h1
    have hR : (0 : ℝ) ≤ BALL_RADIUS := by unfold BALL_RADIUS; norm_num
    have he := Geom.sq_eq_of_pushed (rc_closest ball p p).x (rc_closest ball p p).y
      ball.x ball.y (rc_dist ball p p) BALL_RADIUS h0 (rc_dist_mul_self ball p p)
    unfold point_dist Ball.pos
    simp only
    rw [hx, hy]
    rw [hc] at he ⊢
    rw [he]
    exact Real.sqrt_sq hR

/-- The ball at `(0, 5)` falling at speed 1 onto the degenerate edge at the origin. -/
theorem resolve_collision_degenerate_sample :
    resolve_collision ⟨0, 5, 0, -1⟩ ⟨0, 0⟩ ⟨0, 0⟩ ⟨0, 0⟩ 0 = ⟨0, 10, 0, 4 / 5⟩ := by
  have hc : rc_closest ⟨0, 5, 0, -1⟩ ⟨0, 0⟩ ⟨0, 0⟩ = ⟨0, 0⟩ :=
    (rc_closest_degenerate ⟨0, 5, 0, -1⟩ ⟨0, 0⟩).1
  have hdist : rc_dist ⟨0, 5, 0, -1⟩ ⟨0, 0⟩ ⟨0, 0⟩ = 5 := by
    unfold rc_dist rc_to_ball
    rw [hc]
    norm_num
    rw [show (25 : ℝ) = 5 * 5 by norm_num]
    exact Real.sqrt_mul_self (by norm_num)
  have hn : rc_normal ⟨0, 5, 0, -1⟩ ⟨0, 0⟩ ⟨0, 0⟩ = ⟨0, 1⟩ := by
    unfold rc_normal
    rw [hdist]
    unfold rc_to_ball
    rw [hc]
    norm_num
  have hvn : rc_v_n ⟨0, 5, 0, -1⟩ ⟨0, 0⟩ ⟨0, 0⟩ ⟨0, 0⟩ 0 = -1 := by
    unfold rc_v_n rc_v_rel rc_v_wall wall_velocity
    rw [hn]
    norm_num
  have hjn : rc_j_n ⟨0, 5, 0, -1⟩ ⟨0, 0⟩ ⟨0, 0⟩ ⟨0, 0⟩ 0 = 9 / 5 := by
    unfold rc_j_n RESTITUTION
    rw [hvn]
    norm_num
  have ht : rc_tangent ⟨0, 5, 0, -1⟩ ⟨0, 0⟩ ⟨0, 0⟩ = ⟨-1, 0⟩ := by
    unfold rc_tangent
    rw [hn]
  have hvt : rc_v_t ⟨0, 5, 0, -1⟩ ⟨0, 0⟩ ⟨0, 0⟩ ⟨0, 0⟩ 0 = 0 := by
    unfold rc_v_t rc_v_rel rc_v_wall wall_velocity
    rw [ht]
    norm_num
  have hjt : rc_j_t ⟨0, 5, 0, -1⟩ ⟨0, 0⟩ ⟨0, 0⟩ ⟨0, 0⟩ 0 = 0 := by
    unfold rc_j_t rc_mu_jn MU
    rw [hvt, hjn]
    norm_num
  have hg : ¬ (rc_dist ⟨0, 5, 0, -1⟩ ⟨0, 0⟩ ⟨0, 0⟩ ≥ BALL_RADIUS
      ∨ rc_dist ⟨0, 5, 0, -1⟩ ⟨0, 0⟩ ⟨0, 0⟩ = 0) := by
    rw [hdist]
    unfold BALL_RADIUS
    norm_num
  have hv : ¬ (rc_v_n ⟨0, 5, 0, -1⟩ ⟨0, 0⟩ ⟨0, 0⟩ ⟨0, 0⟩ 0 ≥ 0) := by
    rw [hvn]
    norm_num
  unfold resolve_collision
  rw [if_neg hg]
  simp only
  rw [if_neg hv, hjn, hjt, hn, ht]
  unfold rc_penetration
  rw [hdist]
  unfold BALL_RADIUS
  simp only [Ball.mk.injEq]
  refine ⟨?_, ?_, ?_, ?_⟩ <;> norm_num

/-- C9 (g4), counterexample: called with `p1 = p2 = (0, 0)` on the ball at `(0, 5)` falling at
speed 1, `resolve_collision` moves the ball to `(0, 10)` and turns its velocity to `(0, 0.8)`:
the degenerate edge is not skipped, position and velocity both change. -/
theorem degenerate_edge_not_skipped :
    (resolve_collision ⟨0, 5, 0, -1⟩ ⟨0, 0⟩ ⟨0, 0⟩ ⟨0, 0⟩ 0).y = 10
      ∧ (resolve_collision ⟨0, 5, 0, -1⟩ ⟨0, 0⟩ ⟨0, 0⟩ ⟨0, 0⟩ 0).vy = 4 / 5
      ∧ resolve_collision ⟨0, 5, 0, -1⟩ ⟨0, 0⟩ ⟨0, 0⟩ ⟨0, 0⟩ 0 ≠ ⟨0, 5, 0, -1⟩ := by
  rw [resolve_collision_degenerate_sample]
  refine ⟨rfl, rfl, ?_⟩
  intro h
  have hy := congrArg Ball.y h
  simp only at hy
  norm_num at hy

/-- Witness for C9 amended: the ball at `(0, 5)` is at distance 5 from the degenerate edge at
the origin and is moved to distance `BALL_RADIUS` from it. -/
theorem degenerate_edge_is_point_witness :
    (0 < point_dist (⟨0, 5, 0, -1⟩ : Ball).pos ⟨0, 0⟩
        ∧ point_dist (⟨0, 5, 0, -1⟩ : Ball).pos ⟨0, 0⟩ < BALL_RADIUS)
      ∧ point_dist (resolve_collision ⟨0, 5, 0, -1⟩ ⟨0, 0⟩ ⟨0, 0⟩ ⟨0, 0⟩ 0).pos ⟨0, 0⟩
        = BALL_RADIUS := by
  have hd : point_dist (⟨0, 5, 0, -1⟩ : Ball).pos ⟨0, 0⟩ = 5 := by
    unfold point_dist Ball.pos
    norm_num
    rw [show (25 : ℝ) = 5 * 5 by norm_num]
    exact Real.sqrt_mul_self (by norm_num)
  have h0 : 0 < point_dist (⟨0, 5, 0, -1⟩ : Ball).pos ⟨0, 0⟩ := by rw [hd]; norm_num
  have h1 : point_dist (⟨0, 5, 0, -1⟩ : Ball).pos ⟨0, 0⟩ < BALL_RADIUS := by
    rw [hd]; unfold BALL_RADIUS; norm_num
  exact ⟨⟨h0, h1⟩,
    (degenerate_edge_is_point ⟨0, 5, 0, -1⟩ ⟨0, 0⟩ 0 ⟨0, 0⟩).2.2.2.2 h0 h1⟩

end G4

namespace C4SR

/-- The vertices written by `update_hexagon` at the angle advanced by `delta` are the vertices
written at the old angle, rotated by `delta` about the centre. -/
theorem update_hexagon_rotated (hex : Hexagon) (delta : ℝ) (i : ℕ) :
    (update_hexagon { hex with angle := hex.angle + delta }).vertices i
      = point_add hex.center
          (rotate_point (point_sub ((update_hexagon hex).vertices i) hex.center) delta) := by
  have ha : hex.angle + delta + (i : ℝ) * Real.pi / 3
      = hex.angle + (i : ℝ) * Real.pi / 3 + delta := by ring
  unfold update_hexagon point_add rotate_point point_sub
  simp only [Point.mk.injEq]
  rw [ha, Real.cos_add (hex.angle + (i : ℝ) * Real.pi / 3) delta,
    Real.sin_add (hex.angle + (i : ℝ) * Real.pi / 3) delta]
  constructor <;> ring

/-- The source function `rotate_point` preserves the length of a vector. -/
theorem point_length_rotate_point (p : Point) (angle : ℝ) :
    point_length (rotate_point p angle) = point_length p := by
  unfold point_length rotate_point
  simp only
  congr 1
  have h := Real.cos_sq_add_sin_sq angle
  linear_combination (p.x * p.x + p.y * p.y) * h

/-- The difference of two rotated points is the rotated difference. -/
theorem point_sub_rotated (c a b : Point) (angle : ℝ) :
    point_sub (point_add c (rotate_point (point_sub a c) angle))
        (point_add c (rotate_point (point_sub b c) angle))
      = rotate_point (point_sub a b) angle := by
  unfold point_sub point_add rotate_point
  simp only [Point.mk.injEq]
  constructor <;> ring

/-- C10 (c4sr): for every hexagon centre, radius, angle and increment `delta`, each vertex `i`
written by `update_hexagon` at `angle + delta` equals `centre + rotate_point(v_i - centre,
delta)`, where `v_i` is vertex `i` written at `angle`; this holds in particular for the advance
of the main loop, `delta = ROTATION_SPEED * dt`, and all pairwise vertex distances are
preserved. -/
theorem update_hexagon_advance_rotates (hex : Hexagon) (delta dt : ℝ) (i j : ℕ) :
    (update_hexagon { hex with angle := hex.angle + delta }).vertices i
        = point_add hex.center
            (rotate_point (point_sub ((update_hexagon hex).vertices i) hex.center) delta)
      ∧ (advance hex dt).vertices i
        = point_add hex.center
            (rotate_point (point_sub ((update_hexagon hex).vertices i) hex.center)
              (ROTATION_SPEED * dt))
      ∧ point_length (point_sub
            ((update_hexagon { hex with angle := hex.angle + delta }).vertices i)
            ((update_hexagon { hex with angle := hex.angle + delta }).vertices j))
        = point_length (point_sub ((update_hexagon hex).vertices i)
            ((update_hexagon hex).vertices j))
      ∧ point_length (point_sub ((advance hex dt).vertices i) ((advance hex dt).vertices j))
        = point_length (point_sub ((update_hexagon hex).vertices i)
            ((update_hexagon hex).vertices j)) := by
  have hadv : ∀ k, (advance hex dt).vertices k
      = point_add hex.center
          (rotate_point (point_sub ((update_hexagon hex).vertices k) hex.center)
            (ROTATION_SPEED * dt)) := fun k => update_hexagon_rotated hex (ROTATION_SPEED * dt) k
  refine ⟨update_hexagon_rotated hex delta i, hadv i, ?_, ?_⟩
  · rw [update_hexagon_rotated hex delta i, update_hexagon_rotated hex delta j,
      point_sub_rotated, point_length_rotate_point]
  · rw [hadv i, hadv j, point_sub_rotated, point_length_rotate_point]

end C4SR

namespace G25

/-- Velocity written by the edge step when the test fires. -/
theorem edge_step_vel_of_fired (hexagon : Hexagon) (ball : Ball) (i : ℕ)
    (h : edge_dist hexagon ball i < ball.radius) :
    (edge_step hexagon ball i).vel
      = ⟨(edge_normal hexagon i).x
            * (ball.vel.x * (edge_normal hexagon i).x + ball.vel.y * (edge_normal hexagon i).y)
            * -RESTITUTION
          + (ball.vel.x - (edge_normal hexagon i).x
              * (ball.vel.x * (edge_normal hexagon i).x + ball.vel.y * (edge_normal hexagon i).y))
            * (1 - FRICTION),
          (edge_normal hexagon i).y
            * (ball.vel.x * (edge_normal hexagon i).x + ball.vel.y * (edge_normal hexagon i).y)
            * -RESTITUTION
          + (ball.vel.y - (edge_normal hexagon i).y
              * (ball.vel.x * (edge_normal hexagon i).x + ball.vel.y * (edge_normal hexagon i).y))
            * (1 - FRICTION)⟩ := by
  unfold edge_step
  simp only [h, if_true]

/-- The velocity response of a fired edge, split along and across the unit normal. -/
theorem edge_step_vel_split (hexagon : Hexagon) (ball : Ball) (i : ℕ)
    (hR : 0 < hexagon.radius) (h : edge_dist hexagon ball i < ball.radius) :
    (edge_step hexagon ball i).vel.x * (edge_normal hexagon i).x
        + (edge_step hexagon ball i).vel.y * (edge_normal hexagon i).y
        = -RESTITUTION
          * (ball.vel.x * (edge_normal hexagon i).x + ball.vel.y * (edge_normal hexagon i).y)
      ∧ (edge_step hexagon ball i).vel.x
          - ((edge_step hexagon ball i).vel.x * (edge_normal hexagon i).x
              + (edge_step hexagon ball i).vel.y * (edge_normal hexagon i).y)
            * (edge_normal hexagon i).x
        = (1 - FRICTION)
          * (ball.vel.x
            - (ball.vel.x * (edge_normal hexagon i).x + ball.vel.y * (edge_normal hexagon i).y)
              * (edge_normal hexagon i).x)
      ∧ (edge_step hexagon ball i).vel.y
          - ((edge_step hexagon ball i).vel.x * (edge_normal hexagon i).x
              + (edge_step hexagon ball i).vel.y * (edge_normal hexagon i).y)
            * (edge_normal hexagon i).y
        = (1 - FRICTION)
          * (ball.vel.y
            - (ball.vel.x * (edge_normal hexagon i).x + ball.vel.y * (edge_normal hexagon i).y)
              * (edge_normal hexagon i).y) := by
  have hu := edge_normal_unit hexagon i hR
  rw [edge_step_vel_of_fired hexagon ball i h]
  simp only
  set nx := (edge_normal hexagon i).x
  set ny := (edge_normal hexagon i).y
  set vx := ball.vel.x
  set vy := ball.vel.y
  have hdot : (nx * (vx * nx + vy * ny) * -RESTITUTION
        + (vx - nx * (vx * nx + vy * ny)) * (1 - FRICTION)) * nx
      + (ny * (vx * nx + vy * ny) * -RESTITUTION
        + (vy - ny * (vx * nx + vy * ny)) * (1 - FRICTION)) * ny
      = -RESTITUTION * (vx * nx + vy * ny) := by
    linear_combination
      ((vx * nx + vy * ny) * (-RESTITUTION) - (vx * nx + vy * ny) * (1 - FRICTION)) * hu
  refine ⟨hdot, ?_, ?_⟩
  · rw [hdot]; ring
  · rw [hdot]; ring

/-- C11 (g2.5-pro): for a hexagon of positive radius, for every edge `i` whose test
`dist < ball->radius` fires in `update_physics`, the velocity `v'` written by the response and
the velocity `v` just before it satisfy `dot(v', n) = -RESTITUTION * dot(v, n)` and
`v' - dot(v', n) * n = (1 - FRICTION) * (v - dot(v, n) * n)` with `n` the unit normal of that
edge: the normal component is reversed and scaled by the restitution, the tangential component
is scaled by `1 - FRICTION`. -/
theorem update_physics_velocity_response (ball : Ball) (hexagon : Hexagon)
    (hR : 0 < hexagon.radius) (i : ℕ) (hf : edge_fired ball hexagon i) :
    (edges_upto (advance_hexagon hexagon) (integrate_ball ball) (i + 1)).vel.x
          * (edge_normal (advance_hexagon hexagon) i).x
        + (edges_upto (advance_hexagon hexagon) (integrate_ball ball) (i + 1)).vel.y
          * (edge_normal (advance_hexagon hexagon) i).y
        = -RESTITUTION
          * ((edges_upto (advance_hexagon hexagon) (integrate_ball ball) i).vel.x
              * (edge_normal (advance_hexagon hexagon) i).x
            + (edges_upto (advance_hexagon hexagon) (integrate_ball ball) i).vel.y
              * (edge_normal (advance_hexagon hexagon) i).y)
      ∧ (edges_upto (advance_hexagon hexagon) (integrate_ball ball) (i + 1)).vel.x
          - ((edges_upto (advance_hexagon hexagon) (integrate_ball ball) (i + 1)).vel.x
                * (edge_normal (advance_hexagon hexagon) i).x
              + (edges_upto (advance_hexagon hexagon) (integrate_ball ball) (i + 1)).vel.y
                * (edge_normal (advance_hexagon hexagon) i).y)
            * (edge_normal (advance_hexagon hexagon) i).x
        = (1 - FRICTION)
          * ((edges_upto (advance_hexagon hexagon) (integrate_ball ball) i).vel.x
            - ((edges_upto (advance_hexagon hexagon) (integrate_ball ball) i).vel.x
                  * (edge_normal (advance_hexagon hexagon) i).x
                + (edges_upto (advance_hexagon hexagon) (integrate_ball ball) i).vel.y
                  * (edge_normal (advance_hexagon hexagon) i).y)
              * (edge_normal (advance_hexagon hexagon) i).x)
      ∧ (edges_upto (advance_hexagon hexagon) (integrate_ball ball) (i + 1)).vel.y
          - ((edges_upto (advance_hexagon hexagon) (integrate_ball ball) (i + 1)).vel.x
                * (edge_normal (advance_hexagon hexagon) i).x
              + (edges_upto (advance_hexagon hexagon) (integrate_ball ball) (i + 1)).vel.y
                * (edge_normal (advance_hexagon hexagon) i).y)
            * (edge_normal (advance_hexagon hexagon) i).y
        = (1 - FRICTION)
          * ((edges_upto (advance_hexagon hexagon) (integrate_ball ball) i).vel.y
            - ((edges_upto (advance_hexagon hexagon) (integrate_ball ball) i).vel.x
                  * (edge_normal (advance_hexagon hexagon) i).x
                + (edges_upto (advance_hexagon hexagon) (integrate_ball ball) i).vel.y
                  * (edge_normal (advance_hexagon hexagon) i).y)
              * (edge_normal (advance_hexagon hexagon) i).y)
      ∧ (edge_normal (advance_hexagon hexagon) i).x * (edge_normal (advance_hexagon hexagon) i).x
        + (edge_normal (advance_hexagon hexagon) i).y * (edge_normal (advance_hexagon hexagon) i).y
        = 1 := by
  have hR2 : 0 < (advance_hexagon hexagon).radius := by
    rw [(advance_hexagon_radius hexagon).1]; exact hR
  obtain ⟨h1, h2, h3⟩ := edge_step_vel_split (advance_hexagon hexagon)
    (edges_upto (advance_hexagon hexagon) (integrate_ball ball) i) i hR2 hf
  exact ⟨h1, h2, h3, edge_normal_unit (advance_hexagon hexagon) i hR2⟩

/-- The test of edge 0 fires for the moving sample ball. -/
theorem moving_ball_edge_zero_fired : edge_fired moving_ball sample_hexagon 0 := by
  obtain ⟨hs, hlo, hhi⟩ := Geom.sqrt_three_bounds
  obtain ⟨-, -, hd⟩ := sample_edge_0
  unfold edge_fired
  rw [advance_sample_hexagon]
  show edge_dist sample_hexagon (integrate_ball moving_ball) 0 < (integrate_ball moving_ball).radius
  have hb : integrate_ball moving_ball
      = ⟨⟨8947849 / 536870912, 4369067 / 1048576 * (8947849 / 536870912)⟩,
          ⟨1, 4369067 / 1048576⟩, 1⟩ := by
    unfold integrate_ball moving_ball GRAVITY_TIME_STEP TIME_STEP
    norm_num
  rw [hb, hd]
  simp only
  linarith

/-- Witness for C11: the moving sample ball in the sample hexagon; the test of edge 0 fires and
the normal component of its velocity is reversed and scaled by the restitution. -/
theorem update_physics_velocity_response_witness :
    (0 < sample_hexagon.radius ∧ edge_fired moving_ball sample_hexagon 0)
      ∧ (edges_upto (advance_hexagon sample_hexagon) (integrate_ball moving_ball) (0 + 1)).vel.x
          * (edge_normal (advance_hexagon sample_hexagon) 0).x
        + (edges_upto (advance_hexagon sample_hexagon) (integrate_ball moving_ball) (0 + 1)).vel.y
          * (edge_normal (advance_hexagon sample_hexagon) 0).y
        = -RESTITUTION
          * ((edges_upto (advance_hexagon sample_hexagon) (integrate_ball moving_ball) 0).vel.x
              * (edge_normal (advance_hexagon sample_hexagon) 0).x
            + (edges_upto (advance_hexagon sample_hexagon) (integrate_ball moving_ball) 0).vel.y
              * (edge_normal (advance_hexagon sample_hexagon) 0).y) := by
  have hR : 0 < sample_hexagon.radius := by unfold sample_hexagon; norm_num
  exact ⟨⟨hR, moving_ball_edge_zero_fired⟩,
    (update_physics_velocity_response moving_ball sample_hexagon hR 0
      moving_ball_edge_zero_fired).1⟩

end G25

namespace QWQ32

/-- For an edge that is not skipped the vector `(nx, ny)` has length one. -/
theorem hc_normal_unit (rotated_hex : ℕ → Point) (i : ℕ) (hL : hc_length rotated_hex i ≠ 0) :
    hc_nx rotated_hex i * hc_nx rotated_hex i + hc_ny rotated_hex i * hc_ny rotated_hex i = 1 := by
  have hsq : hc_length rotated_hex i * hc_length rotated_hex i
      = hc_dx rotated_hex i * hc_dx rotated_hex i + hc_dy rotated_hex i * hc_dy rotated_hex i := by
    unfold hc_length
    exact Real.mul_self_sqrt (add_nonneg (mul_self_nonneg _) (mul_self_nonneg _))
  unfold hc_nx hc_ny
  field_simp
  linarith

/-- The response of `handle_collision` multiplies the normal component of the velocity by
`-(1 + 2 * FRICTION) = -2.8` and adds `6.84 * dot(v, n)^2` to the squared speed. -/
theorem hc_response_amplifies (rotated_hex : ℕ → Point) (ball_vel : ℝ × ℝ) (i : ℕ)
    (hL : hc_length rotated_hex i ≠ 0) :
    (hc_response rotated_hex ball_vel i).1 * hc_nx rotated_hex i
        + (hc_response rotated_hex ball_vel i).2 * hc_ny rotated_hex i
        = -(14 / 5) * (ball_vel.1 * hc_nx rotated_hex i + ball_vel.2 * hc_ny rotated_hex i)
      ∧ (hc_response rotated_hex ball_vel i).1 ^ 2 + (hc_response rotated_hex ball_vel i).2 ^ 2
        = ball_vel.1 ^ 2 + ball_vel.2 ^ 2
          + 171 / 25 * (ball_vel.1 * hc_nx rotated_hex i + ball_vel.2 * hc_ny rotated_hex i) ^ 2 := by
  have hu := hc_normal_unit rotated_hex i hL
  unfold hc_response FRICTION
  simp only
  set nx := hc_nx rotated_hex i
  set ny := hc_ny rotated_hex i
  constructor
  · linear_combination (-(19 / 5) * (ball_vel.1 * nx + ball_vel.2 * ny)) * hu
  · linear_combination ((361 / 25) * (ball_vel.1 * nx + ball_vel.2 * ny) ^ 2) * hu

/-- The loop of `handle_collision` applies the response of the first edge with a hit. -/
theorem handle_collision_from_first (rotated_hex : ℕ → Point) (ball : Point) (ball_vel : ℝ × ℝ)
    (n k i : ℕ) (hk : k ≤ i) (hi : i < k + n)
    (hnone : ∀ j, k ≤ j → j < i → ¬ hc_hit rotated_hex ball j)
    (hhit : hc_hit rotated_hex ball i) :
    handle_collision_from rotated_hex ball ball_vel n k = hc_response rotated_hex ball_vel i := by
  induction n generalizing k with
  | zero => omega
  | succ m ih =>
    unfold handle_collision_from
    rcases Nat.eq_or_lt_of_le hk with heq | hlt
    · subst heq
      rw [if_neg hhit.1, if_pos hhit.2]
    · have hrec := ih (k + 1) hlt (by omega) (fun j h1 h2 => hnone j (by omega) h2)
      by_cases hL : hc_length rotated_hex k = 0
      · rw [if_pos hL]; exact hrec
      · rw [if_neg hL]
        have hno : ¬ |hc_dist rotated_hex ball k| < BALL_RADIUS :=
          fun h => hnone k (le_refl k) hlt ⟨hL, h⟩
        rw [if_neg hno]; exact hrec

/-- Edge 0 of the hexagon rotated by angle 0: its components, its length and its normal. -/
theorem rotate_hex_zero_edge :
    hc_dx (rotate_hex 0) 0 = -100 ∧ hc_dy (rotate_hex 0) 0 = 100 * Real.sqrt 3
      ∧ hc_length (rotate_hex 0) 0 = 200
      ∧ hc_nx (rotate_hex 0) 0 = Real.sqrt 3 / 2 ∧ hc_ny (rotate_hex 0) 0 = 1 / 2
      ∧ rotate_hex 0 0 = ⟨200, 0⟩ := by
  obtain ⟨h0, h1, -, -, -, -⟩ := Geom.hex_trig_values
  obtain ⟨hs, -, -⟩ := Geom.sqrt_three_bounds
  have e0 : 2 * Real.pi * ((0 : ℕ) : ℝ) / 6 = 0 * (Real.pi / 3) := by push_cast; ring
  have e1 : 2 * Real.pi * ((1 : ℕ) : ℝ) / 6 = 1 * (Real.pi / 3) := by push_cast; ring
  have hv0 : rotate_hex 0 0 = ⟨200, 0⟩ := by
    unfold rotate_hex original_hex HEX_RADIUS
    simp only
    rw [e0, h0.1, h0.2, Real.cos_zero, Real.sin_zero]
    simp only [Point.mk.injEq]
    constructor <;> ring
  have hv1 : rotate_hex 0 ((0 + 1) % 6) = ⟨100, 100 * Real.sqrt 3⟩ := by
    show rotate_hex 0 1 = _
    unfold rotate_hex original_hex HEX_RADIUS
    simp only
    rw [e1, h1.1, h1.2, Real.cos_zero, Real.sin_zero]
    simp only [Point.mk.injEq]
    constructor <;> ring
  have hdx : hc_dx (rotate_hex 0) 0 = -100 := by
    unfold hc_dx
    rw [hv0, hv1]
    norm_num
  have hdy : hc_dy (rotate_hex 0) 0 = 100 * Real.sqrt 3 := by
    unfold hc_dy
    rw [hv0, hv1]
    norm_num
  have hlen : hc_length (rotate_hex 0) 0 = 200 := by
    unfold hc_length
    rw [hdx, hdy]
    have : (-100 : ℝ) * -100 + 100 * Real.sqrt 3 * (100 * Real.sqrt 3) = 200 * 200 := by
      linear_combination 10000 * hs
    rw [this]
    exact Real.sqrt_mul_self (by norm_num)
  refine ⟨hdx, hdy, hlen, ?_, ?_, hv0⟩
  · unfold hc_nx
    rw [hdy, hlen]
    ring
  · unfold hc_ny
    rw [hdx, hlen]
    norm_num

/-- The ball at `(195, 0)` hits edge 0 of the hexagon rotated by angle 0. -/
theorem hit_edge_zero : hc_hit (rotate_hex 0) ⟨195, 0⟩ 0 := by
  obtain ⟨hdx, hdy, hlen, -, -, hv0⟩ := rotate_hex_zero_edge
  obtain ⟨hs, hlo, hhi⟩ := Geom.sqrt_three_bounds
  refine ⟨by rw [hlen]; norm_num, ?_⟩
  have hd : hc_dist (rotate_hex 0) ⟨195, 0⟩ 0 = 5 * Real.sqrt 3 / 2 := by
    unfold hc_dist hc_cross
    rw [hdx, hdy, hlen, hv0]
    simp only
    ring
  rw [hd, abs_lt]
  unfold BALL_RADIUS
  constructor <;> linarith

/-- C12 (qwq32): for the ball at `(195, 0)` with velocity `(5, 0)` in the hexagon rotated by
angle 0, `handle_collision` applies its response on edge 0, whose `(nx, ny)` is a unit vector,
and the new velocity is `(-37/4, -(19/4) * sqrt 3)`: the normal component and the speed have
grown, `|dot(v', n)| = 2.8 * |dot(v, n)|` and `|v'|^2 = 153.25 > 25 = |v|^2`. -/
theorem bounce_gains_energy :
    hc_hit (rotate_hex 0) ⟨195, 0⟩ 0
      ∧ hc_nx (rotate_hex 0) 0 * hc_nx (rotate_hex 0) 0
          + hc_ny (rotate_hex 0) 0 * hc_ny (rotate_hex 0) 0 = 1
      ∧ handle_collision (rotate_hex 0) ⟨195, 0⟩ (5, 0)
          = (-(37 / 4), -(19 / 4) * Real.sqrt 3)
      ∧ |(5 : ℝ) * hc_nx (rotate_hex 0) 0 + 0 * hc_ny (rotate_hex 0) 0|
        < |(handle_collision (rotate_hex 0) ⟨195, 0⟩ (5, 0)).1 * hc_nx (rotate_hex 0) 0
            + (handle_collision (rotate_hex 0) ⟨195, 0⟩ (5, 0)).2 * hc_ny (rotate_hex 0) 0|
      ∧ (5 : ℝ) ^ 2 + 0 ^ 2
        < (handle_collision (rotate_hex 0) ⟨195, 0⟩ (5, 0)).1 ^ 2
          + (handle_collision (rotate_hex 0) ⟨195, 0⟩ (5, 0)).2 ^ 2 := by
  obtain ⟨-, -, hlen, hnx, hny, -⟩ := rotate_hex_zero_edge
  obtain ⟨hs, hlo, hhi⟩ := Geom.sqrt_three_bounds
  have hL : hc_length (rotate_hex 0) 0 ≠ 0 := by rw [hlen]; norm_num
  have hresp : handle_collision (rotate_hex 0) ⟨195, 0⟩ (5, 0)
      = hc_response (rotate_hex 0) (5, 0) 0 :=
    handle_collision_from_first (rotate_hex 0) ⟨195, 0⟩ (5, 0) 6 0 0 (le_refl 0) (by norm_num)
      (fun j _ h2 => absurd h2 (Nat.not_lt_zero j)) hit_edge_zero
  have hval : hc_response (rotate_hex 0) (5, 0) 0 = (-(37 / 4), -(19 / 4) * Real.sqrt 3) := by
    unfold hc_response FRICTION
    rw [hnx, hny]
    simp only [Prod.mk.injEq]
    constructor
    · linear_combination (-(19 / 4)) * hs
    · ring
  refine ⟨hit_edge_zero, hc_normal_unit (rotate_hex 0) 0 hL, by rw [hresp, hval], ?_, ?_⟩
  · rw [hresp, hval, hnx, hny]
    simp only
    have e1 : (5 : ℝ) * (Real.sqrt 3 / 2) + 0 * (1 / 2) = 5 * Real.sqrt 3 / 2 := by ring
    have e2 : -(37 / 4) * (Real.sqrt 3 / 2) + -(19 / 4) * Real.sqrt 3 * (1 / 2)
        = -(7 * Real.sqrt 3) := by ring
    rw [e1, e2, abs_neg, abs_of_pos (by linarith), abs_of_pos (by linarith)]
    linarith
  · rw [hresp, hval]
    simp only
    nlinarith

end QWQ32

namespace C4SR

/-- The length of a vector is zero only for the zero vector. -/
theorem point_length_pos (a : Point) (h : a.x ≠ 0 ∨ a.y ≠ 0) : 0 < point_length a := by
  unfold point_length
  apply Real.sqrt_pos.mpr
  rcases h with h | h
  · have := mul_self_pos.mpr h
    nlinarith [mul_self_nonneg a.y]
  · have := mul_self_pos.mpr h
    nlinarith [mul_self_nonneg a.x]

/-- C13 (c4sr): `point_normalize` never fails (its checked run always returns a point),
`point_normalize((0,0)) = (0,0)`, and for every non-zero vector `a` the result has length
exactly 1 and equals `a` scaled by the positive factor `1 / |a|`. -/
theorem point_normalize_total (a : Point) :
    point_normalize ⟨0, 0⟩ = ⟨0, 0⟩
      ∧ point_normalize_checked a = some (point_normalize a)
      ∧ ((a.x ≠ 0 ∨ a.y ≠ 0) →
          point_length (point_normalize a) = 1
          ∧ 0 < 1 / point_length a
          ∧ point_normalize a = point_mul a (1 / point_length a)) := by
  refine ⟨?_, ?_, ?_⟩
  · unfold point_normalize point_length
    simp
  · unfold point_normalize_checked point_normalize checked_div
    by_cases h : point_length a = 0
    · simp only [h, if_true]
    · simp only [h, if_false, Option.some_bind]
  · intro h
    have hpos := point_length_pos a h
    have hne : point_length a ≠ 0 := ne_of_gt hpos
    have hsq : point_length a * point_length a = a.x * a.x + a.y * a.y := by
      unfold point_length
      exact Real.mul_self_sqrt (add_nonneg (mul_self_nonneg _) (mul_self_nonneg _))
    have hn : point_normalize a = ⟨a.x / point_length a, a.y / point_length a⟩ := by
      unfold point_normalize
      simp only [hne, if_false]
    refine ⟨?_, by positivity, ?_⟩
    · rw [hn]
      have h1 : a.x / point_length a * (a.x / point_length a)
          + a.y / point_length a * (a.y / point_length a) = 1 := by
        field_simp
        linarith
      show Real.sqrt (a.x / point_length a * (a.x / point_length a)
        + a.y / point_length a * (a.y / point_length a)) = 1
      rw [h1, Real.sqrt_one]
    · rw [hn]
      unfold point_mul
      simp only [Point.mk.injEq]
      constructor <;> ring

/-- Witness for C13: the vector `(3, 4)` is normalised to a vector of length 1. -/
theorem point_normalize_total_witness :
    ((3 : ℝ) ≠ 0 ∨ (4 : ℝ) ≠ 0) ∧ point_length (point_normalize ⟨3, 4⟩) = 1 :=
  ⟨Or.inl (by norm_num), ((point_normalize_total ⟨3, 4⟩).2.2 (Or.inl (by norm_num))).1⟩

end C4SR

namespace Geom

/-- Index arithmetic of the hexagon, for vertex angles of the form `x + i * π / 3`: the vertex
after `i` (cyclically) is `i` turned by a sixth of a turn. -/
theorem hex_succ_mod (x : ℝ) (i : ℕ) (hi : i < 6) :
    Real.cos (x + (((i + 1) % 6 : ℕ) : ℝ) * Real.pi / 3)
        = Real.cos (x + (i : ℝ) * Real.pi / 3 + Real.pi / 3)
      ∧ Real.sin (x + (((i + 1) % 6 : ℕ) : ℝ) * Real.pi / 3)
        = Real.sin (x + (i : ℝ) * Real.pi / 3 + Real.pi / 3) := by
  have h5 : x + ((5 : ℕ) : ℝ) * Real.pi / 3 + Real.pi / 3 = x + 2 * Real.pi := by
    push_cast; ring
  interval_cases i
  · constructor <;> congr 1 <;> norm_num
  · constructor <;> congr 1 <;> norm_num <;> ring
  · constructor <;> congr 1 <;> norm_num <;> ring
  · constructor <;> congr 1 <;> norm_num <;> ring
  · constructor <;> congr 1 <;> norm_num <;> ring
  · rw [h5, Real.cos_add_two_pi, Real.sin_add_two_pi]
    norm_num

end Geom

namespace C4SR

/-- Every vertex written by `update_hexagon` is at squared distance `radius^2` from the
centre. -/
theorem update_hexagon_vertex_sq (hex : Hexagon) (i : ℕ) :
    ((update_hexagon hex).vertices i).x - hex.center.x
        = hex.radius * Real.cos (hex.angle + (i : ℝ) * Real.pi / 3)
      ∧ ((update_hexagon hex).vertices i).y - hex.center.y
        = hex.radius * Real.sin (hex.angle + (i : ℝ) * Real.pi / 3) := by
  unfold update_hexagon
  simp only
  constructor <;> ring

/-- Components of the edge from vertex `i` to vertex `(i + 1) % 6`, in closed form. -/
theorem update_hexagon_edge (hex : Hexagon) (i : ℕ) (hi : i < 6) :
    ((update_hexagon hex).vertices ((i + 1) % 6)).x - ((update_hexagon hex).vertices i).x
        = hex.radius * (-(Real.cos (hex.angle + (i : ℝ) * Real.pi / 3)) / 2
            - Real.sin (hex.angle + (i : ℝ) * Real.pi / 3) * Real.sqrt 3 / 2)
      ∧ ((update_hexagon hex).vertices ((i + 1) % 6)).y - ((update_hexagon hex).vertices i).y
        = hex.radius * (-(Real.sin (hex.angle + (i : ℝ) * Real.pi / 3)) / 2
            + Real.cos (hex.angle + (i : ℝ) * Real.pi / 3) * Real.sqrt 3 / 2) := by
  obtain ⟨hc, hs⟩ := Geom.hex_succ_mod hex.angle i hi
  obtain ⟨hc2, hs2⟩ := Geom.cos_sin_add_sixth (hex.angle + (i : ℝ) * Real.pi / 3)
  unfold update_hexagon
  simp only
  rw [hc, hs, hc2, hs2]
  constructor <;> ring

/-- The squared length of every edge written by `update_hexagon` is `radius^2`. -/
theorem update_hexagon_edge_sq (hex : Hexagon) (i : ℕ) (hi : i < 6) :
    point_dot
        (point_sub ((update_hexagon hex).vertices ((i + 1) % 6)) ((update_hexagon hex).vertices i))
        (point_sub ((update_hexagon hex).vertices ((i + 1) % 6)) ((update_hexagon hex).vertices i))
      = hex.radius * hex.radius := by
  obtain ⟨hx, hy⟩ := update_hexagon_edge hex i hi
  obtain ⟨hs, -, -⟩ := Geom.sqrt_three_bounds
  have hφ := Real.cos_sq_add_sin_sq (hex.angle + (i : ℝ) * Real.pi / 3)
  unfold point_dot point_sub
  simp only
  rw [hx, hy]
  set C := Real.cos (hex.angle + (i : ℝ) * Real.pi / 3)
  set S := Real.sin (hex.angle + (i : ℝ) * Real.pi / 3)
  set r := Real.sqrt 3
  set R := hex.radius
  have e : R * (-C / 2 - S * r / 2) * (R * (-C / 2 - S * r / 2))
      + R * (-S / 2 + C * r / 2) * (R * (-S / 2 + C * r / 2))
      = R * R * ((C ^ 2 + S ^ 2) * (1 / 4 + r * r / 4)) := by ring
  rw [e, hφ, hs]
  ring

/-- C14 (c4sr `update_hexagon`): for every centre, radius `R ≥ 0` and angle, each of the six
vertices lies at distance exactly `R` from the centre and every edge (vertex `i` to vertex
`(i + 1) mod 6`) has length exactly `R`; for `R > 0` no edge is degenerate and the edge-length
divisors of the collision routines are non-zero (`edge_length_sq` of `check_collision`, and
`len` of the edge loop of the g2.5-pro `update_physics` for its hexagon). -/
theorem update_hexagon_regular (hex : Hexagon) (i : ℕ) (g : G25.Hexagon) (hi : i < 6)
    (hR : 0 ≤ hex.radius) :
    point_length (point_sub ((update_hexagon hex).vertices i) hex.center) = hex.radius
      ∧ point_length (point_sub ((update_hexagon hex).vertices ((i + 1) % 6))
          ((update_hexagon hex).vertices i)) = hex.radius
      ∧ (0 < hex.radius →
          (update_hexagon hex).vertices ((i + 1) % 6) ≠ (update_hexagon hex).vertices i
          ∧ point_dot
              (point_sub ((update_hexagon hex).vertices ((i + 1) % 6))
                ((update_hexagon hex).vertices i))
              (point_sub ((update_hexagon hex).vertices ((i + 1) % 6))
                ((update_hexagon hex).vertices i)) ≠ 0)
      ∧ (0 < g.radius → G25.edge_len g i = g.radius ∧ G25.edge_len g i ≠ 0) := by
  have hsq := update_hexagon_edge_sq hex i hi
  refine ⟨?_, ?_, ?_, ?_⟩
  · obtain ⟨hx, hy⟩ := update_hexagon_vertex_sq hex i
    have hφ := Real.cos_sq_add_sin_sq (hex.angle + (i : ℝ) * Real.pi / 3)
    unfold point_length point_sub
    simp only
    rw [hx, hy]
    have e : hex.radius * Real.cos (hex.angle + (i : ℝ) * Real.pi / 3)
          * (hex.radius * Real.cos (hex.angle + (i : ℝ) * Real.pi / 3))
        + hex.radius * Real.sin (hex.angle + (i : ℝ) * Real.pi / 3)
          * (hex.radius * Real.sin (hex.angle + (i : ℝ) * Real.pi / 3))
        = hex.radius * hex.radius := by
      linear_combination (hex.radius * hex.radius) * hφ
    rw [e]
    exact Real.sqrt_mul_self hR
  · unfold point_dot at hsq
    unfold point_length
    rw [hsq]
    exact Real.sqrt_mul_self hR
  · intro hpos
    have hne : point_dot
        (point_sub ((update_hexagon hex).vertices ((i + 1) % 6)) ((update_hexagon hex).vertices i))
        (point_sub ((update_hexagon hex).vertices ((i + 1) % 6)) ((update_hexagon hex).vertices i))
        ≠ 0 := by
      rw [hsq]
      exact ne_of_gt (mul_pos hpos hpos)
    refine ⟨?_, hne⟩
    intro heq
    apply hne
    rw [heq]
    unfold point_dot point_sub
    simp
  · intro hpos
    have h := G25.edge_len_eq g i hpos
    exact ⟨h, by rw [h]; exact ne_of_gt hpos⟩

/-- Witness for C14: vertex 0 of the hexagon of `main` lies at distance 200 from the centre. -/
theorem update_hexagon_regular_witness :
    ((0 : ℕ) < 6 ∧ (0 : ℝ) ≤ (⟨⟨400, 300⟩, 200, 0, fun _ => ⟨0, 0⟩⟩ : Hexagon).radius)
      ∧ point_length
          (point_sub ((update_hexagon ⟨⟨400, 300⟩, 200, 0, fun _ => ⟨0, 0⟩⟩).vertices 0)
            ⟨400, 300⟩) = 200 :=
  ⟨⟨by norm_num, by norm_num⟩,
    (update_hexagon_regular ⟨⟨400, 300⟩, 200, 0, fun _ => ⟨0, 0⟩⟩ 0 ⟨⟨0, 0⟩, 1, 0, 0⟩
      (by norm_num) (by norm_num)).1⟩

end C4SR

namespace L4M

/-- For an edge of non-zero length the vector `normal` has length one. -/
theorem cc_normal_unit (center : Point) (size angle : ℝ) (i : ℕ)
    (hL : cc_length center size angle i ≠ 0) :
    (cc_normal center size angle i).x * (cc_normal center size angle i).x
      + (cc_normal center size angle i).y * (cc_normal center size angle i).y = 1 := by
  have hsq : cc_length center size angle i * cc_length center size angle i
      = ((cc_vertex2 center size angle i).y - (cc_vertex1 center size angle i).y)
          * ((cc_vertex2 center size angle i).y - (cc_vertex1 center size angle i).y)
        + ((cc_vertex1 center size angle i).x - (cc_vertex2 center size angle i).x)
          * ((cc_vertex1 center size angle i).x - (cc_vertex2 center size angle i).x) := by
    unfold cc_length
    exact Real.mul_self_sqrt (add_nonneg (mul_self_nonneg _) (mul_self_nonneg _))
  unfold cc_normal
  simp only
  field_simp
  linarith

/-- Right after the correction of an edge whose test fired, the ball centre lies on the line
of that edge: `dot(position - vertex1, normal) = 0`. -/
theorem cc_edge_step_on_line (ball : Ball) (center : Point) (size angle : ℝ) (i : ℕ)
    (hL : cc_length center size angle i ≠ 0)
    (hf : cc_distance ball center size angle i < ((BALL_SIZE / 2 : ℕ) : ℝ)) :
    cc_distance (cc_edge_step ball center size angle i) center size angle i = 0 := by
  have hu := cc_normal_unit center size angle i hL
  have hpos : (cc_edge_step ball center size angle i).position
      = ⟨ball.position.x - cc_distance ball center size angle i * (cc_normal center size angle i).x,
          ball.position.y
            - cc_distance ball center size angle i * (cc_normal center size angle i).y⟩ := by
    unfold cc_edge_step
    simp only [hf, if_true]
  have hd : cc_distance (cc_edge_step ball center size angle i) center size angle i
      = ((cc_edge_step ball center size angle i).position.x - (cc_vertex1 center size angle i).x)
          * (cc_normal center size angle i).x
        + ((cc_edge_step ball center size angle i).position.y
            - (cc_vertex1 center size angle i).y) * (cc_normal center size angle i).y := rfl
  have hd0 : cc_distance ball center size angle i
      = (ball.position.x - (cc_vertex1 center size angle i).x) * (cc_normal center size angle i).x
        + (ball.position.y - (cc_vertex1 center size angle i).y)
          * (cc_normal center size angle i).y := rfl
  rw [hd, hpos]
  simp only
  set d := cc_distance ball center size angle i
  set nx := (cc_normal center size angle i).x
  set ny := (cc_normal center size angle i).y
  linear_combination -hd0 - d * hu

/-- Edge 0 of the hexagon of `main` at angle 0: first vertex, length and normal. -/
theorem main_edge_zero :
    cc_vertex1 main_center HEXAGON_SIZE 0 0 = ⟨600, 300⟩
      ∧ cc_length main_center HEXAGON_SIZE 0 0 = 200
      ∧ cc_normal main_center HEXAGON_SIZE 0 0 = ⟨Real.sqrt 3 / 2, 1 / 2⟩ := by
  obtain ⟨h0, h1, -, -, -, -⟩ := Geom.hex_trig_values
  obtain ⟨hs, -, -⟩ := Geom.sqrt_three_bounds
  have e0 : (0 : ℝ) + ((0 : ℕ) : ℝ) * Real.pi / 3 = 0 * (Real.pi / 3) := by push_cast; ring
  have e1 : (0 : ℝ) + (((0 + 1) % 6 : ℕ) : ℝ) * Real.pi / 3 = 1 * (Real.pi / 3) := by
    norm_num
  have hv1 : cc_vertex1 main_center HEXAGON_SIZE 0 0 = ⟨600, 300⟩ := by
    unfold cc_vertex1 main_center HEXAGON_SIZE
    simp only
    rw [e0, h0.1, h0.2]
    simp only [Point.mk.injEq]
    constructor <;> ring
  have hv2 : cc_vertex2 main_center HEXAGON_SIZE 0 0 = ⟨500, 300 + 100 * Real.sqrt 3⟩ := by
    unfold cc_vertex2 main_center HEXAGON_SIZE
    simp only
    rw [e1, h1.1, h1.2]
    simp only [Point.mk.injEq]
    constructor <;> ring
  have hlen : cc_length main_center HEXAGON_SIZE 0 0 = 200 := by
    unfold cc_length
    rw [hv1, hv2]
    simp only
    have : (300 + 100 * Real.sqrt 3 - 300) * (300 + 100 * Real.sqrt 3 - 300)
        + (600 - 500 : ℝ) * (600 - 500) = 200 * 200 := by
      linear_combination 10000 * hs
    rw [this]
    exact Real.sqrt_mul_self (by norm_num)
  refine ⟨hv1, hlen, ?_⟩
  unfold cc_normal
  rw [hv1, hv2, hlen]
  simp only [Point.mk.injEq]
  constructor
  · ring
  · norm_num

/-- C15 (l4m): on the first call of `check_collision` in `main` (the initial ball after
`update_ball`, hexagon of size 200 at angle 0) the test `distance < BALL_SIZE / 2` of edge 0
fires, and right after the correction `position -= distance * normal` the signed distance
`dot(position - vertex1, normal)` of the ball centre to that edge line is 0, not the ball radius
`BALL_SIZE / 2 = 10`: the ball is moved by `-distance`, not by `radius - distance`. -/
theorem correction_puts_centre_on_line :
    0 < HEXAGON_SIZE
      ∧ ((BALL_SIZE / 2 : ℕ) : ℝ) = 10
      ∧ cc_distance (update_ball main_ball) main_center HEXAGON_SIZE 0 0
        < ((BALL_SIZE / 2 : ℕ) : ℝ)
      ∧ (cc_edge_step (update_ball main_ball) main_center HEXAGON_SIZE 0 0).position
        = ⟨(update_ball main_ball).position.x
              - cc_distance (update_ball main_ball) main_center HEXAGON_SIZE 0 0
                * (cc_normal main_center HEXAGON_SIZE 0 0).x,
            (update_ball main_ball).position.y
              - cc_distance (update_ball main_ball) main_center HEXAGON_SIZE 0 0
                * (cc_normal main_center HEXAGON_SIZE 0 0).y⟩
      ∧ cc_distance (cc_edge_step (update_ball main_ball) main_center HEXAGON_SIZE 0 0)
          main_center HEXAGON_SIZE 0 0 = 0
      ∧ cc_distance (cc_edge_step (update_ball main_ball) main_center HEXAGON_SIZE 0 0)
          main_center HEXAGON_SIZE 0 0 ≠ ((BALL_SIZE / 2 : ℕ) : ℝ) := by
  obtain ⟨hv1, hlen, hn⟩ := main_edge_zero
  obtain ⟨hs, hlo, hhi⟩ := Geom.sqrt_three_bounds
  have hten : ((BALL_SIZE / 2 : ℕ) : ℝ) = 10 := by
    unfold BALL_SIZE
    norm_num
  have hL : cc_length main_center HEXAGON_SIZE 0 0 ≠ 0 := by rw [hlen]; norm_num
  have hb : update_ball main_ball = ⟨⟨402, 2951 / 10⟩, ⟨2, -(49 / 10)⟩⟩ := by
    unfold update_ball main_ball GRAVITY
    norm_num
  have hf : cc_distance (update_ball main_ball) main_center HEXAGON_SIZE 0 0
      < ((BALL_SIZE / 2 : ℕ) : ℝ) := by
    rw [hten, hb]
    unfold cc_distance
    rw [hv1, hn]
    simp only
    linarith
  have h0 := cc_edge_step_on_line (update_ball main_ball) main_center HEXAGON_SIZE 0 0 hL hf
  refine ⟨by unfold HEXAGON_SIZE; norm_num, hten, hf, ?_, h0, ?_⟩
  · unfold cc_edge_step
    simp only [hf, if_true]
  · rw [h0, hten]
    norm_num

end L4M

namespace G4

/-- C16 (g4): for every `pos`, `p1`, `p2`, `closest_on_segment(pos, p1, p2)` returns a point
`c = p1 + s * (p2 - p1)` with `0 ≤ s ≤ 1` that minimises the distance to `pos` over the segment:
`|pos - c| ≤ |pos - (p1 + s' * (p2 - p1))|` for every `s'` in `[0, 1]`; when `p1 = p2` it
returns `p1`. -/
theorem closest_on_segment_minimises (pos p1 p2 : Point) :
    (∃ s : ℝ, 0 ≤ s ∧ s ≤ 1 ∧ closest_on_segment pos p1 p2 = seg_point p1 p2 s)
      ∧ (∀ s' : ℝ, 0 ≤ s' → s' ≤ 1 →
          point_dist pos (closest_on_segment pos p1 p2) ≤ point_dist pos (seg_point p1 p2 s'))
      ∧ closest_on_segment pos p1 p1 = p1 := by
  refine ⟨closest_on_segment_mem pos p1 p2, fun s' h0 h1 => closest_on_segment_le pos p1 p2 s' h0 h1,
    ?_⟩
  unfold closest_on_segment
  simp

/-- C18 (g4): with a stationary wall (`omega = 0`), for every ball state and edge,
`resolve_collision` never increases the speed of the ball, `vx'^2 + vy'^2 ≤ vx^2 + vy^2`, with
equality when no velocity response is applied (`dist ≥ BALL_RADIUS`, `dist = 0`, or
`v_n ≥ 0`). -/
theorem resolve_collision_never_speeds_up (ball : Ball) (p1 p2 center : Point) :
    (resolve_collision ball p1 p2 center 0).vx ^ 2 + (resolve_collision ball p1 p2 center 0).vy ^ 2
        ≤ ball.vx ^ 2 + ball.vy ^ 2
      ∧ ((rc_dist ball p1 p2 ≥ BALL_RADIUS ∨ rc_dist ball p1 p2 = 0
            ∨ rc_v_n ball p1 p2 center 0 ≥ 0) →
          (resolve_collision ball p1 p2 center 0).vx ^ 2
            + (resolve_collision ball p1 p2 center 0).vy ^ 2 = ball.vx ^ 2 + ball.vy ^ 2) := by
  refine ⟨resolve_collision_speed_le ball p1 p2 center, ?_⟩
  intro h
  obtain ⟨hx, hy⟩ := resolve_collision_vel_kept ball p1 p2 center 0 h
  rw [hx, hy]

end G4

namespace G25

/-- A fired edge moves the ball centre. -/
theorem edge_step_pos_ne (hexagon : Hexagon) (ball : Ball) (i : ℕ) (hR : 0 < hexagon.radius)
    (h : edge_dist hexagon ball i < ball.radius) : (edge_step hexagon ball i).pos ≠ ball.pos := by
  have hu := edge_normal_unit hexagon i hR
  rw [edge_step_pos_of_fired hexagon ball i h]
  intro heq
  have hx := congrArg Vec2D.x heq
  have hy := congrArg Vec2D.y heq
  simp only at hx hy
  have ho : ball.radius - edge_dist hexagon ball i ≠ 0 := ne_of_gt (by linarith)
  have hnx : (edge_normal hexagon i).x = 0 := by
    have : (edge_normal hexagon i).x * (ball.radius - edge_dist hexagon ball i) = 0 := by linarith
    rcases mul_eq_zero.mp this with h0 | h0
    · exact h0
    · exact absurd h0 ho
  have hny : (edge_normal hexagon i).y = 0 := by
    have : (edge_normal hexagon i).y * (ball.radius - edge_dist hexagon ball i) = 0 := by linarith
    rcases mul_eq_zero.mp this with h0 | h0
    · exact h0
    · exact absurd h0 ho
  rw [hnx, hny] at hu
  norm_num at hu

end G25
